import Mathlib

/-!
# wsh: a shallow embedding of the command execution engine

The definitions below follow `src/wsh.c` and `src/dynamic_array.c` function by
function.  A C string is a list of characters (the terminating NUL is the end
of the list), a `char **argv` with its `argc` is a list of C strings whose
`argv[argc]` is the NULL terminator, and a NULL pointer is `none`.
Allocation (`strdup`, `malloc`, `calloc`, `realloc`) is taken to succeed, and
the fixed-size arrays (`argvv`, `tmp_argv`, the per-stage tables) are lists,
so a write past their end is not represented.  A call of `strlen` on NULL is
the outcome `fault`.

The globals `rc`, `alias_hm`, `history_da` and the variable `PATH` form the
state `Shell`, passed in and out explicitly.  What the operating system
answers (`access`, `chdir`, `setenv`, `pipe`, `fork`, `waitpid`) is a `World`
given to each command, and what the shell does (messages, pipes, processes)
is returned as a list of `Event`s.  `MAX_ARGS` and the message macros come
from `wsh.h`, which is not under `src/`: `MAX_ARGS` is a parameter and each
message is a constructor of `Msg`.  The alias table of `hash_map.c`, equally
absent, is an association list.
-/

namespace Wsh

/-- A C string: its characters up to, and without, the terminating NUL. -/
abbrev CStr := List Char

/-- The single quote character. -/
def QUOTE : Char := Char.ofNat 39

/-- The newline character. -/
def NEWLINE : Char := Char.ofNat 10

/-- The space character. -/
def SPACE : Char := Char.ofNat 32

/-- The value of `EXIT_SUCCESS`. -/
def EXIT_SUCCESS : Nat := 0

/-- The value of `EXIT_FAILURE`. -/
def EXIT_FAILURE : Nat := 1

/-- The internal code `#define RC_EXIT_REQUEST 2`. -/
def RC_EXIT_REQUEST : Nat := 2

/-! ## Tokenizer (`parseline_no_subst`) -/

/-- The libc `strchr(p, c)` for a non-NUL `c`, followed by the source's
`*token = 0; p = token + 1`: the text before the first `c` and the text after
it, or `none` when `c` does not occur. -/
def strchr (c : Char) : List Char → Option (List Char × List Char)
  | [] => none
  | x :: xs =>
    if x = c then some ([], xs)
    else
      match strchr c xs with
      | none => none
      | some (tok, p) => some (x :: tok, p)

/-- The loop `while (*p && *p == ' ') p++;`. -/
def skip_spaces : List Char → List Char
  | [] => []
  | x :: xs => if x = SPACE then skip_spaces xs else x :: xs

/-- The buffer `buf` of `parseline_no_subst`: a trailing newline is replaced
by a space, otherwise a space is appended. -/
def line_buffer (cmdline : CStr) : List Char :=
  if cmdline.getLast? = some NEWLINE then cmdline.dropLast ++ [SPACE]
  else cmdline ++ [SPACE]

/-- The main loop `while (*p) ...` of `parseline_no_subst`, one iteration per
unit of fuel, started at `p`.  The result is `none` when an opening quote has
no closing quote (the source then frees every token read so far and sets
`*argc = 0`), and otherwise the tokens read from `p` on. -/
def token_loop : Nat → List Char → Option (List CStr)
  | 0, _ => some []
  | _ + 1, [] => some []
  | fuel + 1, c :: rest =>
    if c = QUOTE then
      match strchr QUOTE rest with
      | none => none
      | some (tok, p) =>
        match token_loop fuel (skip_spaces p) with
        | none => none
        | some toks => some (tok :: toks)
    else
      match strchr SPACE (c :: rest) with
      | none => some []
      | some (tok, p) =>
        match token_loop fuel (skip_spaces p) with
        | none => none
        | some toks => some (tok :: toks)

/-- What `parseline_no_subst` hands back: the tokens `argv[0..argc)` and
whether `wsh_warn(MISSING_CLOSING_QUOTE)` was called (which also sets the
global `rc` to `EXIT_FAILURE`). -/
structure Parsed where
  argv : List CStr
  warned : Bool
deriving DecidableEq, Repr

/-- The function `parseline_no_subst` for a non-NULL `cmdline` (every caller
passes one).  Each iteration of the loop consumes at least one character of
the buffer, so its length is enough fuel. -/
def parseline_no_subst (cmdline : CStr) : Parsed :=
  match token_loop (line_buffer cmdline).length (skip_spaces (line_buffer cmdline)) with
  | none => { argv := [], warned := true }
  | some toks => { argv := toks, warned := false }

/-! ## Shared data: outcomes, messages, events, the alias table, the history -/

/-- The outcome of a call: the value it returns, or `fault` where the source
dereferences a NULL pointer (undefined behaviour, in practice a crash of the
shell). -/
inductive Outcome (α : Type) where
  | ret (a : α)
  | fault
deriving DecidableEq, Repr

/-- The message macros of `wsh.h` (not under `src/`), each with the arguments
the source passes to its format string.  An argument the source may pass as
NULL is an `Option`. -/
inductive Msg where
  | PROMPT
  | MISSING_CLOSING_QUOTE
  | EMPTY_PATH
  | CMD_NOT_FOUND (name : Option CStr)
  | INVALID_EXIT_USE
  | INVALID_PATH_USE
  | INVALID_CD_USE
  | CD_NO_HOME
  | INVALID_WHICH_USE
  | WHICH_ALIAS (name value : CStr)
  | WHICH_BUILTIN (name : CStr)
  | WHICH_EXTERNAL (name path : CStr)
  | WHICH_NOT_FOUND (name : CStr)
  | HISTORY_INVALID_ARG
  | INVALID_HISTORY_USE
  | INVALID_ALIAS_USE
  | INVALID_UNALIAS_USE
  | EMPTY_PIPE_SEGMENT
  | INVALID_WSH_USE
deriving DecidableEq, Repr

/-- What a spawned process of stage `i` goes on to do: run a builtin and
`_exit`, or `execv` a program. -/
inductive Child where
  | builtin (argv : List CStr)
  | execv (path : Option CStr) (argv : List CStr)
deriving DecidableEq, Repr

/-- Modelled from the spec: `hash_map.c` is not under `src/`.  The alias table
is a mapping from alias name to replacement text; here an association list
with at most one entry per name in use. -/
abbrev HashMap := List (CStr × CStr)

/-- Modelled from the spec: `hm_get` of the absent `hash_map.c`, the
replacement text bound to `key`, or NULL. -/
def hm_get : HashMap → CStr → Option CStr
  | [], _ => none
  | (k, v) :: rest, key => if k = key then some v else hm_get rest key

/-- Modelled from the spec: `hm_delete` of the absent `hash_map.c`, removing
the binding of `key` if present. -/
def hm_delete : HashMap → CStr → HashMap
  | [], _ => []
  | (k, v) :: rest, key => if k = key then hm_delete rest key else (k, v) :: hm_delete rest key

/-- Modelled from the spec: `hm_put` of the absent `hash_map.c`, creating or
overwriting the binding of `key`. -/
def hm_put (hm : HashMap) (key value : CStr) : HashMap :=
  (key, value) :: hm_delete hm key

/-- The observable actions of the shell, in the order they happen;
`stderr_text` is a literal text printed on `stderr`. -/
inductive Event where
  | stderr (m : Msg)
  | stderr_text (text : CStr)
  | stdout (m : Msg)
  | puts (line : CStr)
  | hm_print_sorted (hm : HashMap)
  | perror (what : CStr)
  | setenv_PATH (value : CStr)
  | chdir (target : CStr)
  | pipe (i : Nat)
  | fork (i : Nat) (child : Child)
  | waitpid (i : Nat)
deriving DecidableEq, Repr

/-- The `DynamicArray` of `dynamic_array.c`: `data` holds the `size` stored
strings, so `size` is its length. -/
structure DynamicArray where
  data : List CStr
  capacity : Nat
deriving DecidableEq, Repr

/-- The field `size`. -/
def DynamicArray.size (da : DynamicArray) : Nat := da.data.length

/-- The function `da_create`. -/
def da_create (init_capacity : Nat) : DynamicArray :=
  { data := [], capacity := init_capacity }

/-- The function `da_put`: doubles the capacity when the array is full, then
stores a copy of `val` at index `size`. -/
def da_put (da : DynamicArray) (val : CStr) : DynamicArray :=
  let capacity := if da.size = da.capacity then da.capacity * 2 else da.capacity
  { data := da.data ++ [val], capacity := capacity }

/-- The function `da_get`: NULL when `ind >= size`. -/
def da_get (da : DynamicArray) (ind : Nat) : Option CStr :=
  if ind ≥ da.size then none else da.data.get? ind

/-- The process-wide state: the globals `rc`, `alias_hm` and `history_da`
(created by `main` before either read loop runs) and the environment variable
`PATH`. -/
structure Shell where
  rc : Nat
  alias_hm : HashMap
  history_da : DynamicArray
  PATH : Option CStr
deriving DecidableEq, Repr

/-- The operating system as seen during one command: the answers of the
system calls the shell makes.  `waitpid i` is the status stored for the
process of stage `i`, or `none` when `waitpid` fails. -/
structure World where
  access_x : CStr → Bool
  HOME : Option CStr
  chdir_ok : CStr → Bool
  setenv_ok : Bool
  pipe_ok : Nat → Bool
  fork_ok : Nat → Bool
  waitpid : Nat → Option Nat

/-- The result of running a piece of the shell: the state after it, what it
did, and the value it returned. -/
structure Run where
  st : Shell
  out : List Event
  code : Outcome Nat
deriving DecidableEq, Repr

/-- The function `wsh_warn`: prints the message and sets `rc`. -/
def wsh_warn (st : Shell) : Shell := { st with rc := EXIT_FAILURE }

/-- The macro `WIFEXITED` of `<sys/wait.h>`: the low seven bits are zero. -/
def WIFEXITED (status : Nat) : Bool := status % 128 = 0

/-- The macro `WEXITSTATUS` of `<sys/wait.h>`: bits 8 to 15. -/
def WEXITSTATUS (status : Nat) : Nat := (status / 256) % 256

/-- The closing lines of `execute_one` and `run_pipeline`: success iff the
status is a normal exit with code 0. -/
def status_code (status : Nat) : Nat :=
  if WIFEXITED status then
    (if WEXITSTATUS status = 0 then EXIT_SUCCESS else EXIT_FAILURE)
  else EXIT_FAILURE

/-! ## Path resolution -/

/-- The function `is_abs_or_rel`. -/
def is_abs_or_rel : Option CStr → Bool
  | none => false
  | some [] => false
  | some (c :: _) => c = '/' ∨ c = '.'

/-- The pieces of `s` between occurrences of `d`, empty ones included. -/
def split_on (d : Char) : List Char → List (List Char)
  | [] => [[]]
  | x :: xs =>
    if x = d then [] :: split_on d xs
    else
      match split_on d xs with
      | [] => [[x]]
      | h :: t => (x :: h) :: t

/-- The successive results of `strtok_r(copy, ":", &save)` and
`strtok_r(NULL, ":", &save)`: the non-empty pieces between colons. -/
def strtok_r (s : CStr) : List CStr :=
  (split_on ':' s).filter (fun tok => tok ≠ [])

/-- The loop `while (tok)` of `find_in_path`.  `strlen(cmd)` on a NULL `cmd`
is a fault. -/
def search_dirs (w : World) (cmd : Option CStr) : List CStr → Outcome (Option CStr)
  | [] => Outcome.ret none
  | tok :: rest =>
    if tok ≠ [] then
      match cmd with
      | none => Outcome.fault
      | some c =>
        if w.access_x (tok ++ '/' :: c) then Outcome.ret (some (tok ++ '/' :: c))
        else search_dirs w cmd rest
    else search_dirs w cmd rest

/-- The test `!path_env || path_env[0] == 0` on `getenv("PATH")`. -/
def path_empty : Option CStr → Bool
  | none => true
  | some [] => true
  | some (_ :: _) => false

/-- The function `find_in_path`: what it prints and the path it returns
(`none` is NULL). -/
def find_in_path (w : World) (PATH : Option CStr) (cmd : Option CStr) :
    List Event × Outcome (Option CStr) :=
  match PATH with
  | none => ([Event.stderr Msg.EMPTY_PATH], Outcome.ret none)
  | some [] => ([Event.stderr Msg.EMPTY_PATH], Outcome.ret none)
  | some (c :: cs) => ([], search_dirs w cmd (strtok_r (c :: cs)))

/-- The function `execute_one`. -/
def execute_one (w : World) (st : Shell) (argv : List CStr) : Run :=
  match argv with
  | [] => { st := st, out := [], code := Outcome.ret EXIT_SUCCESS }
  | a0 :: _ =>
    let resolved : List Event × Outcome (Option CStr) :=
      if is_abs_or_rel (some a0) then ([], Outcome.ret (some a0))
      else find_in_path w st.PATH (some a0)
    match resolved with
    | (ev, Outcome.fault) => { st := st, out := ev, code := Outcome.fault }
    | (ev, Outcome.ret none) =>
      { st := st,
        out := ev ++ (if path_empty st.PATH then [] else [Event.stderr (Msg.CMD_NOT_FOUND (some a0))]),
        code := Outcome.ret EXIT_FAILURE }
    | (ev, Outcome.ret (some exec_path)) =>
      if w.fork_ok 0 then
        match w.waitpid 0 with
        | none =>
          { st := st,
            out := ev ++ [Event.fork 0 (Child.execv (some exec_path) argv), Event.waitpid 0,
                          Event.perror "waitpid".toList],
            code := Outcome.ret EXIT_FAILURE }
        | some status =>
          { st := st,
            out := ev ++ [Event.fork 0 (Child.execv (some exec_path) argv), Event.waitpid 0],
            code := Outcome.ret (status_code status) }
      else
        { st := st, out := ev ++ [Event.perror "fork".toList], code := Outcome.ret EXIT_FAILURE }

/-! ## History -/

/-- The function `history_add_raw_line` for a non-NULL line: a trailing
newline is removed and the copy is appended. -/
def history_add_raw_line (st : Shell) (line : CStr) : Shell :=
  let tmp := if line.getLast? = some NEWLINE then line.dropLast else line
  { st with history_da := da_put st.history_da tmp }

/-- The function `history_get_line`. -/
def history_get_line (st : Shell) (idx : Nat) : Option CStr := da_get st.history_da idx

/-- The function `history_count`. -/
def history_count (st : Shell) : Nat := st.history_da.size

/-! ## Builtins -/

/-- The function `is_builtin_name`. -/
def is_builtin_name : Option CStr → Bool
  | none => false
  | some name =>
    name = "exit".toList || name = "path".toList || name = "cd".toList ||
    name = "which".toList || name = "history".toList || name = "alias".toList ||
    name = "unalias".toList

/-- The function `builtin_exit`. -/
def builtin_exit (st : Shell) (argv : List CStr) : Run :=
  if argv.length ≠ 1 then
    { st := st, out := [Event.stderr Msg.INVALID_EXIT_USE], code := Outcome.ret EXIT_FAILURE }
  else { st := st, out := [], code := Outcome.ret RC_EXIT_REQUEST }

/-- The function `builtin_path`. -/
def builtin_path (w : World) (st : Shell) (argv : List CStr) : Run :=
  match argv with
  | [_] => { st := st, out := [Event.puts (st.PATH.getD [])], code := Outcome.ret EXIT_SUCCESS }
  | [_, a1] =>
    if w.setenv_ok then
      { st := { st with PATH := some a1 }, out := [Event.setenv_PATH a1],
        code := Outcome.ret EXIT_SUCCESS }
    else { st := st, out := [Event.perror "setenv".toList], code := Outcome.ret EXIT_FAILURE }
  | _ => { st := st, out := [Event.stderr Msg.INVALID_PATH_USE], code := Outcome.ret EXIT_FAILURE }

/-- The tail of `builtin_cd`: `chdir(target)`. -/
def cd_to (w : World) (st : Shell) (target : CStr) : Run :=
  if w.chdir_ok target then
    { st := st, out := [Event.chdir target], code := Outcome.ret EXIT_SUCCESS }
  else { st := st, out := [Event.perror "cd".toList], code := Outcome.ret EXIT_FAILURE }

/-- The function `builtin_cd`.  With `argc == 0` (never the case at a call
site) the source reads `argv[1]` past the terminator. -/
def builtin_cd (w : World) (st : Shell) (argv : List CStr) : Run :=
  match argv with
  | [] => { st := st, out := [], code := Outcome.fault }
  | [_] =>
    match w.HOME with
    | none => { st := st, out := [Event.stderr Msg.CD_NO_HOME], code := Outcome.ret EXIT_FAILURE }
    | some home => cd_to w st home
  | [_, a1] => cd_to w st a1
  | _ => { st := st, out := [Event.stderr Msg.INVALID_CD_USE], code := Outcome.ret EXIT_FAILURE }

/-- The function `builtin_which`. -/
def builtin_which (w : World) (st : Shell) (argv : List CStr) : Run :=
  match argv with
  | [_, name] =>
    match hm_get st.alias_hm name with
    | some aliased_cmd =>
      { st := st, out := [Event.stdout (Msg.WHICH_ALIAS name aliased_cmd)],
        code := Outcome.ret EXIT_SUCCESS }
    | none =>
      if is_builtin_name (some name) then
        { st := st, out := [Event.stdout (Msg.WHICH_BUILTIN name)],
          code := Outcome.ret EXIT_SUCCESS }
      else if is_abs_or_rel (some name) then
        if w.access_x name then
          { st := st, out := [Event.stdout (Msg.WHICH_EXTERNAL name name)],
            code := Outcome.ret EXIT_SUCCESS }
        else
          { st := st, out := [Event.stdout (Msg.WHICH_NOT_FOUND name)],
            code := Outcome.ret EXIT_FAILURE }
      else
        match find_in_path w st.PATH (some name) with
        | (ev, Outcome.fault) => { st := st, out := ev, code := Outcome.fault }
        | (ev, Outcome.ret none) =>
          { st := st, out := ev ++ [Event.stdout (Msg.WHICH_NOT_FOUND name)],
            code := Outcome.ret EXIT_FAILURE }
        | (ev, Outcome.ret (some resolved)) =>
          { st := st, out := ev ++ [Event.stdout (Msg.WHICH_EXTERNAL name resolved)],
            code := Outcome.ret EXIT_SUCCESS }
  | _ => { st := st, out := [Event.stderr Msg.INVALID_WHICH_USE], code := Outcome.ret EXIT_FAILURE }

/-- The value of `LONG_MAX` where `long` has 64 bits. -/
def LONG_MAX : Int := 9223372036854775807

/-- The value of `LONG_MIN` where `long` has 64 bits. -/
def LONG_MIN : Int := -9223372036854775808

/-- The libc `isspace` in the C locale. -/
def isspace (c : Char) : Bool := c = ' ' || (9 ≤ c.toNat && c.toNat ≤ 13)

/-- The libc `isdigit`. -/
def isdigit (c : Char) : Bool := 48 ≤ c.toNat && c.toNat ≤ 57

/-- The value of a run of decimal digits. -/
def digits_value (ds : List Char) : Nat :=
  ds.foldl (fun acc d => 10 * acc + (d.toNat - 48)) 0

/-- The libc `strtol(nptr, &endp, 10)`: the converted value and the text at
`endp`.  White space and one sign are skipped; without a digit nothing is
converted and `endp` is `nptr`; a value out of range is clamped. -/
def strtol (nptr : CStr) : Int × List Char :=
  let s := nptr.dropWhile isspace
  let neg : Bool := s.head? = some '-'
  let s1 := if s.head? = some '-' ∨ s.head? = some '+' then s.tail else s
  let ds := s1.takeWhile isdigit
  if ds = [] then (0, nptr)
  else
    let v : Int := if neg then -(digits_value ds : Int) else (digits_value ds : Int)
    (max LONG_MIN (min LONG_MAX v), s1.dropWhile isdigit)

/-- The cast `(long)n` of a `size_t` where both have 64 bits. -/
def size_to_long (n : Nat) : Int :=
  if n % 2 ^ 64 < 2 ^ 63 then ((n % 2 ^ 64 : Nat) : Int) else ((n % 2 ^ 64 : Nat) : Int) - 2 ^ 64

/-- The function `builtin_history`. -/
def builtin_history (st : Shell) (argv : List CStr) : Run :=
  match argv with
  | [_] =>
    { st := st,
      out := (List.range (history_count st)).filterMap
        (fun i => (history_get_line st i).map Event.puts),
      code := Outcome.ret EXIT_SUCCESS }
  | [_, a1] =>
    let (idx, endp) := strtol a1
    if a1 = [] ∨ endp ≠ [] ∨ idx < 1 then
      { st := st, out := [Event.stderr Msg.HISTORY_INVALID_ARG], code := Outcome.ret EXIT_FAILURE }
    else if size_to_long (history_count st) < idx then
      { st := st, out := [Event.stderr Msg.HISTORY_INVALID_ARG], code := Outcome.ret EXIT_FAILURE }
    else
      match history_get_line st (idx - 1).toNat with
      | none =>
        { st := st, out := [Event.stderr Msg.HISTORY_INVALID_ARG],
          code := Outcome.ret EXIT_FAILURE }
      | some line => { st := st, out := [Event.puts line], code := Outcome.ret EXIT_SUCCESS }
  | _ => { st := st, out := [Event.stderr Msg.INVALID_HISTORY_USE], code := Outcome.ret EXIT_FAILURE }

/-- The usage failure of `builtin_alias`. -/
def alias_usage (st : Shell) : Run :=
  { st := st, out := [Event.stderr Msg.INVALID_ALIAS_USE], code := Outcome.ret EXIT_FAILURE }

/-- The tail of `builtin_alias` once `argc` is 3 or 4: the checks on `argv[2]`
and `argv[1]`, then `hm_put`. -/
def alias_bind (st : Shell) (a1 a2 value : CStr) : Run :=
  if a2 ≠ "=".toList then alias_usage st
  else if a1 = [] then alias_usage st
  else
    { st := { st with alias_hm := hm_put st.alias_hm a1 value }, out := [],
      code := Outcome.ret EXIT_SUCCESS }

/-- The function `builtin_alias`. -/
def builtin_alias (st : Shell) (argv : List CStr) : Run :=
  match argv with
  | [_] =>
    { st := st, out := [Event.hm_print_sorted st.alias_hm], code := Outcome.ret EXIT_SUCCESS }
  | [_, a1, a2] => alias_bind st a1 a2 []
  | [_, a1, a2, a3] => alias_bind st a1 a2 a3
  | _ => alias_usage st

/-- The function `builtin_unalias`. -/
def builtin_unalias (st : Shell) (argv : List CStr) : Run :=
  match argv with
  | [_, a1] =>
    if a1 = [] then
      { st := st, out := [Event.stderr Msg.INVALID_UNALIAS_USE], code := Outcome.ret EXIT_FAILURE }
    else
      { st := { st with alias_hm := hm_delete st.alias_hm a1 }, out := [],
        code := Outcome.ret EXIT_SUCCESS }
  | _ => { st := st, out := [Event.stderr Msg.INVALID_UNALIAS_USE], code := Outcome.ret EXIT_FAILURE }

/-- The `strcmp` chain that `run_command` and the child of `run_pipeline` go
through once `is_builtin_name(use_argv[0])` holds. -/
def builtin_dispatch (w : World) (st : Shell) (name : CStr) (use_argv : List CStr) : Run :=
  if name = "exit".toList then builtin_exit st use_argv
  else if name = "path".toList then builtin_path w st use_argv
  else if name = "cd".toList then builtin_cd w st use_argv
  else if name = "which".toList then builtin_which w st use_argv
  else if name = "history".toList then builtin_history st use_argv
  else if name = "alias".toList then builtin_alias st use_argv
  else if name = "unalias".toList then builtin_unalias st use_argv
  else { st := st, out := [], code := Outcome.ret EXIT_FAILURE }

/-! ## Alias expansion -/

/-- What `maybe_expand_leading_alias` hands back: `*out_argv` (NULL, and the
return value 0, when nothing was expanded) and whether the tokenizer warned
about the alias text. -/
structure Expansion where
  out_argv : Option (List CStr)
  warned : Bool
deriving DecidableEq, Repr

/-- The function `maybe_expand_leading_alias`.  `MAX_ARGS` is the constant of
`wsh.h` (not under `src/`).  The first loop copies the tokens of the alias
text, the second the arguments `in_argv[1..]`, both only while
`new_argc < MAX_ARGS - 1`.  The source tokenizes the alias text into
`tmp_argv[MAX_ARGS]` with no bound test; the definition takes the tokens as a
list, and describes the function for alias texts of fewer than `MAX_ARGS`
tokens (`alias_texts_fit`). -/
def maybe_expand_leading_alias (MAX_ARGS : Nat) (hm : HashMap) (in_argv : List CStr) :
    Expansion :=
  match in_argv with
  | [] => { out_argv := none, warned := false }
  | a0 :: rest =>
    match hm_get hm a0 with
    | none => { out_argv := none, warned := false }
    | some val =>
      let tmp := parseline_no_subst val
      let first := tmp.argv.take (MAX_ARGS - 1)
      let second := rest.take (MAX_ARGS - 1 - first.length)
      { out_argv := some (first ++ second), warned := tmp.warned }

/-- The state after the tokenizer has or has not called `wsh_warn`. -/
def warn_state (warned : Bool) (st : Shell) : Shell := if warned then wsh_warn st else st

/-- What the tokenizer has or has not printed. -/
def warn_events (warned : Bool) : List Event :=
  if warned then [Event.stderr Msg.MISSING_CLOSING_QUOTE] else []

/-! ## Pipelines -/

/-- The token that separates stages. -/
def PIPE : CStr := ['|']

/-- The dead variable `segs` of `run_pipeline`: the number of segments,
clamped to 128.  Nothing in the function reads it. -/
def segs (argv : List CStr) : Nat :=
  min (1 + (argv.filter (fun t => t = PIPE)).length) 128

/-- One entry of the per-stage tables `seg_argvs`, `exp_argvs` and
`exec_paths`. -/
structure Stage where
  seg_argv : List CStr
  exp_argv : Option (List CStr)
  exec_path : Option CStr
deriving DecidableEq, Repr

/-- The choice `exp_argvs[i] ? exp_argvs[i] : seg_argvs[i]`. -/
def Stage.use_argv (s : Stage) : List CStr :=
  match s.exp_argv with
  | some e => e
  | none => s.seg_argv

/-- How the handling of one segment ends: the function returns (or faults),
or the stage is recorded. -/
inductive Resolved where
  | abort (code : Outcome Nat)
  | ok (stage : Stage)
deriving DecidableEq, Repr

/-- The body of the first loop of `run_pipeline` for the segment
`argv[start..end)`: copy, empty-segment check, alias expansion, resolution. -/
def resolve_segment (MAX_ARGS : Nat) (w : World) (st : Shell) (seg : List CStr) :
    Shell × List Event × Resolved :=
  let out := seg.take (MAX_ARGS - 1)
  if seg.length = 0 then
    (st, [Event.stderr Msg.EMPTY_PIPE_SEGMENT], Resolved.abort (Outcome.ret EXIT_FAILURE))
  else
    let e := maybe_expand_leading_alias MAX_ARGS st.alias_hm out
    let st1 := warn_state e.warned st
    let ev1 := warn_events e.warned
    let use_argv := match e.out_argv with
      | some x => x
      | none => out
    let a0 := use_argv.head?
    if is_builtin_name a0 then
      (st1, ev1, Resolved.ok { seg_argv := out, exp_argv := e.out_argv, exec_path := none })
    else if is_abs_or_rel a0 then
      if w.access_x (a0.getD []) then
        (st1, ev1, Resolved.ok { seg_argv := out, exp_argv := e.out_argv, exec_path := none })
      else
        (st1, ev1 ++ [Event.stderr (Msg.CMD_NOT_FOUND a0)],
          Resolved.abort (Outcome.ret EXIT_FAILURE))
    else
      match find_in_path w st1.PATH a0 with
      | (ev, Outcome.fault) => (st1, ev1 ++ ev, Resolved.abort Outcome.fault)
      | (ev, Outcome.ret none) =>
        (st1,
          ev1 ++ ev ++ (if path_empty st1.PATH then [] else [Event.stderr (Msg.CMD_NOT_FOUND a0)]),
          Resolved.abort (Outcome.ret EXIT_FAILURE))
      | (ev, Outcome.ret (some p)) =>
        (st1, ev1 ++ ev,
          Resolved.ok { seg_argv := out, exp_argv := e.out_argv, exec_path := some p })

/-- How the first loop of `run_pipeline` ends: with a return from inside it,
or with the stage tables filled. -/
inductive Resolution where
  | abort (code : Outcome Nat)
  | stages (l : List Stage)
deriving DecidableEq, Repr

/-- The first loop `for (i = 0; i <= argc; i++)` of `run_pipeline`, at index
`i` with `rest = argv[i..argc)` and `cur = argv[start..i)`.  The stages are
those recorded from here on.  The source stores them in tables of 128 entries
with no test of the index; the definition keeps a list, and describes the
loop for at most 128 segments (beyond that it lists what the loop goes on to
store past the end of the tables). -/
def stage_loop (MAX_ARGS : Nat) (w : World) :
    Shell → List CStr → List CStr → Shell × List Event × Resolution
  | st, [], cur =>
    match resolve_segment MAX_ARGS w st cur with
    | (st1, ev, Resolved.abort c) => (st1, ev, Resolution.abort c)
    | (st1, ev, Resolved.ok s) => (st1, ev, Resolution.stages [s])
  | st, t :: rest, cur =>
    if t = PIPE then
      match resolve_segment MAX_ARGS w st cur with
      | (st1, ev, Resolved.abort c) => (st1, ev, Resolution.abort c)
      | (st1, ev, Resolved.ok s) =>
        match stage_loop MAX_ARGS w st1 rest [] with
        | (st2, ev2, Resolution.abort c) => (st2, ev ++ ev2, Resolution.abort c)
        | (st2, ev2, Resolution.stages l) => (st2, ev ++ ev2, Resolution.stages (s :: l))
    else stage_loop MAX_ARGS w st rest (cur ++ [t])

/-- The loop that creates the pipes, at index `i` with `k` pipes still to
create: what happened and whether every `pipe` call succeeded. -/
def pipe_loop (w : World) : Nat → Nat → List Event × Bool
  | _, 0 => ([], true)
  | i, k + 1 =>
    if w.pipe_ok i then
      match pipe_loop w (i + 1) k with
      | (ev, ok) => (Event.pipe i :: ev, ok)
    else ([Event.perror "pipe".toList], false)

/-- What the child of a stage does after `fork`. -/
def stage_child (s : Stage) : Child :=
  if is_builtin_name s.use_argv.head? then Child.builtin s.use_argv
  else
    match s.exec_path with
    | some p => Child.execv (some p) s.use_argv
    | none => Child.execv s.use_argv.head? s.use_argv

/-- The loop that spawns the stages, at index `i`: what happened and whether
every `fork` succeeded. -/
def fork_loop (w : World) : Nat → List Stage → List Event × Bool
  | _, [] => ([], true)
  | i, s :: rest =>
    if w.fork_ok i then
      match fork_loop w (i + 1) rest with
      | (ev, ok) => (Event.fork i (stage_child s) :: ev, ok)
    else ([Event.perror "fork".toList], false)

/-- The loop that reaps the stages, at index `i` with `k` stages still to
reap: the final value of `last_status`. -/
def wait_loop (w : World) (segs_total : Nat) : Nat → Nat → Nat → Nat
  | _, 0, last_status => last_status
  | i, k + 1, last_status =>
    match w.waitpid i with
    | some status =>
      wait_loop w segs_total (i + 1) k (if i = segs_total - 1 then status else last_status)
    | none => wait_loop w segs_total (i + 1) k last_status

/-- The function `run_pipeline`.  Its stage tables and `pids` have 128 entries
and `pipes` has 127; the definition describes the function for at most 128
segments. -/
def run_pipeline (MAX_ARGS : Nat) (w : World) (st : Shell) (argv : List CStr) : Run :=
  match stage_loop MAX_ARGS w st argv [] with
  | (st1, ev, Resolution.abort c) => { st := st1, out := ev, code := c }
  | (st1, ev, Resolution.stages l) =>
    let segs_total := l.length
    match pipe_loop w 0 (segs_total - 1) with
    | (evp, false) => { st := st1, out := ev ++ evp, code := Outcome.ret EXIT_FAILURE }
    | (evp, true) =>
      match fork_loop w 0 l with
      | (evf, false) => { st := st1, out := ev ++ evp ++ evf, code := Outcome.ret EXIT_FAILURE }
      | (evf, true) =>
        { st := st1,
          out := ev ++ evp ++ evf ++ (List.range segs_total).map Event.waitpid,
          code := Outcome.ret (status_code (wait_loop w segs_total 0 segs_total 0)) }

/-! ## Single commands and the read loop -/

/-- The function `run_command`. -/
def run_command (MAX_ARGS : Nat) (w : World) (st : Shell) (argv : List CStr) : Run :=
  if argv.length = 0 then { st := st, out := [], code := Outcome.ret EXIT_SUCCESS }
  else if argv.any (fun t => t = PIPE) then run_pipeline MAX_ARGS w st argv
  else
    let e := maybe_expand_leading_alias MAX_ARGS st.alias_hm argv
    let st1 := warn_state e.warned st
    let use_argv := match e.out_argv with
      | some x => x
      | none => argv
    let r : Run :=
      if is_builtin_name use_argv.head? then
        builtin_dispatch w st1 (use_argv.head?.getD []) use_argv
      else execute_one w st1 use_argv
    { r with out := warn_events e.warned ++ r.out }

/-- How one pass through the body of a read loop ends. -/
inductive Next where
  | continue
  | break
deriving DecidableEq, Repr

/-- The state after one pass through the body of a read loop, what the pass
did, and how it ended. -/
structure Iter where
  st : Shell
  out : List Event
  next : Outcome Next
deriving DecidableEq, Repr

/-- The body of the `while (1)` loop of `interactive_main` after `fgets` has
returned `line`.  The tokens go to `argvv[MAX_ARGS]`, which the tokenizer
fills with no bound test; the definition describes the body for lines of
fewer than `MAX_ARGS` tokens. -/
def interactive_step (MAX_ARGS : Nat) (w : World) (st : Shell) (line : CStr) : Iter :=
  let p := parseline_no_subst line
  let st1 := warn_state p.warned st
  if p.argv.length = 0 then { st := st1, out := warn_events p.warned, next := Outcome.ret Next.continue }
  else
    let r := run_command MAX_ARGS w st1 p.argv
    match r.code with
    | Outcome.fault => { st := r.st, out := warn_events p.warned ++ r.out, next := Outcome.fault }
    | Outcome.ret code =>
      if code = RC_EXIT_REQUEST then
        { st := r.st, out := warn_events p.warned ++ r.out, next := Outcome.ret Next.break }
      else
        { st := history_add_raw_line { r.st with rc := code } line,
          out := warn_events p.warned ++ r.out, next := Outcome.ret Next.continue }

/-- The body of the `while (fgets(...) != NULL)` loop of `batch_main` for the
line `line`.  The tokens go to `argvv[MAX_ARGS]`, which the tokenizer fills
with no bound test; the definition describes the body for lines of fewer than
`MAX_ARGS` tokens. -/
def batch_step (MAX_ARGS : Nat) (w : World) (st : Shell) (line : CStr) : Iter :=
  let p := parseline_no_subst line
  let st1 := warn_state p.warned st
  if p.argv.length > 0 then
    let r := run_command MAX_ARGS w st1 p.argv
    match r.code with
    | Outcome.fault => { st := r.st, out := warn_events p.warned ++ r.out, next := Outcome.fault }
    | Outcome.ret code =>
      if code = RC_EXIT_REQUEST then
        { st := r.st, out := warn_events p.warned ++ r.out, next := Outcome.ret Next.break }
      else
        { st := history_add_raw_line { r.st with rc := code } line,
          out := warn_events p.warned ++ r.out, next := Outcome.ret Next.continue }
  else { st := st1, out := warn_events p.warned, next := Outcome.ret Next.continue }

/-- The function `interactive_main` on the lines `fgets` returns, each with
the operating system as it is while the line runs; `ferror` is what
`ferror(stdin)` says at the end of the input.  The array `argvv[MAX_ARGS]` is
a list in the loop body `interactive_step`, so the definition describes the
function for lines of fewer than `MAX_ARGS` tokens (`lines_in_bounds`). -/
def interactive_main (MAX_ARGS : Nat) (ferror : Bool) :
    Shell → List (World × CStr) → Shell × List Event × Outcome Unit
  | st, [] =>
    if ferror then
      ({ st with rc := EXIT_FAILURE },
        [Event.stdout Msg.PROMPT, Event.stderr_text "fgets error\n".toList], Outcome.ret ())
    else (st, [Event.stdout Msg.PROMPT], Outcome.ret ())
  | st, (w, line) :: rest =>
    match interactive_step MAX_ARGS w st line with
    | { st := st1, out := ev, next := Outcome.fault } =>
      (st1, Event.stdout Msg.PROMPT :: ev, Outcome.fault)
    | { st := st1, out := ev, next := Outcome.ret Next.break } =>
      (st1, Event.stdout Msg.PROMPT :: ev, Outcome.ret ())
    | { st := st1, out := ev, next := Outcome.ret Next.continue } =>
      match interactive_main MAX_ARGS ferror st1 rest with
      | (st2, ev2, o) => (st2, Event.stdout Msg.PROMPT :: ev ++ ev2, o)

/-- The function `batch_main` once `fopen` has succeeded, on the lines `fgets`
returns: the state, what happened and the value returned.  The array
`argvv[MAX_ARGS]` is a list in the loop body `batch_step`, so the definition
describes the function for lines of fewer than `MAX_ARGS` tokens
(`lines_in_bounds`). -/
def batch_main (MAX_ARGS : Nat) (ferror : Bool) :
    Shell → List (World × CStr) → Run
  | st, [] =>
    if ferror then
      { st := st, out := [Event.perror "fgets".toList], code := Outcome.ret EXIT_FAILURE }
    else { st := st, out := [], code := Outcome.ret st.rc }
  | st, (w, line) :: rest =>
    match batch_step MAX_ARGS w st line with
    | { st := st1, out := ev, next := Outcome.fault } =>
      { st := st1, out := ev, code := Outcome.fault }
    | { st := st1, out := ev, next := Outcome.ret Next.break } =>
      { st := st1, out := ev, code := Outcome.ret st1.rc }
    | { st := st1, out := ev, next := Outcome.ret Next.continue } =>
      match batch_main MAX_ARGS ferror st1 rest with
      | { st := st2, out := ev2, code := c } => { st := st2, out := ev ++ ev2, code := c }

/-! ## Vocabulary for stating the claims -/

/-- The tokens read from `p` on, with all the fuel `p` can need. -/
def tokens_from (p : List Char) : Option (List CStr) := token_loop p.length p

/-- A piece of a command line as the tokenizer reads it: an unquoted word, or
a span between single quotes. -/
inductive Item where
  | word (w : CStr)
  | quoted (q : CStr)
deriving DecidableEq, Repr

/-- The token an item stands for. -/
def Item.text : Item → CStr
  | Item.word w => w
  | Item.quoted q => q

/-- The characters of an item in the line: the word itself, or the span with
its two quotes. -/
def Item.source : Item → List Char
  | Item.word w => w
  | Item.quoted q => QUOTE :: q ++ [QUOTE]

/-- A word is non-empty, holds no space and does not begin with a quote; a
quoted span holds no quote. -/
def Item.wellformed : Item → Prop
  | Item.word w => w ≠ [] ∧ SPACE ∉ w ∧ w.head? ≠ some QUOTE
  | Item.quoted q => QUOTE ∉ q

/-- A line laid out from items: each item comes after any number of spaces;
a word is followed by a space, a quoted span need not be. -/
def layout : List (Nat × Item) → List Char
  | [] => []
  | (n, Item.word w) :: rest =>
    List.replicate n SPACE ++ (Item.word w).source ++ SPACE :: layout rest
  | (n, Item.quoted q) :: rest =>
    List.replicate n SPACE ++ (Item.quoted q).source ++ layout rest

/-- The state `main` sets up before it enters a read loop: `rc` is
`EXIT_SUCCESS`, the alias table is empty, the history has capacity 16 and
`PATH` is `/bin`. -/
def initial_shell : Shell :=
  { rc := EXIT_SUCCESS, alias_hm := [], history_da := da_create 16, PATH := some "/bin".toList }

/-- A sample operating system: `/bin/true`, `/bin/false`, `/bin/ls` and
`/bin/cat` are executable, every system call succeeds, and the process of
stage `i` ends with the status `statuses i`. -/
def sample_world (statuses : Nat → Nat) : World :=
  { access_x := fun p =>
      p = "/bin/true".toList || p = "/bin/false".toList || p = "/bin/ls".toList ||
      p = "/bin/cat".toList,
    HOME := some "/root".toList,
    chdir_ok := fun _ => true,
    setenv_ok := true,
    pipe_ok := fun _ => true,
    fork_ok := fun _ => true,
    waitpid := fun i => some (statuses i) }

/-- The segments the first loop of `run_pipeline` goes through from index `i`
on, with `cur = argv[start..i)` and `rest = argv[i..argc)`: the runs of
tokens between `|` tokens. -/
def segments_from : List CStr → List CStr → List (List CStr)
  | cur, [] => [cur]
  | cur, t :: rest =>
    if t = PIPE then cur :: segments_from [] rest else segments_from (cur ++ [t]) rest

/-- The segments of a token sequence: the runs of tokens between `|` tokens,
empty ones included. -/
def pipeline_segments (argv : List CStr) : List (List CStr) := segments_from [] argv

/-- An event of the kind that creates a pipe or a process. -/
def Event.spawns : Event → Bool
  | Event.pipe _ => true
  | Event.fork _ _ => true
  | _ => false

/-- The text `s` denotes the integer `k`: it is white space, then at most one
sign, then one or more decimal digits whose value, negated after a minus
sign, is `k`. -/
def Denotes (s : CStr) (k : Int) : Prop :=
  ∃ ws sign ds : List Char,
    s = ws ++ sign ++ ds ∧ (∀ c ∈ ws, isspace c = true) ∧
    (sign = [] ∨ sign = ['+'] ∨ sign = ['-']) ∧
    ds ≠ [] ∧ (∀ c ∈ ds, isdigit c = true) ∧
    k = if sign = ['-'] then -(digits_value ds : Int) else (digits_value ds : Int)

/-- A return value that is plain success or plain failure. -/
def Outcome.plain (c : Outcome Nat) : Prop :=
  c = Outcome.ret EXIT_SUCCESS ∨ c = Outcome.ret EXIT_FAILURE

/-- The argument list a pipeline stage runs with: the copy of its segment (at
most `MAX_ARGS - 1` tokens), alias-expanded when its first token is an alias
name. -/
def stage_use_argv (MAX_ARGS : Nat) (hm : HashMap) (seg : List CStr) : List CStr :=
  match (maybe_expand_leading_alias MAX_ARGS hm (seg.take (MAX_ARGS - 1))).out_argv with
  | some x => x
  | none => seg.take (MAX_ARGS - 1)

/-- The first token of the stage is not a builtin and cannot be resolved: it
is a direct path that fails the executability check, or a bare name that the
search of the path does not find. -/
def unresolvable (MAX_ARGS : Nat) (w : World) (st : Shell) (seg : List CStr) : Prop :=
  ∃ name, (stage_use_argv MAX_ARGS st.alias_hm seg).head? = some name ∧
    is_builtin_name (some name) = false ∧
    ((is_abs_or_rel (some name) = true ∧ w.access_x name = false) ∨
      (is_abs_or_rel (some name) = false ∧
        (find_in_path w st.PATH (some name)).2 = Outcome.ret none))

/-- The token sequence `true | true | ... | true` with `n` pipe tokens, that
is `n + 1` segments. -/
def true_pipeline : Nat → List CStr
  | 0 => ["true".toList]
  | n + 1 => "true".toList :: PIPE :: true_pipeline n

/-- The stage recorded for the segment `true` when `/bin/true` is found. -/
def stage_true : Stage :=
  { seg_argv := ["true".toList], exp_argv := none, exec_path := some "/bin/true".toList }

/-- The maximal runs of non-space characters of a text, in order: the pieces
between spaces, empty pieces left out. -/
def nonspace_runs (s : List Char) : List CStr :=
  (split_on SPACE s).filter (fun r => r ≠ [])

/-- The line with one trailing newline, if it has one, counted as a space. -/
def newline_as_space (line : CStr) : List Char :=
  if line.getLast? = some NEWLINE then line.dropLast ++ [SPACE] else line

/-- Every replacement text in the alias table tokenizes without an unclosed
quote.  The table `main` starts with has the property and every command keeps
it, since a replacement text is itself a token. -/
def alias_texts_clean (hm : HashMap) : Prop :=
  ∀ k v, hm_get hm k = some v → (parseline_no_subst v).warned = false

/-- The raw text of a line with one trailing newline removed. -/
def strip_newline (line : CStr) : CStr :=
  if line.getLast? = some NEWLINE then line.dropLast else line

/-- The stage resolves: the first loop of `run_pipeline` records it. -/
def resolves (MAX_ARGS : Nat) (w : World) (st : Shell) (seg : List CStr) : Prop :=
  ∃ s, (resolve_segment MAX_ARGS w st seg).2.2 = Resolved.ok s

/-- A resolution diagnostic: the no-search-path message or the
command-not-found message. -/
def Event.resolution_diagnostic : Event → Bool
  | Event.stderr Msg.EMPTY_PATH => true
  | Event.stderr (Msg.CMD_NOT_FOUND _) => true
  | _ => false

/-- The diagnostic due for a bare name that is not found: the no-search-path
message when `PATH` is unset or empty, the command-not-found message
otherwise. -/
def due_diagnostic (PATH : Option CStr) (name : CStr) : Event :=
  if PATH = none ∨ PATH = some [] then Event.stderr Msg.EMPTY_PATH
  else Event.stderr (Msg.CMD_NOT_FOUND (some name))

/-- The name is a direct path: its first character is `/` or `.`. -/
def direct_path (n : CStr) : Bool :=
  match n with
  | [] => false
  | c :: _ => c = '/' || c = '.'

/-- The result of looking a name up on the search path: `d/n` for the first
of the non-empty pieces `d` of the path between colons, in the order listed,
for which `d/n` passes the executability check; none when the path is unset
or no piece qualifies. -/
def path_lookup (w : World) (PATH : Option CStr) (n : CStr) : Option CStr :=
  match PATH with
  | none => none
  | some P =>
    (((split_on ':' P).filter (fun d => d ≠ [])).map (fun d => d ++ '/' :: n)).find? w.access_x

/-- The location a name resolves to: the name itself when it is a direct path
that passes the executability check, the result of the lookup on the search
path when its first character is neither `/` nor `.`, and none otherwise. -/
def resolved_location (w : World) (PATH : Option CStr) (n : CStr) : Option CStr :=
  if direct_path n then (if w.access_x n then some n else none)
  else path_lookup w PATH n

/-- Every alias text in the table tokenizes to fewer than `MAX_ARGS` tokens:
as many as the array `tmp_argv[MAX_ARGS]` of `maybe_expand_leading_alias` holds
together with the terminating NULL. -/
@[reducible] def alias_texts_fit (MAX_ARGS : Nat) (hm : HashMap) : Prop :=
  ∀ kv ∈ hm, (parseline_no_subst kv.2).argv.length < MAX_ARGS

/-- The seven builtin names. -/
def builtin_names : List CStr :=
  ["exit".toList, "path".toList, "cd".toList, "which".toList, "history".toList,
    "alias".toList, "unalias".toList]

/-- The argument list a spawned process runs with. -/
def Child.argv : Child → List CStr
  | Child.builtin a => a
  | Child.execv _ a => a

/-- The argument list of the process an event spawns, if it spawns one. -/
def Event.spawned_argv : Event → Option (List CStr)
  | Event.fork _ c => some c.argv
  | _ => none

/-- The argument lists of the processes spawned, in the order of spawning. -/
def spawned_argvs (out : List Event) : List (List CStr) := out.filterMap Event.spawned_argv

/-- A token list with its first token alias-expanded once, in the words of
the specification: the tokens of the alias text followed by the remaining
tokens, and the list unchanged when its first token is not an alias name.
Nothing is cut and the result is not looked up again. -/
def expand_once (hm : HashMap) (seg : List CStr) : List CStr :=
  match seg with
  | [] => []
  | a0 :: rest =>
    match hm_get hm a0 with
    | none => a0 :: rest
    | some val => (parseline_no_subst val).argv ++ rest

/-- The token list `t y ... y | true` with `n` tokens `y`. -/
def long_stage_line (n : Nat) : List CStr :=
  "t".toList :: List.replicate n "y".toList ++ [PIPE, "true".toList]

/-- A state in which `t` is an alias for `true x x x`. -/
def long_alias_shell : Shell :=
  { initial_shell with alias_hm := [("t".toList, "true x x x".toList)] }

/-! # Theorems -/

/-! ## The tokenizer: helper lemmas -/

theorem strchr_eq_some (c : Char) : ∀ (s tok p : List Char),
    strchr c s = some (tok, p) → s = tok ++ c :: p ∧ c ∉ tok
  | [], tok, p, h => by simp [strchr] at h
  | x :: xs, tok, p, h => by
    unfold strchr at h
    by_cases hx : x = c
    · simp [hx] at h
      obtain ⟨h1, h2⟩ := h
      subst h1; subst h2; simp [hx]
    · simp only [hx, if_false] at h
      cases hr : strchr c xs with
      | none => simp [hr] at h
      | some r =>
        obtain ⟨t, q⟩ := r
        simp [hr] at h
        obtain ⟨h1, h2⟩ := h
        subst h1; subst h2
        have ih := strchr_eq_some c xs t q hr
        refine ⟨by simp [ih.1.symm], ?_⟩
        simp only [List.mem_cons, not_or]
        exact ⟨fun h => hx h.symm, ih.2⟩

theorem strchr_append (c : Char) : ∀ (a b : List Char), c ∉ a →
    strchr c (a ++ c :: b) = some (a, b)
  | [], b, _ => by simp [strchr]
  | x :: a, b, h => by
    simp only [List.mem_cons, not_or] at h
    have hx : ¬ x = c := fun e => h.1 e.symm
    simp [strchr, hx, strchr_append c a b h.2]

theorem strchr_none (c : Char) : ∀ (s : List Char), c ∉ s → strchr c s = none
  | [], _ => rfl
  | x :: s, h => by
    simp only [List.mem_cons, not_or] at h
    have hx : ¬ x = c := fun e => h.1 e.symm
    simp [strchr, hx, strchr_none c s h.2]

theorem skip_spaces_length_le : ∀ (s : List Char), (skip_spaces s).length ≤ s.length
  | [] => by simp [skip_spaces]
  | x :: s => by
    unfold skip_spaces
    split
    · have := skip_spaces_length_le s
      simp; omega
    · simp

theorem skip_spaces_replicate (s : List Char) : ∀ (n : Nat),
    skip_spaces (List.replicate n SPACE ++ s) = skip_spaces s
  | 0 => by simp
  | n + 1 => by simp [List.replicate_succ, skip_spaces, skip_spaces_replicate s n]

theorem skip_spaces_cons_ne (c : Char) (s : List Char) (h : c ≠ SPACE) :
    skip_spaces (c :: s) = c :: s := by
  simp [skip_spaces, h]

theorem token_loop_fuel : ∀ (f1 f2 : Nat) (p : List Char),
    p.length ≤ f1 → p.length ≤ f2 → token_loop f1 p = token_loop f2 p
  | 0, f2, p, h1, _ => by
    have : p = [] := List.length_eq_zero.mp (by omega)
    subst this
    cases f2 <;> simp [token_loop]
  | f1 + 1, 0, p, _, h2 => by
    have : p = [] := List.length_eq_zero.mp (by omega)
    subst this
    simp [token_loop]
  | f1 + 1, f2 + 1, [], _, _ => by simp [token_loop]
  | f1 + 1, f2 + 1, c :: rest, h1, h2 => by
    simp only [List.length_cons] at h1 h2
    unfold token_loop
    by_cases hq : c = QUOTE
    · simp only [hq, if_true]
      cases hr : strchr QUOTE rest with
      | none => rfl
      | some r =>
        obtain ⟨tok, p⟩ := r
        have hs := (strchr_eq_some QUOTE rest tok p hr).1
        have hl : (skip_spaces p).length ≤ rest.length := by
          have := skip_spaces_length_le p
          rw [hs]; simp; omega
        simp only []
        rw [token_loop_fuel f1 f2 (skip_spaces p) (by omega) (by omega)]
    · simp only [hq, if_false]
      cases hr : strchr SPACE (c :: rest) with
      | none => rfl
      | some r =>
        obtain ⟨tok, p⟩ := r
        have hs := (strchr_eq_some SPACE (c :: rest) tok p hr).1
        have hl : (skip_spaces p).length ≤ rest.length := by
          have := skip_spaces_length_le p
          have h3 : (c :: rest).length = (tok ++ SPACE :: p).length := by rw [hs]
          simp at h3; omega
        simp only []
        rw [token_loop_fuel f1 f2 (skip_spaces p) (by omega) (by omega)]

theorem tokens_from_nil : tokens_from [] = some [] := rfl

theorem token_loop_quoted (f : Nat) (q r : List Char) (h : QUOTE ∉ q) :
    token_loop (f + 1) (QUOTE :: (q ++ QUOTE :: r)) =
      (token_loop f (skip_spaces r)).map (fun toks => q :: toks) := by
  rw [token_loop]
  simp only [if_true, strchr_append QUOTE q r h]
  cases token_loop f (skip_spaces r) <;> rfl

theorem token_loop_word (f : Nat) (c : Char) (w r : List Char) (hc : c ≠ QUOTE)
    (h : SPACE ∉ c :: w) :
    token_loop (f + 1) (c :: (w ++ SPACE :: r)) =
      (token_loop f (skip_spaces r)).map (fun toks => (c :: w) :: toks) := by
  have hs : strchr SPACE (c :: (w ++ SPACE :: r)) = some (c :: w, r) := by
    have := strchr_append SPACE (c :: w) r h
    simpa using this
  rw [token_loop]
  simp only [hc, if_false, hs]
  cases token_loop f (skip_spaces r) <;> rfl

theorem tokens_from_quoted (q r : List Char) (h : QUOTE ∉ q) :
    tokens_from (QUOTE :: q ++ QUOTE :: r) =
      (tokens_from (skip_spaces r)).map (fun toks => q :: toks) := by
  have hl : (skip_spaces r).length ≤ (q ++ QUOTE :: r).length := by
    have := skip_spaces_length_le r
    simp; omega
  unfold tokens_from
  simp only [List.cons_append, List.length_cons]
  rw [token_loop_quoted _ q r h,
    token_loop_fuel _ (skip_spaces r).length (skip_spaces r) hl (le_refl _)]

theorem tokens_from_word (c : Char) (w r : List Char) (hc : c ≠ QUOTE)
    (h : SPACE ∉ c :: w) :
    tokens_from (c :: w ++ SPACE :: r) =
      (tokens_from (skip_spaces r)).map (fun toks => (c :: w) :: toks) := by
  have hl : (skip_spaces r).length ≤ (w ++ SPACE :: r).length := by
    have := skip_spaces_length_le r
    simp; omega
  unfold tokens_from
  simp only [List.cons_append, List.length_cons]
  rw [token_loop_word _ c w r hc h,
    token_loop_fuel _ (skip_spaces r).length (skip_spaces r) hl (le_refl _)]

theorem tokens_from_unclosed (q : List Char) (h : QUOTE ∉ q) :
    tokens_from (QUOTE :: q) = none := by
  unfold tokens_from
  simp only [List.length_cons]
  rw [token_loop]
  simp [strchr_none QUOTE q h]

theorem quote_ne_space : QUOTE ≠ SPACE := by decide

theorem tokens_from_layout : ∀ (items : List (Nat × Item)),
    (∀ it ∈ items, it.2.wellformed) → ∀ (tail : List Char),
    tokens_from (skip_spaces (layout items ++ tail)) =
      (tokens_from (skip_spaces tail)).map (fun toks => items.map (fun it => it.2.text) ++ toks)
  | [], _, tail => by
    cases h : tokens_from (skip_spaces tail) <;> simp [layout, h]
  | (n, Item.word w) :: rest, hwf, tail => by
    have hw : (Item.word w).wellformed := hwf (n, Item.word w) (by simp)
    have ih := tokens_from_layout rest (fun it hit => hwf it (by simp [hit])) tail
    obtain ⟨hne, hsp, hq⟩ := hw
    cases w with
    | nil => exact absurd rfl hne
    | cons c w =>
      have hc : c ≠ QUOTE := by simpa using hq
      have hcs : c ≠ SPACE := by
        intro e; apply hsp; simp [e]
      have e1 : layout ((n, Item.word (c :: w)) :: rest) ++ tail =
          List.replicate n SPACE ++ (c :: w ++ SPACE :: (layout rest ++ tail)) := by
        simp [layout, Item.source]
      rw [e1, skip_spaces_replicate, List.cons_append, skip_spaces_cons_ne c _ hcs,
        ← List.cons_append, tokens_from_word c w _ hc hsp, ih]
      cases tokens_from (skip_spaces tail) <;> simp [Item.text]
  | (n, Item.quoted q) :: rest, hwf, tail => by
    have hw : QUOTE ∉ q := hwf (n, Item.quoted q) (by simp)
    have ih := tokens_from_layout rest (fun it hit => hwf it (by simp [hit])) tail
    have e1 : layout ((n, Item.quoted q) :: rest) ++ tail =
        List.replicate n SPACE ++ (QUOTE :: q ++ QUOTE :: (layout rest ++ tail)) := by
      simp [layout, Item.source]
    rw [e1, skip_spaces_replicate, List.cons_append, skip_spaces_cons_ne QUOTE _ quote_ne_space,
      ← List.cons_append, tokens_from_quoted q _ hw, ih]
    cases tokens_from (skip_spaces tail) <;> simp [Item.text]

theorem parseline_eq_tokens_from (line : CStr) :
    parseline_no_subst line =
      match tokens_from (skip_spaces (line_buffer line)) with
      | none => { argv := [], warned := true }
      | some toks => { argv := toks, warned := false } := by
  unfold parseline_no_subst tokens_from
  rw [token_loop_fuel (line_buffer line).length (skip_spaces (line_buffer line)).length
    (skip_spaces (line_buffer line)) (skip_spaces_length_le _) (le_refl _)]

theorem skip_spaces_all (k : Nat) : skip_spaces (List.replicate k SPACE) = [] := by
  have := skip_spaces_replicate [] k
  simpa [skip_spaces] using this

theorem parseline_warned_argv (line : CStr) (h : (parseline_no_subst line).warned = true) :
    parseline_no_subst line = { argv := [], warned := true } := by
  unfold parseline_no_subst at h ⊢
  cases ht : token_loop (line_buffer line).length (skip_spaces (line_buffer line)) with
  | none => rfl
  | some toks => simp [ht] at h

/-! ## Alias texts that fit in `tmp_argv` -/

theorem alias_texts_fit_nil (MAX_ARGS : Nat) : alias_texts_fit MAX_ARGS [] := by
  intro kv h
  simp at h

theorem alias_texts_fit_get (MAX_ARGS : Nat) : ∀ (hm : HashMap) (k v : CStr),
    alias_texts_fit MAX_ARGS hm → hm_get hm k = some v →
    (parseline_no_subst v).argv.length < MAX_ARGS
  | [], k, v, _, h => by simp [hm_get] at h
  | (k0, v0) :: rest, k, v, hfit, h => by
    unfold hm_get at h
    by_cases e : k0 = k
    · simp only [e, if_true, Option.some.injEq] at h
      rw [← h]
      exact hfit (k0, v0) (by simp)
    · simp only [e, if_false] at h
      exact alias_texts_fit_get MAX_ARGS rest k v (fun kv hkv => hfit kv (by simp [hkv])) h

/-! ## C2: quoted spans and spaces -/

/-- C2 (as amended): a line that, once its final newline is turned into a
space (or a space is appended), is a sequence of items, each after any number
of spaces, where an item is an unquoted word (no space, not starting with a
quote, followed by a space) or a span between two single quotes that begins
where a token begins, tokenizes to exactly the items: spaces outside the
spans separate the tokens, and each quoted span is one token with its quotes
removed, whatever spaces it holds.  In particular `echo 'a b' c` yields
`echo`, `a b`, `c`. -/
theorem parseline_items (items : List (Nat × Item)) (k : Nat) (line : CStr)
    (hwf : ∀ it ∈ items, it.2.wellformed)
    (hline : line_buffer line = layout items ++ List.replicate k SPACE) :
    parseline_no_subst line = { argv := items.map (fun it => it.2.text), warned := false } ∧
    parseline_no_subst "echo 'a b' c".toList =
      { argv := ["echo".toList, "a b".toList, "c".toList], warned := false } := by
  refine ⟨?_, by decide⟩
  rw [parseline_eq_tokens_from, hline, tokens_from_layout items hwf, skip_spaces_all]
  simp [tokens_from_nil]

/-- C2, witness: the line `ls  'my  file''x' -l` followed by a newline. -/
theorem parseline_items_witness :
    parseline_no_subst "ls  'my  file''x' -l\n".toList =
      { argv := ["ls".toList, "my  file".toList, "x".toList, "-l".toList], warned := false } :=
  (parseline_items
    [(0, Item.word "ls".toList), (1, Item.quoted "my  file".toList),
      (0, Item.quoted "x".toList), (1, Item.word "-l".toList)]
    0 "ls  'my  file''x' -l\n".toList
    (by
      intro it hit
      simp only [List.mem_cons, List.mem_singleton, List.not_mem_nil, or_false] at hit
      rcases hit with rfl | rfl | rfl | rfl <;> simp only [Item.wellformed] <;> decide)
    (by decide)).1

/-- C2, counterexample: in `echo a'b c'` the span from the first quote to the
next one is `b c`, yet the tokens are `echo`, `a'b` and `c'`: a quote inside
a word does not open a span. -/
theorem parseline_midword_quote :
    parseline_no_subst "echo a'b c'".toList =
      { argv := ["echo".toList, "a'b".toList, "c'".toList], warned := false } ∧
    "b c".toList ∉ (parseline_no_subst "echo a'b c'".toList).argv := by
  decide

/-! ## C3: an unclosed quote -/

/-- C3 (as amended): when a single quote that begins a token (it comes first
on the line, after a space, or right after a closing quote; here after
well-formed items and spaces) has no later single quote, the tokenizer warns
and returns zero tokens, none of the earlier tokens is kept, and the read
loops run nothing and record nothing for the line. -/
theorem unclosed_quote_discards (MAX_ARGS : Nat) (w : World) (st : Shell)
    (items : List (Nat × Item)) (k : Nat) (q : List Char) (line : CStr)
    (hwf : ∀ it ∈ items, it.2.wellformed) (hq : QUOTE ∉ q)
    (hline : line_buffer line = layout items ++ (List.replicate k SPACE ++ QUOTE :: q)) :
    parseline_no_subst line = { argv := [], warned := true } ∧
    interactive_step MAX_ARGS w st line =
      { st := wsh_warn st, out := [Event.stderr Msg.MISSING_CLOSING_QUOTE],
        next := Outcome.ret Next.continue } ∧
    batch_step MAX_ARGS w st line =
      { st := wsh_warn st, out := [Event.stderr Msg.MISSING_CLOSING_QUOTE],
        next := Outcome.ret Next.continue } := by
  have hp : parseline_no_subst line = { argv := [], warned := true } := by
    rw [parseline_eq_tokens_from, hline, tokens_from_layout items hwf, skip_spaces_replicate,
      skip_spaces_cons_ne QUOTE q quote_ne_space, tokens_from_unclosed q hq]
    rfl
  refine ⟨hp, ?_, ?_⟩
  · simp [interactive_step, hp, warn_state, warn_events]
  · simp [batch_step, hp, warn_state, warn_events]

/-- C3, witness: the line `echo hi 'a b` followed by a newline. -/
theorem unclosed_quote_discards_witness :
    parseline_no_subst "echo hi 'a b\n".toList = { argv := [], warned := true } ∧
    (interactive_step 128 (sample_world (fun _ => 0)) initial_shell "echo hi 'a b\n".toList).st =
      wsh_warn initial_shell :=
  have h := unclosed_quote_discards 128 (sample_world (fun _ => 0)) initial_shell
    [(0, Item.word "echo".toList), (0, Item.word "hi".toList)] 0 "a b ".toList
    "echo hi 'a b\n".toList
    (by
      intro it hit
      simp only [List.mem_cons, List.mem_singleton, List.not_mem_nil, or_false] at hit
      rcases hit with rfl | rfl <;> simp only [Item.wellformed] <;> decide)
    (by decide) (by decide)
  ⟨h.1, by rw [h.2.1]⟩

/-- C3, counterexample: `echo it's` has an odd number of single quotes, yet
the tokenizer returns the two tokens `echo` and `it's` and does not warn. -/
theorem odd_quotes_accepted :
    ("echo it's".toList.count QUOTE) % 2 = 1 ∧
    parseline_no_subst "echo it's".toList =
      { argv := ["echo".toList, "it's".toList], warned := false } := by
  decide

/-! ## C8 and C9: lines that yield no token -/

theorem newline_ne_space : NEWLINE ≠ SPACE := by decide

theorem line_buffer_blank (n : Nat) :
    line_buffer (List.replicate n SPACE) = List.replicate (n + 1) SPACE := by
  have h : (List.replicate n SPACE).getLast? ≠ some NEWLINE := by
    cases n with
    | zero => simp
    | succ m =>
      rw [List.getLast?_replicate]
      simp
      exact fun e => newline_ne_space e.symm
  unfold line_buffer
  rw [if_neg h, List.replicate_succ']

theorem line_buffer_blank_newline (n : Nat) :
    line_buffer (List.replicate n SPACE ++ [NEWLINE]) = List.replicate (n + 1) SPACE := by
  unfold line_buffer
  rw [if_pos (by simp), List.dropLast_concat, List.replicate_succ']

theorem parseline_of_buffer_blank (line : CStr) (m : Nat)
    (h : line_buffer line = List.replicate m SPACE) :
    parseline_no_subst line = { argv := [], warned := false } := by
  rw [parseline_eq_tokens_from, h, skip_spaces_all]
  rfl

/-- C8: for a line of `n` spaces, with or without a final newline, the
tokenizer yields zero tokens without warning, and one pass of either read
loop returns to reading with the state (history and `rc` included) exactly as
it was and with nothing done. -/
theorem blank_line_is_noop (MAX_ARGS : Nat) (w : World) (st : Shell) (n : Nat) :
    parseline_no_subst (List.replicate n SPACE) = { argv := [], warned := false } ∧
    parseline_no_subst (List.replicate n SPACE ++ [NEWLINE]) = { argv := [], warned := false } ∧
    interactive_step MAX_ARGS w st (List.replicate n SPACE) =
      { st := st, out := [], next := Outcome.ret Next.continue } ∧
    interactive_step MAX_ARGS w st (List.replicate n SPACE ++ [NEWLINE]) =
      { st := st, out := [], next := Outcome.ret Next.continue } ∧
    batch_step MAX_ARGS w st (List.replicate n SPACE) =
      { st := st, out := [], next := Outcome.ret Next.continue } ∧
    batch_step MAX_ARGS w st (List.replicate n SPACE ++ [NEWLINE]) =
      { st := st, out := [], next := Outcome.ret Next.continue } := by
  have h1 := parseline_of_buffer_blank _ _ (line_buffer_blank n)
  have h2 := parseline_of_buffer_blank _ _ (line_buffer_blank_newline n)
  refine ⟨h1, h2, ?_, ?_, ?_, ?_⟩
  · simp [interactive_step, h1, warn_state, warn_events]
  · simp [interactive_step, h2, warn_state, warn_events]
  · simp [batch_step, h1, warn_state, warn_events]
  · simp [batch_step, h2, warn_state, warn_events]

/-- C9 (as amended): for every state and every line on which the tokenizer
fails, one pass of either read loop runs no command and leaves the alias
table, the history and `PATH` as they were, but sets `rc` to `EXIT_FAILURE`
(through `wsh_warn`), whatever `rc` was before the line. -/
theorem parse_failure_sets_rc (MAX_ARGS : Nat) (w : World) (st : Shell) (line : CStr)
    (h : (parseline_no_subst line).warned = true) :
    interactive_step MAX_ARGS w st line =
      { st := { st with rc := EXIT_FAILURE }, out := [Event.stderr Msg.MISSING_CLOSING_QUOTE],
        next := Outcome.ret Next.continue } ∧
    batch_step MAX_ARGS w st line =
      { st := { st with rc := EXIT_FAILURE }, out := [Event.stderr Msg.MISSING_CLOSING_QUOTE],
        next := Outcome.ret Next.continue } := by
  have hp := parseline_warned_argv line h
  constructor
  · simp [interactive_step, hp, warn_state, warn_events, wsh_warn]
  · simp [batch_step, hp, warn_state, warn_events, wsh_warn]

/-- C9, witness: the line `'oops` in a state whose `rc` is 0. -/
theorem parse_failure_sets_rc_witness :
    (parseline_no_subst "'oops\n".toList).warned = true ∧
    (batch_step 128 (sample_world (fun _ => 0)) initial_shell "'oops\n".toList).st.rc =
      EXIT_FAILURE :=
  have h := parse_failure_sets_rc 128 (sample_world (fun _ => 0)) initial_shell
    "'oops\n".toList (by decide)
  ⟨by decide, by rw [h.2]⟩

/-- C9, counterexample: from the initial state, whose `rc` is 0, the line
`echo 'a` fails to parse and one pass of the interactive loop leaves `rc`
at 1. -/
theorem parse_failure_changes_rc :
    initial_shell.rc = 0 ∧
    parseline_no_subst "echo 'a\n".toList = { argv := [], warned := true } ∧
    (interactive_step 128 (sample_world (fun _ => 0)) initial_shell "echo 'a\n".toList).st.rc = 1 ∧
    (batch_step 128 (sample_world (fun _ => 0)) initial_shell "echo 'a\n".toList).st.rc = 1 := by
  decide

/-! ## C1: alias expansion -/

theorem expand_bound (MAX_ARGS : Nat) (hm : HashMap) (A V : CStr) (rest : List CStr)
    (h : hm_get hm A = some V) :
    maybe_expand_leading_alias MAX_ARGS hm (A :: rest) =
      { out_argv := some (((parseline_no_subst V).argv ++ rest).take (MAX_ARGS - 1)),
        warned := (parseline_no_subst V).warned } := by
  simp only [maybe_expand_leading_alias, h, List.take_append_eq_append_take, List.length_take]
  congr 3
  rcases Nat.le_total (MAX_ARGS - 1) (parseline_no_subst V).argv.length with hle | hle
  · rw [Nat.min_eq_left hle]
    simp [Nat.sub_eq_zero_of_le hle]
  · rw [Nat.min_eq_right hle]

theorem expand_unbound (MAX_ARGS : Nat) (hm : HashMap) (A : CStr) (rest : List CStr)
    (h : hm_get hm A = none) :
    maybe_expand_leading_alias MAX_ARGS hm (A :: rest) = { out_argv := none, warned := false } := by
  simp [maybe_expand_leading_alias, h]

theorem run_out_nil (r : Run) : { r with out := [] ++ r.out } = r := by
  cases r; rfl

theorem any_pipe_false (argv : List CStr) (h : PIPE ∉ argv) :
    argv.any (fun t => decide (t = PIPE)) = false := by
  rw [List.any_eq_false]
  intro t ht
  simp only [decide_eq_true_eq]
  intro e
  exact h (e ▸ ht)

/-- C1 (as amended): when the first token `A` is bound to a text `V` of fewer
than `MAX_ARGS` tokens (as many as `tmp_argv` holds),
`maybe_expand_leading_alias` produces the first `MAX_ARGS - 1` tokens of
`tokenize(V) ++ t[1:]`, hence exactly `tokenize(V) ++ t[1:]` when that has at
most `MAX_ARGS - 1` tokens, and exactly (the first `MAX_ARGS - 1` of) `t[1:]`
when `V` tokenizes to zero tokens; `run_command` dispatches on that result as
it is, with no second lookup in the alias table.  When `A` is unbound nothing
is expanded and `run_command` dispatches on the sequence unchanged. -/
theorem alias_expansion_single_level (MAX_ARGS : Nat) (w : World) (st : Shell) (A : CStr)
    (rest : List CStr) :
    (∀ V, hm_get st.alias_hm A = some V →
      (parseline_no_subst V).argv.length < MAX_ARGS →
      (maybe_expand_leading_alias MAX_ARGS st.alias_hm (A :: rest)).out_argv =
        some (((parseline_no_subst V).argv ++ rest).take (MAX_ARGS - 1)) ∧
      ((parseline_no_subst V).argv.length + rest.length ≤ MAX_ARGS - 1 →
        (maybe_expand_leading_alias MAX_ARGS st.alias_hm (A :: rest)).out_argv =
          some ((parseline_no_subst V).argv ++ rest)) ∧
      ((parseline_no_subst V).argv = [] →
        (maybe_expand_leading_alias MAX_ARGS st.alias_hm (A :: rest)).out_argv =
          some (rest.take (MAX_ARGS - 1))) ∧
      (PIPE ∉ A :: rest →
        run_command MAX_ARGS w st (A :: rest) =
          let use_argv := ((parseline_no_subst V).argv ++ rest).take (MAX_ARGS - 1)
          let st1 := warn_state (parseline_no_subst V).warned st
          let r := if is_builtin_name use_argv.head? then
              builtin_dispatch w st1 (use_argv.head?.getD []) use_argv
            else execute_one w st1 use_argv
          { r with out := warn_events (parseline_no_subst V).warned ++ r.out })) ∧
    (hm_get st.alias_hm A = none →
      (maybe_expand_leading_alias MAX_ARGS st.alias_hm (A :: rest)).out_argv = none ∧
      (PIPE ∉ A :: rest →
        run_command MAX_ARGS w st (A :: rest) =
          if is_builtin_name (some A) then builtin_dispatch w st A (A :: rest)
          else execute_one w st (A :: rest))) := by
  constructor
  · intro V hV _
    have he := expand_bound MAX_ARGS st.alias_hm A V rest hV
    refine ⟨by rw [he], ?_, ?_, ?_⟩
    · intro hfit
      rw [he]
      simp only [Option.some.injEq]
      exact List.take_of_length_le (by simpa using hfit)
    · intro hnil
      rw [he, hnil]
      rfl
    · intro hp
      simp only [run_command, any_pipe_false _ hp, he]
      simp
  · intro hA
    have he := expand_unbound MAX_ARGS st.alias_hm A rest hA
    refine ⟨by rw [he], ?_⟩
    intro hp
    simp only [run_command, any_pipe_false _ hp, he]
    simp [warn_state, warn_events]

/-- C1, witness: with `ls` bound to `cat -n` and `cat` bound to `true`, the
command `ls x` expands to `cat -n x` and runs `/bin/cat`: the new first token
`cat` is not expanded again although it is an alias name. -/
theorem alias_expansion_single_level_witness :
    hm_get [("ls".toList, "cat -n".toList), ("cat".toList, "true".toList)] "ls".toList =
      some "cat -n".toList ∧
    (maybe_expand_leading_alias 128
      [("ls".toList, "cat -n".toList), ("cat".toList, "true".toList)]
      ["ls".toList, "x".toList]).out_argv = some ["cat".toList, "-n".toList, "x".toList] ∧
    (run_command 128 (sample_world (fun _ => 0))
      { initial_shell with
        alias_hm := [("ls".toList, "cat -n".toList), ("cat".toList, "true".toList)] }
      ["ls".toList, "x".toList]).out =
      [Event.fork 0 (Child.execv (some "/bin/cat".toList)
        ["cat".toList, "-n".toList, "x".toList]), Event.waitpid 0] :=
  have h := (alias_expansion_single_level 128 (sample_world (fun _ => 0))
    { initial_shell with
      alias_hm := [("ls".toList, "cat -n".toList), ("cat".toList, "true".toList)] }
    "ls".toList ["x".toList]).1 "cat -n".toList (by decide) (by decide)
  ⟨by decide, h.2.1 (by decide), by rw [h.2.2.2 (by decide)]; decide⟩

/-- C1, counterexample: whatever the value of `MAX_ARGS`, the claim fails
with `a` bound to `x x` and the sequence `a y ... y` of `MAX_ARGS - 1` tokens
(as many as `argv` can hold): the result is cut to `MAX_ARGS - 1` tokens and
is not the `MAX_ARGS` tokens of `tokenize(V) ++ t[1:]`. -/
theorem alias_expansion_truncates :
    ¬ ∃ MAX_ARGS : Nat, ∀ (hm : HashMap) (A V : CStr) (rest : List CStr),
      hm_get hm A = some V →
      (maybe_expand_leading_alias MAX_ARGS hm (A :: rest)).out_argv =
        some ((parseline_no_subst V).argv ++ rest) := by
  rintro ⟨M, h⟩
  have h1 := h [("a".toList, "x x".toList)] "a".toList "x x".toList
    (List.replicate (M - 2) "y".toList) (by decide)
  have hb : hm_get [("a".toList, "x x".toList)] "a".toList = some "x x".toList := by decide
  rw [expand_bound M _ _ _ _ hb] at h1
  have hP : (parseline_no_subst "x x".toList).argv.length = 2 := by decide
  have h2 := congrArg (Option.map List.length) h1
  simp only [Option.map_some', Option.some.injEq, List.length_take, List.length_append,
    List.length_replicate, hP] at h2
  omega

/-! ## C4: the status of a pipeline -/

theorem pipe_loop_ok (w : World) : ∀ (k i : Nat),
    (∀ j, i ≤ j → j < i + k → w.pipe_ok j = true) → (pipe_loop w i k).2 = true
  | 0, _, _ => rfl
  | k + 1, i, h => by
    have hi : w.pipe_ok i = true := h i (le_refl _) (by omega)
    have ih := pipe_loop_ok w k (i + 1) (fun j h1 h2 => h j (by omega) (by omega))
    rw [pipe_loop]
    simp only [hi, if_true]
    exact ih

theorem fork_loop_ok (w : World) : ∀ (l : List Stage) (i : Nat),
    (∀ j, i ≤ j → j < i + l.length → w.fork_ok j = true) → (fork_loop w i l).2 = true
  | [], _, _ => rfl
  | s :: l, i, h => by
    have hi : w.fork_ok i = true := h i (le_refl _) (by simp)
    have ih := fork_loop_ok w l (i + 1)
      (fun j h1 h2 => h j (by omega) (by simp only [List.length_cons]; omega))
    rw [fork_loop]
    simp only [hi, if_true]
    exact ih

theorem wait_loop_last (w : World) (n : Nat) (status : Nat → Nat) : ∀ (k i last_status : Nat),
    (∀ j, i ≤ j → j < i + k → w.waitpid j = some (status j)) → i + k = n → 0 < k →
    wait_loop w n i k last_status = status (n - 1)
  | 0, _, _, _, _, hk => absurd hk (lt_irrefl 0)
  | k + 1, i, last_status, h, hn, _ => by
    have hi : w.waitpid i = some (status i) := h i (le_refl _) (by omega)
    rw [wait_loop]
    simp only [hi]
    cases k with
    | zero =>
      have e : i = n - 1 := by omega
      simp only [e, if_true, wait_loop]
    | succ k =>
      exact wait_loop_last w n status (k + 1) (i + 1) _
        (fun j h1 h2 => h j (by omega) (by omega)) (by omega) (by omega)

theorem search_dirs_congr (w w2 : World) (h : w2.access_x = w.access_x) (cmd : Option CStr) :
    ∀ (l : List CStr), search_dirs w2 cmd l = search_dirs w cmd l
  | [] => rfl
  | tok :: rest => by
    simp only [search_dirs, h, search_dirs_congr w w2 h cmd rest]

theorem find_in_path_congr (w w2 : World) (h : w2.access_x = w.access_x) (PATH cmd : Option CStr) :
    find_in_path w2 PATH cmd = find_in_path w PATH cmd := by
  unfold find_in_path
  split <;> simp [search_dirs_congr w w2 h]

theorem resolve_segment_congr (MAX_ARGS : Nat) (w w2 : World) (h : w2.access_x = w.access_x)
    (st : Shell) (seg : List CStr) :
    resolve_segment MAX_ARGS w2 st seg = resolve_segment MAX_ARGS w st seg := by
  simp only [resolve_segment, h, find_in_path_congr w w2 h]

theorem stage_loop_congr (MAX_ARGS : Nat) (w w2 : World) (h : w2.access_x = w.access_x) :
    ∀ (rest : List CStr) (st : Shell) (cur : List CStr),
    stage_loop MAX_ARGS w2 st rest cur = stage_loop MAX_ARGS w st rest cur
  | [], st, cur => by
    simp only [stage_loop, resolve_segment_congr MAX_ARGS w w2 h]
  | t :: rest, st, cur => by
    simp only [stage_loop, resolve_segment_congr MAX_ARGS w w2 h,
      stage_loop_congr MAX_ARGS w w2 h rest]

theorem stage_loop_stages_ne_nil (MAX_ARGS : Nat) (w : World) :
    ∀ (rest : List CStr) (st : Shell) (cur : List CStr) (st1 : Shell) (ev : List Event)
      (l : List Stage),
    stage_loop MAX_ARGS w st rest cur = (st1, ev, Resolution.stages l) → l ≠ []
  | [], st, cur, st1, ev, l, h => by
    rw [stage_loop] at h
    split at h
    · simp at h
    · simp only [Prod.mk.injEq, Resolution.stages.injEq] at h
      rw [← h.2.2]; simp
  | t :: rest, st, cur, st1, ev, l, h => by
    rw [stage_loop] at h
    split at h
    · split at h
      · simp at h
      · split at h
        · simp at h
        · simp only [Prod.mk.injEq, Resolution.stages.injEq] at h
          rw [← h.2.2]; simp
    · exact stage_loop_stages_ne_nil MAX_ARGS w rest st (cur ++ [t]) st1 ev l h

theorem status_code_cases (status : Nat) :
    status_code status = EXIT_SUCCESS ∨ status_code status = EXIT_FAILURE := by
  unfold status_code
  split
  · split
    · exact Or.inl rfl
    · exact Or.inr rfl
  · exact Or.inr rfl

theorem status_code_eq_success (status : Nat) :
    status_code status = EXIT_SUCCESS ↔ WIFEXITED status = true ∧ WEXITSTATUS status = 0 := by
  unfold status_code
  by_cases h1 : WIFEXITED status = true
  · by_cases h2 : WEXITSTATUS status = 0
    · simp [h1, h2]
    · simp [h1, h2, EXIT_SUCCESS, EXIT_FAILURE]
  · simp [h1, EXIT_SUCCESS, EXIT_FAILURE]

theorem run_pipeline_code_of_stages (MAX_ARGS : Nat) (w : World) (st : Shell) (argv : List CStr)
    (st1 : Shell) (ev : List Event) (l : List Stage) (status : Nat → Nat)
    (hres : stage_loop MAX_ARGS w st argv [] = (st1, ev, Resolution.stages l))
    (hpipe : ∀ i, i < l.length - 1 → w.pipe_ok i = true)
    (hfork : ∀ i, i < l.length → w.fork_ok i = true)
    (hwait : ∀ i, i < l.length → w.waitpid i = some (status i)) :
    (run_pipeline MAX_ARGS w st argv).code =
      Outcome.ret (status_code (status (l.length - 1))) := by
  have hne := stage_loop_stages_ne_nil MAX_ARGS w argv st [] st1 ev l hres
  have hlen : 0 < l.length := List.length_pos.mpr hne
  have hp := pipe_loop_ok w (l.length - 1) 0 (fun j _ h2 => hpipe j (by omega))
  have hf := fork_loop_ok w l 0 (fun j _ h2 => hfork j (by omega))
  have hw := wait_loop_last w l.length status l.length 0 0
    (fun j _ h2 => hwait j (by omega)) (by omega) hlen
  unfold run_pipeline
  rw [hres]
  simp only []
  cases hpl : pipe_loop w 0 (l.length - 1) with
  | mk evp okp =>
    rw [hpl] at hp
    simp only at hp
    subst hp
    cases hfl : fork_loop w 0 l with
    | mk evf okf =>
      rw [hfl] at hf
      simp only at hf
      subst hf
      simp only [hw]

/-- C4: when the first loop of `run_pipeline` has resolved every stage (the
stage table `l` holds `N` entries, at most the 128 the tables of the source
can hold, and the alias texts fit in `tmp_argv`), every `pipe` and `fork`
succeeds and every stage `i` is reaped with status `status i`, the function
returns success if
and only if the last stage exited normally with code 0, and failure
otherwise; replacing the statuses of the stages before the last by any others
does not change the result. -/
theorem pipeline_status_is_last_stage (MAX_ARGS : Nat) (w : World) (st : Shell)
    (argv : List CStr) (st1 : Shell) (ev : List Event) (l : List Stage) (status : Nat → Nat)
    (hres : stage_loop MAX_ARGS w st argv [] = (st1, ev, Resolution.stages l))
    (_h128 : l.length ≤ 128) (_hfit : alias_texts_fit MAX_ARGS st.alias_hm)
    (hpipe : ∀ i, i < l.length - 1 → w.pipe_ok i = true)
    (hfork : ∀ i, i < l.length → w.fork_ok i = true)
    (hwait : ∀ i, i < l.length → w.waitpid i = some (status i)) :
    ((run_pipeline MAX_ARGS w st argv).code = Outcome.ret EXIT_SUCCESS ↔
      WIFEXITED (status (l.length - 1)) = true ∧ WEXITSTATUS (status (l.length - 1)) = 0) ∧
    ((run_pipeline MAX_ARGS w st argv).code ≠ Outcome.ret EXIT_SUCCESS →
      (run_pipeline MAX_ARGS w st argv).code = Outcome.ret EXIT_FAILURE) ∧
    (∀ status2 : Nat → Nat, status2 (l.length - 1) = status (l.length - 1) →
      (run_pipeline MAX_ARGS { w with waitpid := fun i => some (status2 i) } st argv).code =
        (run_pipeline MAX_ARGS w st argv).code) := by
  have hc := run_pipeline_code_of_stages MAX_ARGS w st argv st1 ev l status hres hpipe hfork hwait
  refine ⟨?_, ?_, ?_⟩
  · rw [hc, ← status_code_eq_success]
    constructor
    · intro h; injection h
    · intro h; rw [h]
  · intro hne
    rw [hc] at hne ⊢
    rcases status_code_cases (status (l.length - 1)) with h | h
    · exact absurd (by rw [h]) hne
    · rw [h]
  · intro status2 hlast
    have hres2 : stage_loop MAX_ARGS { w with waitpid := fun i => some (status2 i) } st argv [] =
        (st1, ev, Resolution.stages l) := by
      rw [stage_loop_congr MAX_ARGS w { w with waitpid := fun i => some (status2 i) } rfl]
      exact hres
    rw [run_pipeline_code_of_stages MAX_ARGS _ st argv st1 ev l status2 hres2 hpipe hfork
      (fun _ _ => rfl), hc, hlast]

/-- C4, witness: `false | true` with `false` exiting with code 1 (status 256)
and `true` with code 0 reports success; `true | false` reports failure. -/
theorem pipeline_status_is_last_stage_witness :
    (run_pipeline 128 (sample_world (fun i => if i = 0 then 256 else 0)) initial_shell
      ["false".toList, PIPE, "true".toList]).code = Outcome.ret EXIT_SUCCESS ∧
    (run_pipeline 128 (sample_world (fun i => if i = 0 then 0 else 256)) initial_shell
      ["true".toList, PIPE, "false".toList]).code = Outcome.ret EXIT_FAILURE :=
  have h1 := pipeline_status_is_last_stage 128 (sample_world (fun i => if i = 0 then 256 else 0))
    initial_shell ["false".toList, PIPE, "true".toList] initial_shell []
    [{ seg_argv := ["false".toList], exp_argv := none, exec_path := some "/bin/false".toList },
     { seg_argv := ["true".toList], exp_argv := none, exec_path := some "/bin/true".toList }]
    (fun i => if i = 0 then 256 else 0) (by decide) (by decide) (alias_texts_fit_nil 128)
    (fun _ _ => rfl) (fun _ _ => rfl) (fun _ _ => rfl)
  have h2 := pipeline_status_is_last_stage 128 (sample_world (fun i => if i = 0 then 0 else 256))
    initial_shell ["true".toList, PIPE, "false".toList] initial_shell []
    [{ seg_argv := ["true".toList], exp_argv := none, exec_path := some "/bin/true".toList },
     { seg_argv := ["false".toList], exp_argv := none, exec_path := some "/bin/false".toList }]
    (fun i => if i = 0 then 0 else 256) (by decide) (by decide) (alias_texts_fit_nil 128)
    (fun _ _ => rfl) (fun _ _ => rfl) (fun _ _ => rfl)
  ⟨h1.1.mpr (by decide), h2.2.1 (fun h => absurd (h2.1.mp h) (by decide))⟩

/-! ## C5: empty pipeline segments -/

theorem find_in_path_events (w : World) (PATH cmd : Option CStr) :
    ∀ e ∈ (find_in_path w PATH cmd).1, e.spawns = false := by
  unfold find_in_path
  split <;> simp [Event.spawns]

theorem warn_events_spawns (b : Bool) : ∀ e ∈ warn_events b, e.spawns = false := by
  cases b <;> simp [warn_events, Event.spawns]

theorem resolve_segment_nil (MAX_ARGS : Nat) (w : World) (st : Shell) :
    resolve_segment MAX_ARGS w st [] =
      (st, [Event.stderr Msg.EMPTY_PIPE_SEGMENT], Resolved.abort (Outcome.ret EXIT_FAILURE)) := by
  simp [resolve_segment]

theorem resolve_segment_spec (MAX_ARGS : Nat) (w : World) (st : Shell) (seg : List CStr) :
    (∀ e ∈ (resolve_segment MAX_ARGS w st seg).2.1, e.spawns = false) ∧
    (∀ c, (resolve_segment MAX_ARGS w st seg).2.2 = Resolved.abort c →
      c = Outcome.ret EXIT_FAILURE ∨ c = Outcome.fault) := by
  unfold resolve_segment
  simp only []
  split
  · simp [Event.spawns]
  · split
    · exact ⟨warn_events_spawns _, by simp⟩
    · split
      · split
        · exact ⟨warn_events_spawns _, by simp⟩
        · refine ⟨?_, by simp⟩
          intro e he
          rcases List.mem_append.mp he with h | h
          · exact warn_events_spawns _ e h
          · simp at h; subst h; rfl
      · split
        · rename_i ev heq
          refine ⟨?_, by simp⟩
          intro e he
          rcases List.mem_append.mp he with h | h
          · exact warn_events_spawns _ e h
          · have := find_in_path_events w _ _ e (by rw [heq]; exact h)
            exact this
        · rename_i ev heq
          refine ⟨?_, by simp⟩
          intro e he
          rcases List.mem_append.mp he with h | h
          · rcases List.mem_append.mp h with h | h
            · exact warn_events_spawns _ e h
            · exact find_in_path_events w _ _ e (by rw [heq]; exact h)
          · split at h
            · simp at h
            · simp at h; subst h; rfl
        · rename_i ev p heq
          refine ⟨?_, by simp⟩
          intro e he
          rcases List.mem_append.mp he with h | h
          · exact warn_events_spawns _ e h
          · exact find_in_path_events w _ _ e (by rw [heq]; exact h)

theorem stage_loop_spec (MAX_ARGS : Nat) (w : World) :
    ∀ (rest : List CStr) (st : Shell) (cur : List CStr),
    (∀ e ∈ (stage_loop MAX_ARGS w st rest cur).2.1, e.spawns = false) ∧
    (∀ c, (stage_loop MAX_ARGS w st rest cur).2.2 = Resolution.abort c →
      c = Outcome.ret EXIT_FAILURE ∨ c = Outcome.fault) ∧
    ([] ∈ segments_from cur rest →
      ∃ c, (stage_loop MAX_ARGS w st rest cur).2.2 = Resolution.abort c)
  | [], st, cur => by
    have hs := resolve_segment_spec MAX_ARGS w st cur
    rw [stage_loop]
    cases hr : resolve_segment MAX_ARGS w st cur with
    | mk st1 r =>
      obtain ⟨ev, res⟩ := r
      rw [hr] at hs
      cases res with
      | abort c =>
        exact ⟨hs.1, fun c2 h => hs.2 c2 (by simp at h; simp [h]), fun _ => ⟨c, rfl⟩⟩
      | ok s =>
        refine ⟨hs.1, fun c2 h => by simp at h, ?_⟩
        intro hmem
        simp only [segments_from, List.mem_singleton] at hmem
        rw [← hmem, resolve_segment_nil] at hr
        simp at hr
  | t :: rest, st, cur => by
    rw [stage_loop]
    by_cases ht : t = PIPE
    · simp only [ht, if_true]
      have hs := resolve_segment_spec MAX_ARGS w st cur
      cases hr : resolve_segment MAX_ARGS w st cur with
      | mk st1 r =>
        obtain ⟨ev, res⟩ := r
        rw [hr] at hs
        cases res with
        | abort c =>
          exact ⟨hs.1, fun c2 h => hs.2 c2 (by simp at h; simp [h]), fun _ => ⟨c, rfl⟩⟩
        | ok s =>
          have ih := stage_loop_spec MAX_ARGS w rest st1 []
          simp only []
          cases hl : stage_loop MAX_ARGS w st1 rest [] with
          | mk st2 r2 =>
            obtain ⟨ev2, res2⟩ := r2
            rw [hl] at ih
            have hev : ∀ e ∈ ev ++ ev2, e.spawns = false := by
              intro e he
              rcases List.mem_append.mp he with h | h
              · exact hs.1 e h
              · exact ih.1 e h
            cases res2 with
            | abort c =>
              exact ⟨hev, fun c2 h => ih.2.1 c2 (by simp at h; simp [h]), fun _ => ⟨c, rfl⟩⟩
            | stages l =>
              refine ⟨hev, fun c2 h => by simp at h, ?_⟩
              intro hmem
              simp only [segments_from, if_true, List.mem_cons] at hmem
              rcases hmem with h | h
              · rw [← h, resolve_segment_nil] at hr
                simp at hr
              · obtain ⟨c, hc⟩ := ih.2.2 h
                simp at hc
    · simp only [ht, if_false]
      have ih := stage_loop_spec MAX_ARGS w rest st (cur ++ [t])
      refine ⟨ih.1, ih.2.1, ?_⟩
      intro hmem
      simp only [segments_from, ht, if_false] at hmem
      exact ih.2.2 hmem

/-- The part of claim C5 that holds on the code: for a token sequence with an
empty segment `run_pipeline` creates no pipe and spawns no process, and if it
returns at all it returns failure; the only other outcome is the fault of
`find_in_path` on a NULL name. -/
theorem empty_segment_never_spawns (MAX_ARGS : Nat) (w : World) (st : Shell) (argv : List CStr)
    (h : [] ∈ pipeline_segments argv) :
    (∀ e ∈ (run_pipeline MAX_ARGS w st argv).out, e.spawns = false) ∧
    ((run_pipeline MAX_ARGS w st argv).code = Outcome.ret EXIT_FAILURE ∨
      (run_pipeline MAX_ARGS w st argv).code = Outcome.fault) := by
  have hs := stage_loop_spec MAX_ARGS w argv st []
  obtain ⟨c, hc⟩ := hs.2.2 h
  unfold run_pipeline
  cases hl : stage_loop MAX_ARGS w st argv [] with
  | mk st1 r =>
    obtain ⟨ev, res⟩ := r
    rw [hl] at hs hc
    simp only at hc
    subst hc
    exact ⟨hs.1, hs.2.1 c rfl⟩

/-- C5, the failing input: with the alias `e` bound to the empty text (as
`alias e =` leaves it) and `PATH` set to `/bin`, the tokens `e |` make
`run_pipeline` fault, whatever `MAX_ARGS` and the operating system are: the
first segment expands to zero tokens, `use_argv[0]` is NULL, and
`find_in_path` calls `strlen` on it before the empty segment is reached. -/
theorem empty_segment_after_empty_alias_faults (MAX_ARGS : Nat) (w : World) :
    (run_pipeline MAX_ARGS w { initial_shell with alias_hm := [("e".toList, [])] }
      ["e".toList, PIPE]).code = Outcome.fault := by
  cases MAX_ARGS with
  | zero => rfl
  | succ m =>
    cases m with
    | zero => rfl
    | succ k =>
      have hb : hm_get [("e".toList, [])] "e".toList = some [] := by decide
      have hp : parseline_no_subst [] = { argv := [], warned := false } := by decide
      have he : maybe_expand_leading_alias (k + 1 + 1) [("e".toList, [])] ["e".toList] =
          { out_argv := some [], warned := false } := by
        rw [expand_bound _ _ _ [] _ hb, hp]
        simp
      have h1 : ("e".toList = PIPE) = False := by decide
      have h2 : (PIPE = PIPE) = True := by simp
      have h3 : strtok_r "/bin".toList = ["/bin".toList] := by decide
      have hr : resolve_segment (k + 1 + 1) w
          { initial_shell with alias_hm := [("e".toList, [])] } ["e".toList] =
          ({ initial_shell with alias_hm := [("e".toList, [])] }, [],
            Resolved.abort Outcome.fault) := by
        have he2 : maybe_expand_leading_alias (k + 1 + 1) [(['e'], [])] [['e']] =
            { out_argv := some [], warned := false } := he
        have h4 : strtok_r ['/', 'b', 'i', 'n'] = [['/', 'b', 'i', 'n']] := h3
        simp [resolve_segment, warn_state, warn_events, is_builtin_name, is_abs_or_rel,
          find_in_path, initial_shell, search_dirs, he2, h4]
      simp only [run_pipeline, stage_loop, h1, h2, if_true, if_false, List.nil_append, hr]

/-! ## C6: `alias` followed by `which` -/

theorem hm_get_delete_same : ∀ (hm : HashMap) (k : CStr), hm_get (hm_delete hm k) k = none
  | [], _ => rfl
  | (k1, v1) :: rest, k => by
    by_cases h : k1 = k
    · simp [hm_delete, h, hm_get_delete_same rest k]
    · simp [hm_delete, hm_get, h, hm_get_delete_same rest k]

theorem hm_get_delete_other : ∀ (hm : HashMap) (k k2 : CStr), k2 ≠ k →
    hm_get (hm_delete hm k) k2 = hm_get hm k2
  | [], _, _, _ => rfl
  | (k1, v1) :: rest, k, k2, hne => by
    have ih := hm_get_delete_other rest k k2 hne
    by_cases h : k1 = k
    · have h2 : ¬ k1 = k2 := fun e => hne (e ▸ h)
      rw [hm_delete, if_pos h, hm_get, if_neg h2, ih]
    · rw [hm_delete, if_neg h, hm_get, hm_get, ih]

theorem hm_get_put_same (hm : HashMap) (k v : CStr) : hm_get (hm_put hm k v) k = some v := by
  simp [hm_put, hm_get]

theorem hm_get_put_other (hm : HashMap) (k v k2 : CStr) (h : k2 ≠ k) :
    hm_get (hm_put hm k v) k2 = hm_get hm k2 := by
  have h2 : ¬ k = k2 := fun e => h e.symm
  simp [hm_put, hm_get, h2, hm_get_delete_other hm k k2 h]

theorem run_command_unbound (MAX_ARGS : Nat) (w : World) (st : Shell) (A : CStr)
    (rest : List CStr) (hA : hm_get st.alias_hm A = none) (hp : PIPE ∉ A :: rest) :
    run_command MAX_ARGS w st (A :: rest) =
      if is_builtin_name (some A) then builtin_dispatch w st A (A :: rest)
      else execute_one w st (A :: rest) := by
  simp only [run_command, any_pipe_false _ hp, expand_unbound MAX_ARGS st.alias_hm A rest hA]
  simp [warn_state, warn_events]

theorem run_alias_quoted (MAX_ARGS : Nat) (w : World) (st : Shell)
    (h : hm_get st.alias_hm "alias".toList = none) :
    run_command MAX_ARGS w st ["alias".toList, "ll".toList, "=".toList, "ls -la".toList] =
      { st := { st with alias_hm := hm_put st.alias_hm "ll".toList "ls -la".toList }, out := [],
        code := Outcome.ret EXIT_SUCCESS } := by
  rw [run_command_unbound MAX_ARGS w st _ _ h (by decide)]
  rfl

theorem run_which_alias (MAX_ARGS : Nat) (w : World) (st : Shell) (v : CStr)
    (h : hm_get st.alias_hm "which".toList = none)
    (hv : hm_get st.alias_hm "ll".toList = some v) :
    run_command MAX_ARGS w st ["which".toList, "ll".toList] =
      { st := st, out := [Event.stdout (Msg.WHICH_ALIAS "ll".toList v)],
        code := Outcome.ret EXIT_SUCCESS } := by
  rw [run_command_unbound MAX_ARGS w st _ _ h (by decide)]
  have hb : is_builtin_name (some "which".toList) = true := by decide
  have hd : builtin_dispatch w st "which".toList ["which".toList, "ll".toList] =
      builtin_which w st ["which".toList, "ll".toList] := rfl
  rw [hb, if_pos rfl, hd]
  simp only [builtin_which, hv]

theorem step_of_run (MAX_ARGS : Nat) (w : World) (st : Shell) (line : CStr) (argv : List CStr)
    (r : Run) (c : Nat) (hp : parseline_no_subst line = { argv := argv, warned := false })
    (hne : argv ≠ []) (hr : run_command MAX_ARGS w st argv = r) (hc : r.code = Outcome.ret c)
    (hc2 : c ≠ RC_EXIT_REQUEST) :
    interactive_step MAX_ARGS w st line =
      { st := history_add_raw_line { r.st with rc := c } line, out := r.out,
        next := Outcome.ret Next.continue } ∧
    batch_step MAX_ARGS w st line =
      { st := history_add_raw_line { r.st with rc := c } line, out := r.out,
        next := Outcome.ret Next.continue } := by
  have hl : argv.length ≠ 0 := fun h => hne (List.length_eq_zero.mp h)
  have hl2 : argv.length > 0 := Nat.pos_of_ne_zero hl
  constructor
  · simp [interactive_step, hp, warn_state, warn_events, hl, hr, hc, hc2]
  · simp [batch_step, hp, warn_state, warn_events, hl2, hr, hc, hc2]

/-- C6 (as amended): from any state in which neither `alias` nor `which` is an
alias name, the line `alias ll = 'ls -la'` (the replacement text quoted, so
that it is one token) succeeds in either read loop and binds `ll` to
`ls -la`, and a following line `which ll` succeeds and reports `ll` as an
alias for `ls -la`. -/
theorem alias_then_which (MAX_ARGS : Nat) (w w2 : World) (st : Shell)
    (ha : hm_get st.alias_hm "alias".toList = none)
    (hw : hm_get st.alias_hm "which".toList = none) :
    ((interactive_step MAX_ARGS w st "alias ll = 'ls -la'\n".toList).next =
        Outcome.ret Next.continue ∧
      (interactive_step MAX_ARGS w st "alias ll = 'ls -la'\n".toList).st.rc = EXIT_SUCCESS ∧
      hm_get (interactive_step MAX_ARGS w st "alias ll = 'ls -la'\n".toList).st.alias_hm
        "ll".toList = some "ls -la".toList ∧
      (interactive_step MAX_ARGS w2
        (interactive_step MAX_ARGS w st "alias ll = 'ls -la'\n".toList).st
        "which ll\n".toList).st.rc = EXIT_SUCCESS ∧
      (interactive_step MAX_ARGS w2
        (interactive_step MAX_ARGS w st "alias ll = 'ls -la'\n".toList).st
        "which ll\n".toList).out = [Event.stdout (Msg.WHICH_ALIAS "ll".toList "ls -la".toList)]) ∧
    ((batch_step MAX_ARGS w st "alias ll = 'ls -la'\n".toList).next =
        Outcome.ret Next.continue ∧
      (batch_step MAX_ARGS w st "alias ll = 'ls -la'\n".toList).st.rc = EXIT_SUCCESS ∧
      hm_get (batch_step MAX_ARGS w st "alias ll = 'ls -la'\n".toList).st.alias_hm
        "ll".toList = some "ls -la".toList ∧
      (batch_step MAX_ARGS w2
        (batch_step MAX_ARGS w st "alias ll = 'ls -la'\n".toList).st
        "which ll\n".toList).st.rc = EXIT_SUCCESS ∧
      (batch_step MAX_ARGS w2
        (batch_step MAX_ARGS w st "alias ll = 'ls -la'\n".toList).st
        "which ll\n".toList).out = [Event.stdout (Msg.WHICH_ALIAS "ll".toList "ls -la".toList)]) := by
  have hp1 : parseline_no_subst "alias ll = 'ls -la'\n".toList =
      { argv := ["alias".toList, "ll".toList, "=".toList, "ls -la".toList], warned := false } := by
    decide
  have hp2 : parseline_no_subst "which ll\n".toList =
      { argv := ["which".toList, "ll".toList], warned := false } := by decide
  have s1 := step_of_run MAX_ARGS w st _ _ _ EXIT_SUCCESS hp1 (by simp)
    (run_alias_quoted MAX_ARGS w st ha) rfl (by decide)
  have hw2 : hm_get (history_add_raw_line
      { ({ st := { st with alias_hm := hm_put st.alias_hm "ll".toList "ls -la".toList },
           out := [], code := Outcome.ret EXIT_SUCCESS } : Run).st with rc := EXIT_SUCCESS }
      "alias ll = 'ls -la'\n".toList).alias_hm "which".toList = none := by
    simp only [history_add_raw_line]
    rw [hm_get_put_other _ _ _ _ (by decide)]
    exact hw
  have hv2 : hm_get (history_add_raw_line
      { ({ st := { st with alias_hm := hm_put st.alias_hm "ll".toList "ls -la".toList },
           out := [], code := Outcome.ret EXIT_SUCCESS } : Run).st with rc := EXIT_SUCCESS }
      "alias ll = 'ls -la'\n".toList).alias_hm "ll".toList = some "ls -la".toList := by
    simp only [history_add_raw_line]
    exact hm_get_put_same _ _ _
  have s2 := step_of_run MAX_ARGS w2 _ _ _ _ EXIT_SUCCESS hp2 (by simp)
    (run_which_alias MAX_ARGS w2 _ "ls -la".toList hw2 hv2) rfl (by decide)
  rw [s1.1, s1.2]
  refine ⟨⟨rfl, rfl, hv2, ?_, ?_⟩, ⟨rfl, rfl, hv2, ?_, ?_⟩⟩
  · rw [s2.1]; rfl
  · rw [s2.1]
  · rw [s2.2]; rfl
  · rw [s2.2]

/-- C6, witness: the two lines from the state `main` sets up. -/
theorem alias_then_which_witness :
    hm_get initial_shell.alias_hm "alias".toList = none ∧
    hm_get initial_shell.alias_hm "which".toList = none ∧
    (interactive_step 128 (sample_world (fun _ => 0))
      (interactive_step 128 (sample_world (fun _ => 0)) initial_shell
        "alias ll = 'ls -la'\n".toList).st
      "which ll\n".toList).out = [Event.stdout (Msg.WHICH_ALIAS "ll".toList "ls -la".toList)] :=
  have h := alias_then_which 128 (sample_world (fun _ => 0)) (sample_world (fun _ => 0))
    initial_shell (by decide) (by decide)
  ⟨by decide, by decide, h.1.2.2.2.2⟩

/-- C6, counterexample: from the state `main` sets up, the line
`alias ll = ls -la` has five tokens, so `builtin_alias` reports a usage error:
the status is failure, the alias table stays empty, and a following
`which ll` fails and reports `ll` as not found.  And from a state in which
`alias` is itself an alias (for `true`), even the quoted line
`alias ll = 'ls -la'` binds nothing: it runs `/bin/true`. -/
theorem alias_unquoted_fails :
    hm_get (interactive_step 128 (sample_world (fun _ => 0))
      { initial_shell with alias_hm := [("alias".toList, "true".toList)] }
      "alias ll = 'ls -la'\n".toList).st.alias_hm "ll".toList = none ∧
    parseline_no_subst "alias ll = ls -la\n".toList =
      { argv := ["alias".toList, "ll".toList, "=".toList, "ls".toList, "-la".toList],
        warned := false } ∧
    (interactive_step 128 (sample_world (fun _ => 0)) initial_shell
      "alias ll = ls -la\n".toList).st.rc = EXIT_FAILURE ∧
    (interactive_step 128 (sample_world (fun _ => 0)) initial_shell
      "alias ll = ls -la\n".toList).out = [Event.stderr Msg.INVALID_ALIAS_USE] ∧
    (interactive_step 128 (sample_world (fun _ => 0)) initial_shell
      "alias ll = ls -la\n".toList).st.alias_hm = [] ∧
    (interactive_step 128 (sample_world (fun _ => 0))
      (interactive_step 128 (sample_world (fun _ => 0)) initial_shell
        "alias ll = ls -la\n".toList).st
      "which ll\n".toList).out = [Event.stdout (Msg.WHICH_NOT_FOUND "ll".toList)] ∧
    (interactive_step 128 (sample_world (fun _ => 0))
      (interactive_step 128 (sample_world (fun _ => 0)) initial_shell
        "alias ll = ls -la\n".toList).st
      "which ll\n".toList).st.rc = EXIT_FAILURE := by
  decide

/-! ## C7: `history` with an index -/

theorem dropWhile_append_all (p : Char → Bool) (rest : List Char)
    (hr : ∀ c, rest.head? = some c → p c = false) :
    ∀ (ws : List Char), (∀ c ∈ ws, p c = true) → (ws ++ rest).dropWhile p = rest
  | [], _ => by
    cases rest with
    | nil => rfl
    | cons c r => simp [List.dropWhile, hr c rfl]
  | x :: ws, h => by
    have hx : p x = true := h x (by simp)
    simp only [List.cons_append, List.dropWhile, hx]
    exact dropWhile_append_all p rest hr ws (fun c hc => h c (by simp [hc]))

theorem takeWhile_all (p : Char → Bool) : ∀ (l : List Char), (∀ c ∈ l, p c = true) →
    l.takeWhile p = l ∧ l.dropWhile p = []
  | [], _ => ⟨rfl, rfl⟩
  | x :: l, h => by
    have hx : p x = true := h x (by simp)
    have ih := takeWhile_all p l (fun c hc => h c (by simp [hc]))
    simp [List.takeWhile, List.dropWhile, hx, ih.1, ih.2]

theorem digit_not_space (c : Char) (h : isdigit c = true) : isspace c = false := by
  simp only [isdigit, Bool.and_eq_true, decide_eq_true_eq] at h
  have h1 : c ≠ ' ' := by
    intro e; rw [e] at h; revert h; decide
  simp only [isspace, Bool.or_eq_false_iff, Bool.and_eq_false_iff, decide_eq_false_iff_not]
  exact ⟨h1, Or.inr (by omega)⟩

theorem digit_not_sign (c : Char) (h : isdigit c = true) : c ≠ '-' ∧ c ≠ '+' := by
  constructor <;> (intro e; rw [e] at h; revert h; decide)

theorem strtol_unsigned (ws ds : List Char) (hws : ∀ c ∈ ws, isspace c = true)
    (hne : ds ≠ []) (hds : ∀ c ∈ ds, isdigit c = true) :
    strtol (ws ++ ds) = (max LONG_MIN (min LONG_MAX (digits_value ds : Int)), []) := by
  cases ds with
  | nil => exact absurd rfl hne
  | cons d ds =>
    have hd : isdigit d = true := hds d (by simp)
    have h1 : (ws ++ d :: ds).dropWhile isspace = d :: ds :=
      dropWhile_append_all isspace (d :: ds)
        (fun c hc => by simp at hc; rw [← hc]; exact digit_not_space d hd) ws hws
    have hsg := digit_not_sign d hd
    have h2 := takeWhile_all isdigit (d :: ds) hds
    simp only [strtol, h1, List.head?_cons, Option.some.injEq, hsg.1, hsg.2, or_self, if_false,
      h2.1, h2.2, decide_False]
    simp

theorem strtol_signed (ws ds : List Char) (sg : Char) (hsg : sg = '-' ∨ sg = '+')
    (hws : ∀ c ∈ ws, isspace c = true) (hne : ds ≠ [])
    (hds : ∀ c ∈ ds, isdigit c = true) :
    strtol (ws ++ sg :: ds) =
      (max LONG_MIN (min LONG_MAX
        (if sg = '-' then -(digits_value ds : Int) else (digits_value ds : Int))), []) := by
  have hns : isspace sg = false := by
    rcases hsg with h | h <;> (rw [h]; decide)
  have h1 : (ws ++ sg :: ds).dropWhile isspace = sg :: ds :=
    dropWhile_append_all isspace (sg :: ds)
      (fun c hc => by simp at hc; rw [← hc]; exact hns) ws hws
  have h2 := takeWhile_all isdigit ds hds
  simp only [strtol, h1, List.head?_cons, Option.some.injEq, hsg, if_true, List.tail_cons,
    h2.1, h2.2, hne, if_false]
  rcases hsg with h | h
  · subst h; simp
  · subst h; simp

theorem strtol_of_denotes (s : CStr) (k : Int) (h : Denotes s k) :
    strtol s = (max LONG_MIN (min LONG_MAX k), []) ∧ s ≠ [] := by
  obtain ⟨ws, sign, ds, hs, hws, hsign, hne, hds, hk⟩ := h
  have hsne : s ≠ [] := by
    rw [hs]; simp [hne]
  refine ⟨?_, hsne⟩
  rcases hsign with h | h | h
  · subst h
    simp only [List.append_nil] at hs
    simp at hk
    rw [hs, hk]
    exact strtol_unsigned ws ds hws hne hds
  · subst h
    have hk2 : k = (digits_value ds : Int) := by simpa using hk
    rw [hs, hk2, List.append_assoc]
    have := strtol_signed ws ds '+' (Or.inr rfl) hws hne hds
    simpa using this
  · subst h
    have hk2 : k = -(digits_value ds : Int) := by simpa using hk
    rw [hs, hk2, List.append_assoc]
    have := strtol_signed ws ds '-' (Or.inl rfl) hws hne hds
    simpa using this

theorem all_of_dropWhile_nil (p : Char → Bool) : ∀ (l : List Char), l.dropWhile p = [] →
    ∀ c ∈ l, p c = true
  | [], _ => by simp
  | x :: l, h => by
    by_cases hx : p x = true
    · simp only [List.dropWhile, hx] at h
      intro c hc
      rcases List.mem_cons.mp hc with e | e
      · rw [e]; exact hx
      · exact all_of_dropWhile_nil p l h c e
    · simp [List.dropWhile, hx] at h

theorem strtol_no_digits (s : CStr) (h : (if (s.dropWhile isspace).head? = some '-' ∨
      (s.dropWhile isspace).head? = some '+' then (s.dropWhile isspace).tail
      else s.dropWhile isspace).takeWhile isdigit = []) :
    strtol s = (0, s) := by
  simp only [strtol, h, if_true]

theorem strtol_digits_rest (s : CStr) (h : (if (s.dropWhile isspace).head? = some '-' ∨
      (s.dropWhile isspace).head? = some '+' then (s.dropWhile isspace).tail
      else s.dropWhile isspace).takeWhile isdigit ≠ []) :
    (strtol s).2 = (if (s.dropWhile isspace).head? = some '-' ∨
      (s.dropWhile isspace).head? = some '+' then (s.dropWhile isspace).tail
      else s.dropWhile isspace).dropWhile isdigit := by
  simp only [strtol, h, if_false]

theorem denotes_of_strtol (s : CStr) (hne : s ≠ []) (hend : (strtol s).2 = []) :
    ∃ k, Denotes s k := by
  have hsplit : s.takeWhile isspace ++ s.dropWhile isspace = s := List.takeWhile_append_dropWhile _ _
  have hws : ∀ c ∈ s.takeWhile isspace, isspace c = true := fun c hc => List.mem_takeWhile_imp hc
  by_cases hd : (if (s.dropWhile isspace).head? = some '-' ∨
      (s.dropWhile isspace).head? = some '+' then (s.dropWhile isspace).tail
      else s.dropWhile isspace).takeWhile isdigit = []
  · rw [strtol_no_digits s hd] at hend
    exact absurd hend hne
  · rw [strtol_digits_rest s hd] at hend
    have hall := all_of_dropWhile_nil isdigit _ hend
    by_cases hsg : (s.dropWhile isspace).head? = some '-' ∨ (s.dropWhile isspace).head? = some '+'
    · rw [if_pos hsg] at hall hd
      have hne2 : (s.dropWhile isspace).tail ≠ [] := by
        intro e; rw [e] at hd; exact hd rfl
      cases hs2 : s.dropWhile isspace with
      | nil => rw [hs2] at hsg; simp at hsg
      | cons c t =>
        rw [hs2] at hsg hall hne2 hsplit
        simp only [List.head?_cons, Option.some.injEq, List.tail_cons] at hsg hall hne2
        rcases hsg with e | e
        · exact ⟨_, s.takeWhile isspace, ['-'], t, by rw [← e]; simp [hsplit], hws,
            Or.inr (Or.inr rfl), hne2, hall, rfl⟩
        · exact ⟨_, s.takeWhile isspace, ['+'], t, by rw [← e]; simp [hsplit], hws,
            Or.inr (Or.inl rfl), hne2, hall, rfl⟩
    · rw [if_neg hsg] at hall hd
      have hne2 : s.dropWhile isspace ≠ [] := by
        intro e; rw [e] at hd; exact hd rfl
      exact ⟨_, s.takeWhile isspace, [], s.dropWhile isspace, by simp [hsplit], hws,
        Or.inl rfl, hne2, hall, rfl⟩

theorem size_to_long_small (n : Nat) (h : (n : Int) < LONG_MAX) : size_to_long n = (n : Int) := by
  have h1 : n < 2 ^ 63 := by
    unfold LONG_MAX at h; omega
  have h2 : n % 2 ^ 64 = n := Nat.mod_eq_of_lt (by omega)
  unfold size_to_long
  rw [h2, if_pos h1]

theorem builtin_history_valid (st : Shell) (a0 s : CStr) (k : Int)
    (hN : (history_count st : Int) < LONG_MAX) (hd : Denotes s k) (h1 : 1 ≤ k)
    (h2 : k ≤ (history_count st : Int)) :
    ∃ line, st.history_da.data.get? (k - 1).toNat = some line ∧
      builtin_history st [a0, s] =
        { st := st, out := [Event.puts line], code := Outcome.ret EXIT_SUCCESS } := by
  obtain ⟨hs, hne⟩ := strtol_of_denotes s k hd
  have hk : max LONG_MIN (min LONG_MAX k) = k := by
    unfold LONG_MAX at hN; unfold LONG_MIN LONG_MAX; omega
  rw [hk] at hs
  have hlt : (k - 1).toNat < st.history_da.data.length := by
    unfold history_count DynamicArray.size at h2; omega
  have hget : st.history_da.data.get? (k - 1).toNat =
      some (st.history_da.data.get ⟨(k - 1).toNat, hlt⟩) := List.get?_eq_get hlt
  refine ⟨_, hget, ?_⟩
  have hline : history_get_line st (k - 1).toNat =
      some (st.history_da.data.get ⟨(k - 1).toNat, hlt⟩) := by
    unfold history_get_line da_get DynamicArray.size
    rw [if_neg (by omega), hget]
  have hc1 : ¬ (s = [] ∨ ([] : List Char) ≠ [] ∨ k < 1) := by
    simp [hne]; omega
  have hc2 : ¬ size_to_long (history_count st) < k := by
    rw [size_to_long_small _ hN]; omega
  simp only [builtin_history, hs, hc1, hc2, if_false, hline]

theorem builtin_history_invalid (st : Shell) (a0 s : CStr)
    (hN : (history_count st : Int) < LONG_MAX)
    (h : ¬ ∃ k : Int, Denotes s k ∧ 1 ≤ k ∧ k ≤ (history_count st : Int)) :
    builtin_history st [a0, s] =
      { st := st, out := [Event.stderr Msg.HISTORY_INVALID_ARG],
        code := Outcome.ret EXIT_FAILURE } := by
  cases hst : strtol s with
  | mk idx endp =>
    by_cases hc1 : s = [] ∨ endp ≠ [] ∨ idx < 1
    · simp only [builtin_history, hst, hc1, if_true]
    · by_cases hc2 : size_to_long (history_count st) < idx
      · simp only [builtin_history, hst, hc1, hc2, if_true, if_false]
      · exfalso
        apply h
        simp only [not_or, not_not, not_lt] at hc1
        obtain ⟨hne, hend, hidx⟩ := hc1
        have hend2 : (strtol s).2 = [] := by rw [hst]; exact hend
        obtain ⟨k, hk⟩ := denotes_of_strtol s hne hend2
        have hv := (strtol_of_denotes s k hk).1
        rw [hst] at hv
        have hidx2 : idx = max LONG_MIN (min LONG_MAX k) := by
          injection hv
        rw [size_to_long_small _ hN] at hc2
        have hkk : k = idx := by
          unfold LONG_MAX at hN; unfold LONG_MIN LONG_MAX at hidx2; omega
        exact ⟨k, hk, by omega, by omega⟩

/-- C7: with `N` entries in the history (`N` below `LONG_MAX`, as any array
in memory is), `builtin_history` with one argument `s` succeeds if and only
if `s` denotes an integer `k` with `1 <= k <= N`, and then prints exactly the
entry at 0-based index `k - 1`; otherwise (`k = 0`, `k > N`, a negative `k`,
an empty or non-numeric `s`) it fails, printing the error message and no
entry.  The state is never changed. -/
theorem history_index_contract (st : Shell) (a0 s : CStr)
    (hN : (history_count st : Int) < LONG_MAX) :
    ((builtin_history st [a0, s]).code = Outcome.ret EXIT_SUCCESS ↔
      ∃ k : Int, Denotes s k ∧ 1 ≤ k ∧ k ≤ (history_count st : Int)) ∧
    (∀ k : Int, Denotes s k → 1 ≤ k → k ≤ (history_count st : Int) →
      ∃ line, st.history_da.data.get? (k - 1).toNat = some line ∧
        (builtin_history st [a0, s]).out = [Event.puts line]) ∧
    ((¬ ∃ k : Int, Denotes s k ∧ 1 ≤ k ∧ k ≤ (history_count st : Int)) →
      (builtin_history st [a0, s]).code = Outcome.ret EXIT_FAILURE ∧
      (builtin_history st [a0, s]).out = [Event.stderr Msg.HISTORY_INVALID_ARG]) ∧
    (builtin_history st [a0, s]).st = st := by
  refine ⟨⟨?_, ?_⟩, ?_, ?_, ?_⟩
  · intro hc
    by_contra hno
    rw [builtin_history_invalid st a0 s hN hno] at hc
    simp [EXIT_FAILURE, EXIT_SUCCESS] at hc
  · rintro ⟨k, hd, h1, h2⟩
    obtain ⟨line, _, hr⟩ := builtin_history_valid st a0 s k hN hd h1 h2
    rw [hr]
  · intro k hd h1 h2
    obtain ⟨line, hg, hr⟩ := builtin_history_valid st a0 s k hN hd h1 h2
    exact ⟨line, hg, by rw [hr]⟩
  · intro hno
    rw [builtin_history_invalid st a0 s hN hno]
    exact ⟨rfl, rfl⟩
  · by_cases hex : ∃ k : Int, Denotes s k ∧ 1 ≤ k ∧ k ≤ (history_count st : Int)
    · obtain ⟨k, hd, h1, h2⟩ := hex
      obtain ⟨line, _, hr⟩ := builtin_history_valid st a0 s k hN hd h1 h2
      rw [hr]
    · rw [builtin_history_invalid st a0 s hN hex]

/-- C7, witness: with the two entries `pwd` and `ls -l` recorded,
`history 2` succeeds and prints `ls -l`, and `history 3` fails. -/
theorem history_index_contract_witness :
    (builtin_history
      { initial_shell with
        history_da := da_put (da_put (da_create 16) "pwd".toList) "ls -l".toList }
      ["history".toList, "2".toList]).code = Outcome.ret EXIT_SUCCESS ∧
    (builtin_history
      { initial_shell with
        history_da := da_put (da_put (da_create 16) "pwd".toList) "ls -l".toList }
      ["history".toList, "2".toList]).out = [Event.puts "ls -l".toList] ∧
    (builtin_history
      { initial_shell with
        history_da := da_put (da_put (da_create 16) "pwd".toList) "ls -l".toList }
      ["history".toList, "3".toList]).code = Outcome.ret EXIT_FAILURE :=
  have h := history_index_contract
    { initial_shell with
      history_da := da_put (da_put (da_create 16) "pwd".toList) "ls -l".toList }
    "history".toList "2".toList (by decide)
  have hd : Denotes "2".toList 2 :=
    ⟨[], [], "2".toList, rfl, by simp, Or.inl rfl, by decide, by decide, by decide⟩
  ⟨h.1.mpr ⟨2, hd, by decide, by decide⟩, by decide, by decide⟩

/-! ## C10: the exit request -/

theorem search_dirs_some (w : World) (c : CStr) : ∀ (l : List CStr),
    ∃ r, search_dirs w (some c) l = Outcome.ret r
  | [] => ⟨none, rfl⟩
  | tok :: rest => by
    obtain ⟨r, hr⟩ := search_dirs_some w c rest
    simp only [search_dirs]
    split
    · split
      · exact ⟨_, rfl⟩
      · exact ⟨r, hr⟩
    · exact ⟨r, hr⟩

theorem find_in_path_some (w : World) (PATH : Option CStr) (c : CStr) :
    ∃ r, (find_in_path w PATH (some c)).2 = Outcome.ret r := by
  unfold find_in_path
  split
  · exact ⟨none, rfl⟩
  · exact ⟨none, rfl⟩
  · exact search_dirs_some w c _

theorem status_code_plain (status : Nat) : (Outcome.ret (status_code status)).plain := by
  rcases status_code_cases status with h | h
  · exact Or.inl (by rw [h])
  · exact Or.inr (by rw [h])

theorem execute_one_plain (w : World) (st : Shell) (argv : List CStr) :
    (execute_one w st argv).code.plain := by
  cases argv with
  | nil => exact Or.inl rfl
  | cons a0 rest =>
    simp only [execute_one]
    split
    · rename_i ev heq
      exfalso
      split at heq
      · simp at heq
      · obtain ⟨r, hr⟩ := find_in_path_some w st.PATH a0
        rw [heq] at hr
        simp at hr
    · exact Or.inr rfl
    · split
      · split
        · exact Or.inr rfl
        · exact status_code_plain _
      · exact Or.inr rfl

theorem builtin_path_plain (w : World) (st : Shell) (argv : List CStr) :
    (builtin_path w st argv).code.plain := by
  unfold builtin_path
  split
  · exact Or.inl rfl
  · split
    · exact Or.inl rfl
    · exact Or.inr rfl
  · exact Or.inr rfl

theorem cd_to_plain (w : World) (st : Shell) (target : CStr) : (cd_to w st target).code.plain := by
  unfold cd_to
  split
  · exact Or.inl rfl
  · exact Or.inr rfl

theorem builtin_cd_plain (w : World) (st : Shell) (argv : List CStr) (h : argv ≠ []) :
    (builtin_cd w st argv).code.plain := by
  unfold builtin_cd
  split
  · exact absurd rfl h
  · split
    · exact Or.inr rfl
    · exact cd_to_plain _ _ _
  · exact cd_to_plain _ _ _
  · exact Or.inr rfl

theorem builtin_which_plain (w : World) (st : Shell) (argv : List CStr) :
    (builtin_which w st argv).code.plain := by
  unfold builtin_which
  split
  · rename_i name
    split
    · exact Or.inl rfl
    · split
      · exact Or.inl rfl
      · split
        · split
          · exact Or.inl rfl
          · exact Or.inr rfl
        · split
          · rename_i ev heq
            exfalso
            obtain ⟨r, hr⟩ := find_in_path_some w st.PATH name
            rw [heq] at hr
            simp at hr
          · exact Or.inr rfl
          · exact Or.inl rfl
  · exact Or.inr rfl

theorem builtin_history_plain (st : Shell) (argv : List CStr) :
    (builtin_history st argv).code.plain := by
  unfold builtin_history
  split
  · exact Or.inl rfl
  · simp only []
    split
    · exact Or.inr rfl
    · split
      · exact Or.inr rfl
      · split
        · exact Or.inr rfl
        · exact Or.inl rfl
  · exact Or.inr rfl

theorem alias_bind_plain (st : Shell) (a1 a2 v : CStr) : (alias_bind st a1 a2 v).code.plain := by
  unfold alias_bind
  split
  · exact Or.inr rfl
  · split
    · exact Or.inr rfl
    · exact Or.inl rfl

theorem builtin_alias_plain (st : Shell) (argv : List CStr) :
    (builtin_alias st argv).code.plain := by
  unfold builtin_alias
  split
  · exact Or.inl rfl
  · exact alias_bind_plain _ _ _ _
  · exact alias_bind_plain _ _ _ _
  · exact Or.inr rfl

theorem builtin_unalias_plain (st : Shell) (argv : List CStr) :
    (builtin_unalias st argv).code.plain := by
  unfold builtin_unalias
  split
  · split
    · exact Or.inr rfl
    · exact Or.inl rfl
  · exact Or.inr rfl

theorem run_pipeline_code (MAX_ARGS : Nat) (w : World) (st : Shell) (argv : List CStr) :
    (run_pipeline MAX_ARGS w st argv).code.plain ∨
      (run_pipeline MAX_ARGS w st argv).code = Outcome.fault := by
  have hs := stage_loop_spec MAX_ARGS w argv st []
  unfold run_pipeline
  split
  · rename_i st1 ev c heq
    rw [heq] at hs
    rcases hs.2.1 c rfl with h | h
    · exact Or.inl (Or.inr h)
    · exact Or.inr h
  · simp only []
    split
    · exact Or.inl (Or.inr rfl)
    · split
      · exact Or.inl (Or.inr rfl)
      · exact Or.inl (status_code_plain _)

theorem plain_ne_exit (c : Outcome Nat) (h : c.plain) : c ≠ Outcome.ret RC_EXIT_REQUEST := by
  rcases h with h | h <;> (rw [h]; decide)

theorem plain_ne_fault (c : Outcome Nat) (h : c.plain) : c ≠ Outcome.fault := by
  rcases h with h | h <;> (rw [h]; simp)

theorem builtin_dispatch_code (w : World) (st : Shell) (name : CStr) (use_argv : List CStr)
    (hne : use_argv ≠ []) :
    ((builtin_dispatch w st name use_argv).code = Outcome.ret RC_EXIT_REQUEST ↔
      name = "exit".toList ∧ use_argv.length = 1) ∧
    ((builtin_dispatch w st name use_argv).code = Outcome.ret RC_EXIT_REQUEST ∨
      (builtin_dispatch w st name use_argv).code.plain) := by
  unfold builtin_dispatch
  by_cases h0 : name = "exit".toList
  · rw [if_pos h0]
    unfold builtin_exit
    by_cases hl : use_argv.length = 1
    · simp [hl, h0]
    · simp only [hl, ne_eq, not_false_eq_true, if_true, and_false, iff_false]
      exact ⟨by decide, Or.inr (Or.inr rfl)⟩
  · rw [if_neg h0]
    have key : ∀ r : Run, r.code.plain →
        ((r.code = Outcome.ret RC_EXIT_REQUEST ↔ name = "exit".toList ∧ use_argv.length = 1) ∧
          (r.code = Outcome.ret RC_EXIT_REQUEST ∨ r.code.plain)) := by
      intro r hr
      exact ⟨⟨fun h => absurd h (plain_ne_exit _ hr), fun h => absurd h.1 h0⟩, Or.inr hr⟩
    split
    · exact key _ (builtin_path_plain _ _ _)
    · split
      · exact key _ (builtin_cd_plain _ _ _ hne)
      · split
        · exact key _ (builtin_which_plain _ _ _)
        · split
          · exact key _ (builtin_history_plain _ _)
          · split
            · exact key _ (builtin_alias_plain _ _)
            · split
              · exact key _ (builtin_unalias_plain _ _)
              · exact key _ (Or.inr rfl)

theorem any_pipe_true (argv : List CStr) (h : PIPE ∈ argv) :
    argv.any (fun t => decide (t = PIPE)) = true := by
  rw [List.any_eq_true]
  exact ⟨PIPE, h, by simp⟩

theorem run_command_pipe (MAX_ARGS : Nat) (w : World) (st : Shell) (argv : List CStr)
    (h : PIPE ∈ argv) : run_command MAX_ARGS w st argv = run_pipeline MAX_ARGS w st argv := by
  have hne : argv.length ≠ 0 := by
    intro e
    rw [List.length_eq_zero.mp e] at h
    simp at h
  simp only [run_command, hne, if_false, any_pipe_true argv h, if_true]

theorem is_builtin_exit : is_builtin_name (some "exit".toList) = true := by decide

/-- The part of claim C10 that holds on the code: for a non-empty token
sequence `run_command` returns the exit request exactly when the sequence
holds no `|` and its expansion is the single token `exit`; it returns nothing
but 0, 1 or 2; and it always returns when there is no `|`.  With a `|` the
call may instead end in the fault of `run_pipeline`. -/
theorem exit_request_iff (MAX_ARGS : Nat) (w : World) (st : Shell) (argv : List CStr)
    (hne : argv ≠ []) :
    ((run_command MAX_ARGS w st argv).code = Outcome.ret RC_EXIT_REQUEST ↔
      PIPE ∉ argv ∧
      (match (maybe_expand_leading_alias MAX_ARGS st.alias_hm argv).out_argv with
        | some x => x
        | none => argv) = ["exit".toList]) ∧
    ((run_command MAX_ARGS w st argv).code = Outcome.ret RC_EXIT_REQUEST ∨
      (run_command MAX_ARGS w st argv).code.plain ∨
      (PIPE ∈ argv ∧ (run_command MAX_ARGS w st argv).code = Outcome.fault)) := by
  by_cases hp : PIPE ∈ argv
  · rw [run_command_pipe MAX_ARGS w st argv hp]
    rcases run_pipeline_code MAX_ARGS w st argv with h | h
    · exact ⟨⟨fun e => absurd e (plain_ne_exit _ h), fun e => absurd hp e.1⟩, Or.inr (Or.inl h)⟩
    · refine ⟨⟨fun e => ?_, fun e => absurd hp e.1⟩, Or.inr (Or.inr ⟨hp, h⟩)⟩
      rw [h] at e
      simp at e
  · have hl : argv.length ≠ 0 := fun e => hne (List.length_eq_zero.mp e)
    simp only [run_command, hl, if_false, any_pipe_false argv hp, Bool.false_eq_true]
    generalize (match (maybe_expand_leading_alias MAX_ARGS st.alias_hm argv).out_argv with
      | some x => x
      | none => argv) = use_argv
    by_cases hb : is_builtin_name use_argv.head? = true
    · simp only [hb, if_true]
      cases use_argv with
      | nil => simp [is_builtin_name] at hb
      | cons a0 rest =>
        have hd := builtin_dispatch_code w
          (warn_state (maybe_expand_leading_alias MAX_ARGS st.alias_hm argv).warned st) a0
          (a0 :: rest) (by simp)
        simp only [List.head?_cons, Option.getD_some]
        refine ⟨?_, ?_⟩
        · rw [hd.1]
          constructor
          · rintro ⟨h1, h2⟩
            refine ⟨hp, ?_⟩
            simp only [List.length_cons, Nat.add_left_eq_self, List.length_eq_zero] at h2
            rw [h1, h2]
          · rintro ⟨_, h⟩
            simp only [List.cons.injEq] at h
            exact ⟨h.1, by rw [h.2]; rfl⟩
        · rcases hd.2 with h | h
          · exact Or.inl h
          · exact Or.inr (Or.inl h)
    · simp only [hb, if_false]
      have he := execute_one_plain w
        (warn_state (maybe_expand_leading_alias MAX_ARGS st.alias_hm argv).warned st) use_argv
      refine ⟨⟨fun e => absurd e (plain_ne_exit _ he), ?_⟩, Or.inr (Or.inl he)⟩
      rintro ⟨_, h⟩
      rw [h] at hb
      exact absurd is_builtin_exit hb

theorem resolve_segment_empty_alias (MAX_ARGS : Nat) (w : World) :
    resolve_segment MAX_ARGS w { initial_shell with alias_hm := [("e".toList, [])] }
      ["e".toList] =
      ({ initial_shell with alias_hm := [("e".toList, [])] }, [],
        Resolved.abort Outcome.fault) := by
  cases MAX_ARGS with
  | zero => rfl
  | succ m =>
    cases m with
    | zero => rfl
    | succ k =>
      have hb : hm_get [("e".toList, [])] "e".toList = some [] := by decide
      have hp : parseline_no_subst [] = { argv := [], warned := false } := by decide
      have he : maybe_expand_leading_alias (k + 1 + 1) [("e".toList, [])] ["e".toList] =
          { out_argv := some [], warned := false } := by
        rw [expand_bound _ _ _ [] _ hb, hp]
        simp
      have he2 : maybe_expand_leading_alias (k + 1 + 1) [(['e'], [])] [['e']] =
          { out_argv := some [], warned := false } := he
      have h4 : strtok_r ['/', 'b', 'i', 'n'] = [['/', 'b', 'i', 'n']] := by decide
      simp [resolve_segment, warn_state, warn_events, is_builtin_name, is_abs_or_rel,
        find_in_path, initial_shell, search_dirs, he2, h4]

/-- C10, the failing input: with the alias `e` bound to the empty text (as
`alias e =` leaves it) and `PATH` set to `/bin`, `run_command` on the tokens
`e | cat` returns neither 0 nor 1 nor the exit request: the call ends in the
fault of `run_pipeline`, which passes the NULL `use_argv[0]` of the first
stage to `find_in_path`. -/
theorem run_command_faults_on_empty_stage (MAX_ARGS : Nat) (w : World) :
    (run_command MAX_ARGS w { initial_shell with alias_hm := [("e".toList, [])] }
      ["e".toList, PIPE, "cat".toList]).code = Outcome.fault := by
  have h1 : ("e".toList = PIPE) = False := by decide
  have h2 : (PIPE = PIPE) = True := by simp
  rw [run_command_pipe MAX_ARGS w _ _ (by decide)]
  simp only [run_pipeline, stage_loop, h1, h2, if_true, if_false, List.nil_append,
    resolve_segment_empty_alias MAX_ARGS w]

/-! ## The tokenizer: every line is covered -/

theorem skip_spaces_split : ∀ (b : List Char),
    ∃ k, b = List.replicate k SPACE ++ skip_spaces b ∧
      (skip_spaces b = [] ∨ ∃ c r, skip_spaces b = c :: r ∧ c ≠ SPACE)
  | [] => ⟨0, rfl, Or.inl rfl⟩
  | x :: b => by
    by_cases hx : x = SPACE
    · obtain ⟨k, hk, hc⟩ := skip_spaces_split b
      refine ⟨k + 1, ?_, ?_⟩
      · simp only [skip_spaces, hx, if_true, List.replicate_succ, List.cons_append]
        rw [← hk]
      · simpa [skip_spaces, hx] using hc
    · exact ⟨0, by simp [skip_spaces, hx], Or.inr ⟨x, b, by simp [skip_spaces, hx], hx⟩⟩

theorem strchr_of_mem (c : Char) : ∀ (s : List Char), c ∈ s →
    ∃ tok p, strchr c s = some (tok, p)
  | [], h => by simp at h
  | x :: s, h => by
    by_cases hx : x = c
    · exact ⟨[], s, by simp [strchr, hx]⟩
    · have hc : c ∈ s := by
        rcases List.mem_cons.mp h with e | e
        · exact absurd e.symm hx
        · exact e
      obtain ⟨tok, p, hs⟩ := strchr_of_mem c s hc
      exact ⟨x :: tok, p, by simp [strchr, hx, hs]⟩

theorem ends_in_space_suffix (x y : List Char)
    (h : x ++ y = [] ∨ (x ++ y).getLast? = some SPACE) :
    y = [] ∨ y.getLast? = some SPACE := by
  cases y with
  | nil => exact Or.inl rfl
  | cons c r =>
    right
    rcases h with h | h
    · simp at h
    · rw [List.getLast?_append] at h
      cases hl : (c :: r).getLast? with
      | none => simp at hl
      | some v => rw [hl] at h; simpa using h

theorem mem_of_ends_in_space (c : Char) (r : List Char)
    (h : c :: r = [] ∨ (c :: r).getLast? = some SPACE) : SPACE ∈ c :: r := by
  rcases h with h | h
  · simp at h
  · exact List.mem_of_getLast?_eq_some h

theorem buffer_cases : ∀ (n : Nat) (b : List Char), b.length ≤ n →
    (b = [] ∨ b.getLast? = some SPACE) →
    (∃ items k, (∀ it ∈ items, (it : Nat × Item).2.wellformed) ∧
      b = layout items ++ List.replicate k SPACE) ∨
    (∃ items k q, (∀ it ∈ items, (it : Nat × Item).2.wellformed) ∧ QUOTE ∉ q ∧
      b = layout items ++ (List.replicate k SPACE ++ QUOTE :: q))
  | 0, b, hl, _ => by
    have : b = [] := List.length_eq_zero.mp (by omega)
    exact Or.inl ⟨[], 0, by simp, by simp [this, layout]⟩
  | n + 1, b, hl, hend => by
    obtain ⟨k, hk, hc⟩ := skip_spaces_split b
    rcases hc with h0 | ⟨c, r, hcr, hcs⟩
    · rw [h0, List.append_nil] at hk
      exact Or.inl ⟨[], k, by simp, by simp [layout, hk]⟩
    · rw [hcr] at hk
      have hend2 : c :: r = [] ∨ (c :: r).getLast? = some SPACE := by
        rw [hk] at hend
        exact ends_in_space_suffix _ _ hend
      have hlen : (c :: r).length ≤ n + 1 := by
        have := congrArg List.length hk
        simp at this; simp; omega
      by_cases hq : c = QUOTE
      · by_cases hm : QUOTE ∈ r
        · obtain ⟨q, r2, hs⟩ := strchr_of_mem QUOTE r hm
          obtain ⟨hr, hnq⟩ := strchr_eq_some QUOTE r q r2 hs
          have hend3 : r2 = [] ∨ r2.getLast? = some SPACE := by
            rw [hr] at hend2
            exact ends_in_space_suffix (c :: (q ++ [QUOTE])) r2 (by simpa using hend2)
          have hlen3 : r2.length ≤ n := by
            rw [hr] at hlen; simp at hlen; omega
          have hb : b = List.replicate k SPACE ++ (Item.quoted q).source ++ r2 := by
            rw [hk, hq, hr]; simp [Item.source]
          rcases buffer_cases n r2 hlen3 hend3 with ⟨items, k2, hwf, h2⟩ | ⟨items, k2, q2, hwf, hq2, h2⟩
          · refine Or.inl ⟨(k, Item.quoted q) :: items, k2, ?_, ?_⟩
            · intro it hit
              rcases List.mem_cons.mp hit with e | e
              · rw [e]; exact hnq
              · exact hwf it e
            · rw [hb, h2]; simp [layout]
          · refine Or.inr ⟨(k, Item.quoted q) :: items, k2, q2, ?_, hq2, ?_⟩
            · intro it hit
              rcases List.mem_cons.mp hit with e | e
              · rw [e]; exact hnq
              · exact hwf it e
            · rw [hb, h2]; simp [layout]
        · exact Or.inr ⟨[], k, r, by simp, hm, by rw [hk, hq]; simp [layout]⟩
      · obtain ⟨w, r2, hs⟩ := strchr_of_mem SPACE (c :: r) (mem_of_ends_in_space c r hend2)
        obtain ⟨hr, hnsp⟩ := strchr_eq_some SPACE (c :: r) w r2 hs
        have hw : w ≠ [] ∧ w.head? = some c := by
          cases w with
          | nil =>
            simp only [List.nil_append, List.cons.injEq] at hr
            exact absurd hr.1 hcs
          | cons c2 w2 =>
            simp only [List.cons_append, List.cons.injEq] at hr
            exact ⟨by simp, by simp [hr.1]⟩
        have hend3 : r2 = [] ∨ r2.getLast? = some SPACE := by
          rw [hr] at hend2
          exact ends_in_space_suffix (w ++ [SPACE]) r2 (by simpa using hend2)
        have hlen3 : r2.length ≤ n := by
          rw [hr] at hlen; simp at hlen; omega
        have hwf1 : (Item.word w).wellformed :=
          ⟨hw.1, hnsp, by rw [hw.2]; simpa using hq⟩
        have hb : b = List.replicate k SPACE ++ (Item.word w).source ++ SPACE :: r2 := by
          rw [hk, hr]; simp [Item.source]
        rcases buffer_cases n r2 hlen3 hend3 with ⟨items, k2, hwf, h2⟩ | ⟨items, k2, q2, hwf, hq2, h2⟩
        · refine Or.inl ⟨(k, Item.word w) :: items, k2, ?_, ?_⟩
          · intro it hit
            rcases List.mem_cons.mp hit with e | e
            · rw [e]; exact hwf1
            · exact hwf it e
          · rw [hb, h2]; simp [layout]
        · refine Or.inr ⟨(k, Item.word w) :: items, k2, q2, ?_, hq2, ?_⟩
          · intro it hit
            rcases List.mem_cons.mp hit with e | e
            · rw [e]; exact hwf1
            · exact hwf it e
          · rw [hb, h2]; simp [layout]

theorem line_buffer_ends (line : CStr) :
    line_buffer line = [] ∨ (line_buffer line).getLast? = some SPACE := by
  right
  unfold line_buffer
  split <;> exact List.getLast?_concat _

/-- Every line falls under one of the two cases of the tokenizer: its buffer
is a layout of well-formed items followed by spaces, and the tokens are the
items; or the layout is followed by a quote that begins a token and is never
closed, and the tokenizer warns and returns nothing. -/
theorem parseline_cases (line : CStr) :
    (∃ items k, (∀ it ∈ items, (it : Nat × Item).2.wellformed) ∧
      line_buffer line = layout items ++ List.replicate k SPACE ∧
      parseline_no_subst line = { argv := items.map (fun it => it.2.text), warned := false }) ∨
    (∃ items k q, (∀ it ∈ items, (it : Nat × Item).2.wellformed) ∧ QUOTE ∉ q ∧
      line_buffer line = layout items ++ (List.replicate k SPACE ++ QUOTE :: q) ∧
      parseline_no_subst line = { argv := [], warned := true }) := by
  rcases buffer_cases _ (line_buffer line) (le_refl _) (line_buffer_ends line) with
    ⟨items, k, hwf, h⟩ | ⟨items, k, q, hwf, hq, h⟩
  · refine Or.inl ⟨items, k, hwf, h, ?_⟩
    rw [parseline_eq_tokens_from, h, tokens_from_layout items hwf, skip_spaces_all]
    simp [tokens_from_nil]
  · refine Or.inr ⟨items, k, q, hwf, hq, h, ?_⟩
    rw [parseline_eq_tokens_from, h, tokens_from_layout items hwf, skip_spaces_replicate,
      skip_spaces_cons_ne QUOTE q quote_ne_space, tokens_from_unclosed q hq]
    rfl

/-! ## C11: resolution before spawning -/

theorem warn_state_env (b : Bool) (st : Shell) :
    (warn_state b st).alias_hm = st.alias_hm ∧ (warn_state b st).PATH = st.PATH ∧
    (warn_state b st).history_da = st.history_da := by
  cases b <;> simp [warn_state, wsh_warn]

theorem warn_state_PATH (b : Bool) (st : Shell) : (warn_state b st).PATH = st.PATH :=
  (warn_state_env b st).2.1

theorem warn_state_alias_hm (b : Bool) (st : Shell) :
    (warn_state b st).alias_hm = st.alias_hm :=
  (warn_state_env b st).1

theorem warn_state_history_da (b : Bool) (st : Shell) :
    (warn_state b st).history_da = st.history_da :=
  (warn_state_env b st).2.2

theorem resolve_segment_state (MAX_ARGS : Nat) (w : World) (st : Shell) (seg : List CStr) :
    ∃ b, (resolve_segment MAX_ARGS w st seg).1 = warn_state b st := by
  unfold resolve_segment
  simp only []
  split
  · exact ⟨false, rfl⟩
  · split
    · exact ⟨_, rfl⟩
    · split
      · split
        · exact ⟨_, rfl⟩
        · exact ⟨_, rfl⟩
      · split
        · exact ⟨_, rfl⟩
        · exact ⟨_, rfl⟩
        · exact ⟨_, rfl⟩

theorem resolve_segment_env (MAX_ARGS : Nat) (w : World) (st st2 : Shell) (seg : List CStr)
    (h1 : st2.alias_hm = st.alias_hm) (h2 : st2.PATH = st.PATH) :
    (resolve_segment MAX_ARGS w st2 seg).2 = (resolve_segment MAX_ARGS w st seg).2 := by
  simp only [resolve_segment, h1, warn_state_PATH, h2]
  split
  · rfl
  · split
    · rfl
    · split
      · split <;> rfl
      · split <;> rfl

theorem unresolvable_env (MAX_ARGS : Nat) (w : World) (st st2 : Shell) (seg : List CStr)
    (h1 : st2.alias_hm = st.alias_hm) (h2 : st2.PATH = st.PATH)
    (h : unresolvable MAX_ARGS w st seg) : unresolvable MAX_ARGS w st2 seg := by
  unfold unresolvable at h ⊢
  rw [h1, h2]
  exact h

theorem resolve_segment_unresolvable (MAX_ARGS : Nat) (w : World) (st : Shell)
    (seg : List CStr) (hne : seg ≠ []) (h : unresolvable MAX_ARGS w st seg) :
    (resolve_segment MAX_ARGS w st seg).2.2 = Resolved.abort (Outcome.ret EXIT_FAILURE) := by
  obtain ⟨name, hhead, hnb, hres⟩ := h
  unfold stage_use_argv at hhead
  have hl : seg.length ≠ 0 := fun e => hne (List.length_eq_zero.mp e)
  simp only [resolve_segment, hl, if_false, hhead, hnb, Bool.false_eq_true,
    warn_state_PATH]
  rcases hres with ⟨ha, hx⟩ | ⟨ha, hf⟩
  · simp [ha, hx]
  · simp only [ha, Bool.false_eq_true, if_false]
    cases hfp : find_in_path w st.PATH (some name) with
    | mk ev r =>
      rw [hfp] at hf
      simp only at hf
      subst hf
      rfl

theorem resolve_segment_fault (MAX_ARGS : Nat) (w : World) (st : Shell) (seg : List CStr)
    (h : (resolve_segment MAX_ARGS w st seg).2.2 = Resolved.abort Outcome.fault) :
    stage_use_argv MAX_ARGS st.alias_hm seg = [] := by
  cases hu : stage_use_argv MAX_ARGS st.alias_hm seg with
  | nil => rfl
  | cons name rest =>
    exfalso
    unfold stage_use_argv at hu
    simp only [resolve_segment, hu, List.head?_cons, warn_state_PATH] at h
    split at h
    · simp at h
    · split at h
      · simp at h
      · split at h
        · split at h <;> simp at h
        · obtain ⟨r, hr⟩ := find_in_path_some w st.PATH name
          split at h
          · rename_i ev heq
            rw [heq] at hr
            simp at hr
          · simp at h
          · simp at h

theorem stage_loop_abort_of_unresolvable (MAX_ARGS : Nat) (w : World) :
    ∀ (rest : List CStr) (st : Shell) (cur : List CStr),
    (∃ seg ∈ segments_from cur rest, seg = [] ∨ unresolvable MAX_ARGS w st seg) →
    ∃ c, (stage_loop MAX_ARGS w st rest cur).2.2 = Resolution.abort c
  | [], st, cur, h => by
    obtain ⟨seg, hmem, hseg⟩ := h
    simp only [segments_from, List.mem_singleton] at hmem
    subst hmem
    have hab : ∃ c, (resolve_segment MAX_ARGS w st seg).2.2 = Resolved.abort c := by
      by_cases he : seg = []
      · subst he; rw [resolve_segment_nil]; exact ⟨_, rfl⟩
      · rcases hseg with h | h
        · exact absurd h he
        · exact ⟨_, resolve_segment_unresolvable MAX_ARGS w st seg he h⟩
    obtain ⟨c, hc⟩ := hab
    rw [stage_loop]
    cases hr : resolve_segment MAX_ARGS w st seg with
    | mk st1 r =>
      obtain ⟨ev, res⟩ := r
      rw [hr] at hc
      simp only at hc
      subst hc
      exact ⟨c, rfl⟩
  | t :: rest, st, cur, h => by
    obtain ⟨seg, hmem, hseg⟩ := h
    rw [stage_loop]
    by_cases ht : t = PIPE
    · simp only [ht, if_true]
      simp only [segments_from, ht, if_true, List.mem_cons] at hmem
      cases hr : resolve_segment MAX_ARGS w st cur with
      | mk st1 r =>
        obtain ⟨ev, res⟩ := r
        cases res with
        | abort c => exact ⟨c, rfl⟩
        | ok s =>
          rcases hmem with e | e
          · exfalso
            subst e
            have hab : (resolve_segment MAX_ARGS w st seg).2.2 =
                Resolved.abort (Outcome.ret EXIT_FAILURE) := by
              by_cases he : seg = []
              · subst he; rw [resolve_segment_nil]
              · rcases hseg with h | h
                · exact absurd h he
                · exact resolve_segment_unresolvable MAX_ARGS w st seg he h
            rw [hr] at hab
            simp at hab
          · obtain ⟨b, hb⟩ := resolve_segment_state MAX_ARGS w st cur
            rw [hr] at hb
            simp only at hb
            have hseg2 : seg = [] ∨ unresolvable MAX_ARGS w st1 seg := by
              rcases hseg with h | h
              · exact Or.inl h
              · right
                apply unresolvable_env MAX_ARGS w st st1 seg _ _ h
                · rw [hb, warn_state_alias_hm]
                · rw [hb, warn_state_PATH]
            obtain ⟨c, hc⟩ := stage_loop_abort_of_unresolvable MAX_ARGS w rest st1 []
              ⟨seg, e, hseg2⟩
            simp only []
            cases hl : stage_loop MAX_ARGS w st1 rest [] with
            | mk st2 r2 =>
              obtain ⟨ev2, res2⟩ := r2
              rw [hl] at hc
              simp only at hc
              subst hc
              exact ⟨c, rfl⟩
    · simp only [ht, if_false]
      simp only [segments_from, ht, if_false] at hmem
      exact stage_loop_abort_of_unresolvable MAX_ARGS w rest st (cur ++ [t]) ⟨seg, hmem, hseg⟩

theorem stage_loop_fault (MAX_ARGS : Nat) (w : World) :
    ∀ (rest : List CStr) (st : Shell) (cur : List CStr),
    (stage_loop MAX_ARGS w st rest cur).2.2 = Resolution.abort Outcome.fault →
    ∃ seg ∈ segments_from cur rest, stage_use_argv MAX_ARGS st.alias_hm seg = []
  | [], st, cur, h => by
    rw [stage_loop] at h
    refine ⟨cur, by simp [segments_from], ?_⟩
    apply resolve_segment_fault MAX_ARGS w st cur
    cases hr : resolve_segment MAX_ARGS w st cur with
    | mk st1 r =>
      obtain ⟨ev, res⟩ := r
      rw [hr] at h
      cases res with
      | abort c => simp at h; simp [h]
      | ok s => simp at h
  | t :: rest, st, cur, h => by
    rw [stage_loop] at h
    by_cases ht : t = PIPE
    · simp only [ht, if_true] at h
      cases hr : resolve_segment MAX_ARGS w st cur with
      | mk st1 r =>
        obtain ⟨ev, res⟩ := r
        rw [hr] at h
        cases res with
        | abort c =>
          simp at h
          refine ⟨cur, by simp [segments_from, ht], ?_⟩
          apply resolve_segment_fault MAX_ARGS w st cur
          rw [hr, h]
        | ok s =>
          simp only at h
          obtain ⟨b, hb⟩ := resolve_segment_state MAX_ARGS w st cur
          rw [hr] at hb
          simp only at hb
          cases hl : stage_loop MAX_ARGS w st1 rest [] with
          | mk st2 r2 =>
            obtain ⟨ev2, res2⟩ := r2
            rw [hl] at h
            cases res2 with
            | abort c =>
              simp at h
              obtain ⟨seg, hmem, hs⟩ := stage_loop_fault MAX_ARGS w rest st1 []
                (by rw [hl, h])
              rw [hb, warn_state_alias_hm] at hs
              exact ⟨seg, by simp [segments_from, ht, hmem], hs⟩
            | stages l => simp at h
    · simp only [ht, if_false] at h
      obtain ⟨seg, hmem, hs⟩ := stage_loop_fault MAX_ARGS w rest st (cur ++ [t]) h
      exact ⟨seg, by simp [segments_from, ht, hmem], hs⟩

/-- The part of claim C11 that holds on the code: when a stage of a pipeline
without empty segment cannot be resolved, `run_pipeline` creates no pipe and
spawns no process, and if it returns at all it returns failure; it does
return whenever no stage is left without a first token by its alias
expansion. -/
theorem unresolvable_stage_never_spawns (MAX_ARGS : Nat) (w : World) (st : Shell)
    (argv : List CStr)
    (h : ∃ seg ∈ pipeline_segments argv, unresolvable MAX_ARGS w st seg) :
    (∀ e ∈ (run_pipeline MAX_ARGS w st argv).out, e.spawns = false) ∧
    ((run_pipeline MAX_ARGS w st argv).code = Outcome.ret EXIT_FAILURE ∨
      (run_pipeline MAX_ARGS w st argv).code = Outcome.fault) ∧
    ((∀ seg ∈ pipeline_segments argv, stage_use_argv MAX_ARGS st.alias_hm seg ≠ []) →
      (run_pipeline MAX_ARGS w st argv).code = Outcome.ret EXIT_FAILURE) := by
  have hs := stage_loop_spec MAX_ARGS w argv st []
  obtain ⟨seg, hmem, hu⟩ := h
  obtain ⟨c, hc⟩ := stage_loop_abort_of_unresolvable MAX_ARGS w argv st []
    ⟨seg, hmem, Or.inr hu⟩
  have hf := stage_loop_fault MAX_ARGS w argv st []
  unfold run_pipeline
  cases hl : stage_loop MAX_ARGS w st argv [] with
  | mk st1 r =>
    obtain ⟨ev, res⟩ := r
    rw [hl] at hs hc hf
    simp only at hc
    subst hc
    refine ⟨hs.1, hs.2.1 c rfl, ?_⟩
    intro hall
    rcases hs.2.1 c rfl with h1 | h1
    · simp only [h1]
    · exfalso
      subst h1
      obtain ⟨seg2, hm2, hs2⟩ := hf rfl
      exact hall seg2 hm2 hs2



/-- C11, the failing input: with the alias `e` bound to the empty text (as
`alias e =` leaves it) and `PATH` set to `/bin`, the tokens `e | nosuch` have
no empty segment and the stage `nosuch` is a bare name that the search does
not find, yet `run_pipeline` does not return failure: stage 0 expands to zero
tokens and `find_in_path` is called on its NULL `use_argv[0]`. -/
theorem unresolvable_stage_after_empty_alias_faults :
    [] ∉ pipeline_segments ["e".toList, PIPE, "nosuch".toList] ∧
    ["nosuch".toList] ∈ pipeline_segments ["e".toList, PIPE, "nosuch".toList] ∧
    unresolvable 128 (sample_world (fun _ => 0))
      { initial_shell with alias_hm := [("e".toList, [])] } ["nosuch".toList] ∧
    (run_pipeline 128 (sample_world (fun _ => 0))
      { initial_shell with alias_hm := [("e".toList, [])] }
      ["e".toList, PIPE, "nosuch".toList]).code = Outcome.fault :=
  ⟨by decide, by decide,
    ⟨"nosuch".toList, by decide, by decide, Or.inr ⟨by decide, by decide⟩⟩, by decide⟩

/-! ## C12: the bound of 128 stages -/

theorem stage_loop_stages_length (MAX_ARGS : Nat) (w : World) :
    ∀ (rest : List CStr) (st : Shell) (cur : List CStr) (st1 : Shell) (ev : List Event)
      (l : List Stage),
    stage_loop MAX_ARGS w st rest cur = (st1, ev, Resolution.stages l) →
    l.length = (segments_from cur rest).length
  | [], st, cur, st1, ev, l, h => by
    rw [stage_loop] at h
    split at h
    · simp at h
    · simp only [Prod.mk.injEq, Resolution.stages.injEq] at h
      rw [← h.2.2]; simp [segments_from]
  | t :: rest, st, cur, st1, ev, l, h => by
    rw [stage_loop] at h
    by_cases ht : t = PIPE
    · simp only [ht, if_true] at h
      cases hr : resolve_segment MAX_ARGS w st cur with
      | mk st2 r =>
        obtain ⟨ev2, res⟩ := r
        rw [hr] at h
        cases res with
        | abort c => simp at h
        | ok s =>
          simp only at h
          cases hl : stage_loop MAX_ARGS w st2 rest [] with
          | mk st3 r3 =>
            obtain ⟨ev3, res3⟩ := r3
            rw [hl] at h
            cases res3 with
            | abort c => simp at h
            | stages l3 =>
              simp only [Prod.mk.injEq, Resolution.stages.injEq] at h
              have ih := stage_loop_stages_length MAX_ARGS w rest st2 [] st3 ev3 l3 hl
              rw [← h.2.2]
              simp [segments_from, ht, ih]
    · simp only [ht, if_false] at h
      have ih := stage_loop_stages_length MAX_ARGS w rest st (cur ++ [t]) st1 ev l h
      simp [segments_from, ht, ih]

theorem resolve_segment_true (MAX_ARGS : Nat) (f : Nat → Nat) (h : 2 ≤ MAX_ARGS) :
    resolve_segment MAX_ARGS (sample_world f) initial_shell ["true".toList] =
      (initial_shell, [], Resolved.ok stage_true) := by
  obtain ⟨k, rfl⟩ : ∃ k, MAX_ARGS = k + 2 := ⟨MAX_ARGS - 2, by omega⟩
  have he : maybe_expand_leading_alias (k + 2) [] [['t', 'r', 'u', 'e']] =
      { out_argv := none, warned := false } := rfl
  have h4 : strtok_r ['/', 'b', 'i', 'n'] = [['/', 'b', 'i', 'n']] := by decide
  simp [resolve_segment, initial_shell, he, warn_state, warn_events, is_builtin_name,
    is_abs_or_rel, find_in_path, h4, search_dirs, sample_world, stage_true]

theorem stage_loop_true (MAX_ARGS : Nat) (f : Nat → Nat) (h : 2 ≤ MAX_ARGS) : ∀ (n : Nat),
    stage_loop MAX_ARGS (sample_world f) initial_shell (true_pipeline n) [] =
      (initial_shell, [], Resolution.stages (List.replicate (n + 1) stage_true))
  | 0 => by
    have h1 : ("true".toList = PIPE) = False := by decide
    simp only [true_pipeline, stage_loop, h1, if_false, List.nil_append,
      resolve_segment_true MAX_ARGS f h]
    rfl
  | n + 1 => by
    have h1 : ("true".toList = PIPE) = False := by decide
    have h2 : (PIPE = PIPE) = True := by simp
    simp only [true_pipeline, stage_loop, h1, h2, if_true, if_false, List.nil_append,
      resolve_segment_true MAX_ARGS f h, stage_loop_true MAX_ARGS f h n]
    rfl

theorem fork_loop_mem (w : World) (hf : ∀ j, w.fork_ok j = true) :
    ∀ (l : List Stage) (i j : Nat) (s : Stage), l.get? j = some s →
    Event.fork (i + j) (stage_child s) ∈ (fork_loop w i l).1
  | [], _, j, s, h => by simp at h
  | x :: l, i, 0, s, h => by
    simp only [List.get?_cons_zero, Option.some.injEq] at h
    subst h
    rw [fork_loop]
    simp [hf i]
  | x :: l, i, j + 1, s, h => by
    simp only [List.get?_cons_succ] at h
    have ih := fork_loop_mem w hf l (i + 1) j s h
    rw [fork_loop]
    simp only [hf i, if_true]
    have e : i + (j + 1) = i + 1 + j := by omega
    rw [e]
    exact List.mem_cons_of_mem _ ih

theorem run_pipeline_of_stages (MAX_ARGS : Nat) (w : World) (st : Shell) (argv : List CStr)
    (st1 : Shell) (ev : List Event) (l : List Stage)
    (hres : stage_loop MAX_ARGS w st argv [] = (st1, ev, Resolution.stages l))
    (hpipe : ∀ i, w.pipe_ok i = true) (hfork : ∀ i, w.fork_ok i = true) :
    (run_pipeline MAX_ARGS w st argv).out =
      ev ++ (pipe_loop w 0 (l.length - 1)).1 ++ (fork_loop w 0 l).1 ++
        (List.range l.length).map Event.waitpid := by
  have hp := pipe_loop_ok w (l.length - 1) 0 (fun j _ _ => hpipe j)
  have hf := fork_loop_ok w l 0 (fun j _ _ => hfork j)
  unfold run_pipeline
  rw [hres]
  simp only []
  cases hpl : pipe_loop w 0 (l.length - 1) with
  | mk evp okp =>
    rw [hpl] at hp
    simp only at hp
    subst hp
    cases hfl : fork_loop w 0 l with
    | mk evf okf =>
      rw [hfl] at hf
      simp only at hf
      subst hf
      rfl

theorem true_pipeline_pipes : ∀ (n : Nat),
    ((true_pipeline n).filter (fun t => decide (t = PIPE))).length = n
  | 0 => by decide
  | n + 1 => by
    have h1 : ("true".toList = PIPE) = False := by decide
    simp only [true_pipeline, List.filter_cons, h1, decide_False, Bool.false_eq_true, if_false,
      decide_True, if_true, List.length_cons, true_pipeline_pipes n]

/-- C12, the failing input: for `true | true | ... | true` with 129 segments
(and `MAX_ARGS` at least 2, so that a segment keeps its token), the clamped
count `segs` is 128, but the first loop of `run_pipeline` records 129 stages
(the entry with index 128 lies past the end of the 128-entry tables) and a
process is spawned for stage 128. -/
theorem stages_exceed_bound (MAX_ARGS : Nat) (f : Nat → Nat) (h : 2 ≤ MAX_ARGS) :
    segs (true_pipeline 128) = 128 ∧
    (pipeline_segments (true_pipeline 128)).length = 129 ∧
    stage_loop MAX_ARGS (sample_world f) initial_shell (true_pipeline 128) [] =
      (initial_shell, [], Resolution.stages (List.replicate 129 stage_true)) ∧
    Event.fork 128 (Child.execv (some "/bin/true".toList) ["true".toList]) ∈
      (run_pipeline MAX_ARGS (sample_world f) initial_shell (true_pipeline 128)).out := by
  have hs := stage_loop_true MAX_ARGS f h 128
  have hlen := stage_loop_stages_length MAX_ARGS (sample_world f) (true_pipeline 128)
    initial_shell [] initial_shell [] _ hs
  refine ⟨by simp [segs, true_pipeline_pipes], ?_, hs, ?_⟩
  · unfold pipeline_segments
    rw [← hlen]
    simp
  · rw [run_pipeline_of_stages MAX_ARGS (sample_world f) initial_shell _ _ _ _ hs
      (fun _ => rfl) (fun _ => rfl)]
    have hm := fork_loop_mem (sample_world f) (fun _ => rfl) (List.replicate 129 stage_true)
      0 128 stage_true (by simp)
    have hc : stage_child stage_true =
        Child.execv (some "/bin/true".toList) ["true".toList] := by decide
    rw [hc] at hm
    simp only [Nat.zero_add] at hm
    simp only [List.mem_append]
    exact Or.inl (Or.inr hm)

/-- C12, witness: `MAX_ARGS` is 512. -/
theorem stages_exceed_bound_witness :
    2 ≤ 512 ∧
    Event.fork 128 (Child.execv (some "/bin/true".toList) ["true".toList]) ∈
      (run_pipeline 512 (sample_world (fun _ => 0)) initial_shell (true_pipeline 128)).out :=
  ⟨by decide, (stages_exceed_bound 512 (fun _ => 0) (by decide)).2.2.2⟩

/-! ## C13: lines without quotes -/

theorem split_on_append (d : Char) : ∀ (w r : List Char), d ∉ w →
    split_on d (w ++ d :: r) = w :: split_on d r
  | [], r, _ => by simp [split_on]
  | x :: w, r, h => by
    simp only [List.mem_cons, not_or] at h
    have hx : ¬ x = d := fun e => h.1 e.symm
    simp [split_on, hx, split_on_append d w r h.2]

theorem split_on_ne_nil (d : Char) : ∀ (s : List Char), split_on d s ≠ []
  | [] => by simp [split_on]
  | x :: s => by
    unfold split_on
    split
    · simp
    · split <;> simp

theorem split_on_end (d : Char) : ∀ (s : List Char), split_on d (s ++ [d]) = split_on d s ++ [[]]
  | [] => by simp [split_on]
  | x :: s => by
    by_cases hx : x = d
    · simp [split_on, hx, split_on_end d s]
    · have ih := split_on_end d s
      cases hs : split_on d s with
      | nil => exact absurd hs (split_on_ne_nil d s)
      | cons a b =>
        rw [hs] at ih
        have e1 : split_on d (x :: (s ++ [d])) = (x :: a) :: (b ++ [[]]) := by
          rw [split_on, if_neg hx, ih]; rfl
        have e2 : split_on d (x :: s) = (x :: a) :: b := by
          rw [split_on, if_neg hx, hs]
        rw [List.cons_append, e1, e2]; rfl

theorem nonspace_runs_space (s : List Char) : nonspace_runs (SPACE :: s) = nonspace_runs s := by
  simp [nonspace_runs, split_on]

theorem nonspace_runs_spaces (s : List Char) : ∀ (n : Nat),
    nonspace_runs (List.replicate n SPACE ++ s) = nonspace_runs s
  | 0 => by simp
  | n + 1 => by
    rw [List.replicate_succ, List.cons_append, nonspace_runs_space, nonspace_runs_spaces s n]

theorem nonspace_runs_word (w r : List Char) (hne : w ≠ []) (h : SPACE ∉ w) :
    nonspace_runs (w ++ SPACE :: r) = w :: nonspace_runs r := by
  simp [nonspace_runs, split_on_append SPACE w r h, hne]

theorem nonspace_runs_end (s : List Char) : nonspace_runs (s ++ [SPACE]) = nonspace_runs s := by
  simp [nonspace_runs, split_on_end]

theorem nonspace_runs_blank (k : Nat) : nonspace_runs (List.replicate k SPACE) = [] := by
  have := nonspace_runs_spaces [] k
  simpa [nonspace_runs, split_on] using this

theorem nonspace_runs_layout : ∀ (items : List (Nat × Item)) (tail : List Char),
    (∀ it ∈ items, it.2.wellformed) → QUOTE ∉ layout items →
    nonspace_runs (layout items ++ tail) = items.map (fun it => it.2.text) ++ nonspace_runs tail
  | [], tail, _, _ => by simp [layout]
  | (n, Item.word w) :: rest, tail, hwf, hq => by
    have hw : (Item.word w).wellformed := hwf (n, Item.word w) (by simp)
    have hq2 : QUOTE ∉ layout rest := by
      intro hm; apply hq; simp [layout, hm]
    have ih := nonspace_runs_layout rest tail (fun it hit => hwf it (by simp [hit])) hq2
    have e1 : layout ((n, Item.word w) :: rest) ++ tail =
        List.replicate n SPACE ++ (w ++ SPACE :: (layout rest ++ tail)) := by
      simp [layout, Item.source]
    rw [e1, nonspace_runs_spaces, nonspace_runs_word w _ hw.1 hw.2.1, ih]
    simp [Item.text]
  | (n, Item.quoted q) :: rest, tail, _, hq => by
    exfalso
    apply hq
    simp [layout, Item.source]

theorem mem_line_of_mem_buffer (c : Char) (line : CStr) (hc : c ≠ SPACE)
    (h : c ∈ line_buffer line) : c ∈ line := by
  unfold line_buffer at h
  split at h
  · rcases List.mem_append.mp h with h1 | h1
    · exact List.mem_of_mem_dropLast h1
    · simp at h1; exact absurd h1 hc
  · rcases List.mem_append.mp h with h1 | h1
    · exact h1
    · simp at h1; exact absurd h1 hc

theorem nonspace_runs_buffer (line : CStr) :
    nonspace_runs (line_buffer line) = nonspace_runs (newline_as_space line) := by
  unfold line_buffer newline_as_space
  split
  · rfl
  · exact nonspace_runs_end line

theorem split_on_no_delim (d : Char) : ∀ (s : List Char), ∀ r ∈ split_on d s, d ∉ r
  | [], r, h => by
    simp only [split_on, List.mem_singleton] at h
    subst h; simp
  | x :: s, r, h => by
    have ih := split_on_no_delim d s
    unfold split_on at h
    by_cases hx : x = d
    · simp only [hx, if_true, List.mem_cons] at h
      rcases h with e | e
      · subst e; simp
      · exact ih r e
    · simp only [hx, if_false] at h
      cases hs : split_on d s with
      | nil => exact absurd hs (split_on_ne_nil d s)
      | cons a b =>
        rw [hs] at h ih
        simp only [List.mem_cons] at h
        rcases h with e | e
        · subst e
          have ha := ih a (by simp)
          simp only [List.mem_cons, not_or]
          exact ⟨fun e2 => hx e2.symm, ha⟩
        · exact ih r (by simp [e])

theorem split_on_join (d : Char) : ∀ (s : List Char), [d].intercalate (split_on d s) = s
  | [] => by simp [split_on, List.intercalate]
  | x :: s => by
    have ih := split_on_join d s
    unfold split_on
    by_cases hx : x = d
    · simp only [hx, if_true]
      cases hs : split_on d s with
      | nil => exact absurd hs (split_on_ne_nil d s)
      | cons a b =>
        rw [hs] at ih
        simp [List.intercalate, List.intersperse] at ih ⊢
        exact ih
    · simp only [hx, if_false]
      cases hs : split_on d s with
      | nil => exact absurd hs (split_on_ne_nil d s)
      | cons a b =>
        rw [hs] at ih
        cases b with
        | nil => simp [List.intercalate, List.intersperse] at ih ⊢; exact ih
        | cons b1 b2 => simp [List.intercalate, List.intersperse] at ih ⊢; exact ih

/-- C13: for a line without single quote the tokenizer does not warn and
returns exactly the maximal runs of non-space characters of the line, in
order, its trailing newline (if any) counting as a space; so leading,
trailing and repeated spaces give no token, and no token is empty or holds
a space. -/
theorem quote_free_line_runs (line : CStr) (h : QUOTE ∉ line) :
    parseline_no_subst line =
      { argv := nonspace_runs (newline_as_space line), warned := false } ∧
    (∀ t ∈ (parseline_no_subst line).argv, t ≠ [] ∧ SPACE ∉ t) := by
  have hbq : QUOTE ∉ line_buffer line :=
    fun hm => h (mem_line_of_mem_buffer QUOTE line quote_ne_space hm)
  have hp : parseline_no_subst line =
      { argv := nonspace_runs (newline_as_space line), warned := false } := by
    rcases parseline_cases line with ⟨items, k, hwf, hbuf, hparse⟩ | ⟨items, k, q, _, _, hbuf, _⟩
    · have hlq : QUOTE ∉ layout items := by
        intro hm; apply hbq; rw [hbuf]; simp [hm]
      rw [hparse, ← nonspace_runs_buffer, hbuf, nonspace_runs_layout items _ hwf hlq,
        nonspace_runs_blank, List.append_nil]
    · exfalso
      apply hbq
      rw [hbuf]
      simp
  refine ⟨hp, ?_⟩
  rw [hp]
  intro t ht
  simp only [nonspace_runs, List.mem_filter, decide_eq_true_eq] at ht
  exact ⟨ht.2, split_on_no_delim SPACE _ t ht.1⟩

/-- C13, witness: the line `  ls   -l  /tmp ` followed by a newline. -/
theorem quote_free_line_runs_witness :
    QUOTE ∉ "  ls   -l  /tmp \n".toList ∧
    parseline_no_subst "  ls   -l  /tmp \n".toList =
      { argv := ["ls".toList, "-l".toList, "/tmp".toList], warned := false } :=
  ⟨by decide, (quote_free_line_runs "  ls   -l  /tmp \n".toList (by decide)).1⟩

/-! ## C14: the arguments of `alias` -/

theorem alias_bind_ok (st : Shell) (name value : CStr) (h : name ≠ []) :
    alias_bind st name "=".toList value =
      { st := { st with alias_hm := hm_put st.alias_hm name value }, out := [],
        code := Outcome.ret EXIT_SUCCESS } := by
  simp [alias_bind, h]

theorem alias_bind_bad (st : Shell) (a1 a2 value : CStr) (h : a2 ≠ "=".toList ∨ a1 = []) :
    alias_bind st a1 a2 value = alias_usage st := by
  unfold alias_bind
  by_cases h2 : a2 ≠ "=".toList
  · rw [if_pos h2]
  · rw [if_neg h2]
    rcases h with h | h
    · exact absurd h h2
    · rw [if_pos h]

/-- C14: `builtin_alias` called with `[alias, name, =, value]` or
`[alias, name, =]` and a non-empty name succeeds, and afterwards the alias
table maps `name` to `value` (to the empty text in the second form) and maps
every other name as before; called with `[alias]` alone it succeeds and
changes nothing; for every other token list it returns failure with the
usage message and changes nothing. -/
theorem builtin_alias_contract (st : Shell) :
    (∀ a0 name value : CStr, name ≠ [] →
      (builtin_alias st [a0, name, "=".toList, value]).code = Outcome.ret EXIT_SUCCESS ∧
      hm_get (builtin_alias st [a0, name, "=".toList, value]).st.alias_hm name = some value ∧
      (∀ k, k ≠ name →
        hm_get (builtin_alias st [a0, name, "=".toList, value]).st.alias_hm k =
          hm_get st.alias_hm k) ∧
      (builtin_alias st [a0, name, "=".toList, value]).st =
        { st with alias_hm := (builtin_alias st [a0, name, "=".toList, value]).st.alias_hm }) ∧
    (∀ a0 name : CStr, name ≠ [] →
      (builtin_alias st [a0, name, "=".toList]).code = Outcome.ret EXIT_SUCCESS ∧
      hm_get (builtin_alias st [a0, name, "=".toList]).st.alias_hm name = some [] ∧
      (∀ k, k ≠ name →
        hm_get (builtin_alias st [a0, name, "=".toList]).st.alias_hm k =
          hm_get st.alias_hm k) ∧
      (builtin_alias st [a0, name, "=".toList]).st =
        { st with alias_hm := (builtin_alias st [a0, name, "=".toList]).st.alias_hm }) ∧
    (∀ a0 : CStr,
      (builtin_alias st [a0]).code = Outcome.ret EXIT_SUCCESS ∧ (builtin_alias st [a0]).st = st) ∧
    (∀ argv : List CStr,
      (¬ ∃ a0, argv = [a0]) →
      (¬ ∃ a0 name value, name ≠ [] ∧ argv = [a0, name, "=".toList, value]) →
      (¬ ∃ a0 name, name ≠ [] ∧ argv = [a0, name, "=".toList]) →
      (builtin_alias st argv).code = Outcome.ret EXIT_FAILURE ∧
      (builtin_alias st argv).st = st ∧
      (builtin_alias st argv).out = [Event.stderr Msg.INVALID_ALIAS_USE]) := by
  refine ⟨?_, ?_, ?_, ?_⟩
  · intro a0 name value hne
    have e : builtin_alias st [a0, name, "=".toList, value] =
        alias_bind st name "=".toList value := rfl
    rw [e, alias_bind_ok st name value hne]
    exact ⟨rfl, hm_get_put_same _ _ _, fun k hk => hm_get_put_other _ _ _ _ hk, rfl⟩
  · intro a0 name hne
    have e : builtin_alias st [a0, name, "=".toList] = alias_bind st name "=".toList [] := rfl
    rw [e, alias_bind_ok st name [] hne]
    exact ⟨rfl, hm_get_put_same _ _ _, fun k hk => hm_get_put_other _ _ _ _ hk, rfl⟩
  · intro a0
    exact ⟨rfl, rfl⟩
  · intro argv h1 h4 h3
    have hu : builtin_alias st argv = alias_usage st := by
      match argv with
      | [] => rfl
      | [a0] => exact absurd ⟨a0, rfl⟩ h1
      | [_, _] => rfl
      | [a0, a1, a2] =>
        have e : builtin_alias st [a0, a1, a2] = alias_bind st a1 a2 [] := rfl
        rw [e]
        apply alias_bind_bad
        by_contra hc
        simp only [not_or, not_not] at hc
        exact h3 ⟨a0, a1, hc.2, by rw [hc.1]⟩
      | [a0, a1, a2, a3] =>
        have e : builtin_alias st [a0, a1, a2, a3] = alias_bind st a1 a2 a3 := rfl
        rw [e]
        apply alias_bind_bad
        by_contra hc
        simp only [not_or, not_not] at hc
        exact h4 ⟨a0, a1, a3, hc.2, by rw [hc.1]⟩
      | _ :: _ :: _ :: _ :: _ :: _ => rfl
    rw [hu]
    exact ⟨rfl, rfl, rfl⟩

/-- C14, witness: `alias ll = x` on a table that binds `ll` and `g`, and the
ill-formed `alias ll x y`. -/
theorem builtin_alias_contract_witness :
    hm_get (builtin_alias
      { initial_shell with alias_hm := [("ll".toList, "ls".toList), ("g".toList, "git".toList)] }
      ["alias".toList, "ll".toList, "=".toList, "x".toList]).st.alias_hm "ll".toList =
        some "x".toList ∧
    hm_get (builtin_alias
      { initial_shell with alias_hm := [("ll".toList, "ls".toList), ("g".toList, "git".toList)] }
      ["alias".toList, "ll".toList, "=".toList, "x".toList]).st.alias_hm "g".toList =
        some "git".toList ∧
    (builtin_alias
      { initial_shell with alias_hm := [("ll".toList, "ls".toList), ("g".toList, "git".toList)] }
      ["alias".toList, "ll".toList, "x".toList, "y".toList]).code = Outcome.ret EXIT_FAILURE :=
  have h := builtin_alias_contract
    { initial_shell with alias_hm := [("ll".toList, "ls".toList), ("g".toList, "git".toList)] }
  have h1 := h.1 "alias".toList "ll".toList "x".toList (by decide)
  ⟨h1.2.1, by rw [h1.2.2.1 "g".toList (by decide)]; decide,
    (h.2.2.2 ["alias".toList, "ll".toList, "x".toList, "y".toList]
      (by simp) (by simp)
      (by simp)).1⟩

/-! ## C15: the exit request stops the read loop -/

theorem expand_warned_clean (MAX_ARGS : Nat) (hm : HashMap) (argv : List CStr)
    (h : alias_texts_clean hm) : (maybe_expand_leading_alias MAX_ARGS hm argv).warned = false := by
  cases argv with
  | nil => rfl
  | cons a0 rest =>
    cases hg : hm_get hm a0 with
    | none => rw [expand_unbound MAX_ARGS hm a0 rest hg]
    | some v => rw [expand_bound MAX_ARGS hm a0 v rest hg]; exact h a0 v hg

theorem run_command_exit (MAX_ARGS : Nat) (w : World) (st : Shell) (argv : List CStr)
    (hc : alias_texts_clean st.alias_hm)
    (hx : (run_command MAX_ARGS w st argv).code = Outcome.ret RC_EXIT_REQUEST) :
    run_command MAX_ARGS w st argv = { st := st, out := [], code := Outcome.ret RC_EXIT_REQUEST } := by
  have hne : argv ≠ [] := by
    intro e
    rw [e] at hx
    revert hx
    simp [run_command, EXIT_SUCCESS, RC_EXIT_REQUEST]
  obtain ⟨hp, hu⟩ := (exit_request_iff MAX_ARGS w st argv hne).1.mp hx
  have hl : argv.length ≠ 0 := fun e => hne (List.length_eq_zero.mp e)
  have hw := expand_warned_clean MAX_ARGS st.alias_hm argv hc
  simp only [run_command, hl, if_false, any_pipe_false argv hp, Bool.false_eq_true, hu, hw,
    warn_state, warn_events]
  rfl

theorem parseline_argv_ne_nil (line : CStr) (h : (parseline_no_subst line).argv ≠ []) :
    (parseline_no_subst line).warned = false := by
  cases hw : (parseline_no_subst line).warned with
  | false => rfl
  | true =>
    rw [parseline_warned_argv line hw] at h
    exact absurd rfl h

/-- C15: when `run_command` signals the exit request for a line, in a state
whose alias texts tokenize cleanly (as they do in every state the shell
reaches), the pass through either loop body ends the loop and leaves the
whole state as it was: nothing is appended to the history and `rc` keeps its
value.  `interactive_main` stops at the line, whatever lines follow, and
`batch_main` stops there too and returns that unchanged `rc`, which `main`
returns as the exit code. -/
theorem exit_request_stops_loop (MAX_ARGS : Nat) (ferror : Bool) (w : World) (st : Shell)
    (line : CStr) (rest : List (World × CStr))
    (hc : alias_texts_clean st.alias_hm)
    (hx : (run_command MAX_ARGS w st (parseline_no_subst line).argv).code =
      Outcome.ret RC_EXIT_REQUEST) :
    interactive_step MAX_ARGS w st line =
      { st := st, out := [], next := Outcome.ret Next.break } ∧
    batch_step MAX_ARGS w st line =
      { st := st, out := [], next := Outcome.ret Next.break } ∧
    interactive_main MAX_ARGS ferror st ((w, line) :: rest) =
      (st, [Event.stdout Msg.PROMPT], Outcome.ret ()) ∧
    batch_main MAX_ARGS ferror st ((w, line) :: rest) =
      { st := st, out := [], code := Outcome.ret st.rc } := by
  have hr := run_command_exit MAX_ARGS w st _ hc hx
  have hne : (parseline_no_subst line).argv ≠ [] := by
    intro e
    rw [e] at hx
    revert hx
    simp [run_command, EXIT_SUCCESS, RC_EXIT_REQUEST]
  have hw := parseline_argv_ne_nil line hne
  have hl : (parseline_no_subst line).argv.length ≠ 0 :=
    fun e => hne (List.length_eq_zero.mp e)
  have hl2 : (parseline_no_subst line).argv.length > 0 := Nat.pos_of_ne_zero hl
  have h1 : interactive_step MAX_ARGS w st line =
      { st := st, out := [], next := Outcome.ret Next.break } := by
    simp [interactive_step, hw, warn_state, warn_events, hl, hr]
  have h2 : batch_step MAX_ARGS w st line =
      { st := st, out := [], next := Outcome.ret Next.break } := by
    simp [batch_step, hw, warn_state, warn_events, hl2, hr]
  refine ⟨h1, h2, ?_, ?_⟩
  · rw [interactive_main, h1]
  · rw [batch_main, h2]

/-- C15, witness: the script `exit`, `ls` run after a failed command
(`rc` is 1): the loop stops at `exit`, the history stays empty and the value
returned is 1. -/
theorem exit_request_stops_loop_witness :
    alias_texts_clean ({ initial_shell with rc := 1 } : Shell).alias_hm ∧
    batch_main 128 false { initial_shell with rc := 1 }
      [(sample_world (fun _ => 0), "exit\n".toList), (sample_world (fun _ => 0), "ls\n".toList)] =
      { st := { initial_shell with rc := 1 }, out := [], code := Outcome.ret 1 } :=
  ⟨fun k v h => by simp [initial_shell, hm_get] at h,
    (exit_request_stops_loop 128 false (sample_world (fun _ => 0)) { initial_shell with rc := 1 }
      "exit\n".toList [(sample_world (fun _ => 0), "ls\n".toList)]
      (fun k v h => by simp [initial_shell, hm_get] at h) (by decide)).2.2.2⟩

/-! ## The alias texts stay clean -/

theorem parseline_quote_free_warned (line : CStr) (h : QUOTE ∉ line) :
    (parseline_no_subst line).warned = false := by
  rcases parseline_cases line with ⟨items, k, _, _, hparse⟩ | ⟨items, k, q, _, _, hbuf, _⟩
  · rw [hparse]
  · exfalso
    apply h
    apply mem_line_of_mem_buffer QUOTE line quote_ne_space
    rw [hbuf]
    simp

theorem buffer_word_clean (x : List Char) (line : CStr) (hb : line_buffer line = x ++ [SPACE])
    (hs : SPACE ∉ x) (hq : x.head? ≠ some QUOTE) :
    (parseline_no_subst line).warned = false := by
  rw [parseline_eq_tokens_from, hb]
  cases x with
  | nil => simp [skip_spaces, tokens_from_nil]
  | cons c r =>
    have hc : c ≠ QUOTE := by simpa using hq
    have hcs : c ≠ SPACE := by
      intro e; apply hs; simp [e]
    rw [List.cons_append, skip_spaces_cons_ne c _ hcs]
    have := tokens_from_word c r [] hc hs
    simp only [List.cons_append] at this
    rw [this]
    simp [skip_spaces, tokens_from_nil]

theorem head_dropLast (c : Char) : ∀ (w : List Char), w.head? ≠ some c →
    w.dropLast.head? ≠ some c
  | [], _ => by simp
  | [x], _ => by simp
  | x :: y :: r, h => by
    simp only [List.dropLast_cons₂, List.head?_cons] at h ⊢
    exact h

theorem word_clean (w : CStr) (hs : SPACE ∉ w) (hq : w.head? ≠ some QUOTE) :
    (parseline_no_subst w).warned = false := by
  by_cases hn : w.getLast? = some NEWLINE
  · apply buffer_word_clean w.dropLast w
    · unfold line_buffer; rw [if_pos hn]
    · exact fun hm => hs (List.mem_of_mem_dropLast hm)
    · exact head_dropLast QUOTE w hq
  · apply buffer_word_clean w w
    · unfold line_buffer; rw [if_neg hn]
    · exact hs
    · exact hq

theorem token_clean (line : CStr) :
    ∀ t ∈ (parseline_no_subst line).argv, (parseline_no_subst t).warned = false := by
  intro t ht
  rcases parseline_cases line with ⟨items, k, hwf, _, hparse⟩ | ⟨items, k, q, _, _, _, hparse⟩
  · rw [hparse] at ht
    simp only [List.mem_map] at ht
    obtain ⟨it, hit, rfl⟩ := ht
    have hw := hwf it hit
    obtain ⟨n, item⟩ := it
    cases item with
    | word w => exact word_clean w hw.2.1 hw.2.2
    | quoted q => exact parseline_quote_free_warned q hw
  · rw [hparse] at ht
    simp at ht

theorem alias_texts_clean_put (hm : HashMap) (k v : CStr) (h : alias_texts_clean hm)
    (hv : (parseline_no_subst v).warned = false) : alias_texts_clean (hm_put hm k v) := by
  intro k2 v2 hg
  by_cases e : k2 = k
  · subst e
    rw [hm_get_put_same] at hg
    injection hg with hg
    rw [← hg]; exact hv
  · rw [hm_get_put_other _ _ _ _ e] at hg
    exact h k2 v2 hg

theorem alias_texts_clean_delete (hm : HashMap) (k : CStr) (h : alias_texts_clean hm) :
    alias_texts_clean (hm_delete hm k) := by
  intro k2 v2 hg
  by_cases e : k2 = k
  · subst e
    rw [hm_get_delete_same] at hg
    simp at hg
  · rw [hm_get_delete_other _ _ _ e] at hg
    exact h k2 v2 hg

theorem alias_texts_clean_initial : alias_texts_clean initial_shell.alias_hm := by
  intro k v h
  simp [initial_shell, hm_get] at h

theorem execute_one_state (w : World) (st : Shell) (argv : List CStr) :
    (execute_one w st argv).st = st := by
  cases argv with
  | nil => rfl
  | cons a0 rest =>
    simp only [execute_one]
    split
    · rfl
    · rfl
    · split
      · split <;> rfl
      · rfl

theorem builtin_exit_state (st : Shell) (argv : List CStr) : (builtin_exit st argv).st = st := by
  unfold builtin_exit
  split <;> rfl

theorem cd_to_state (w : World) (st : Shell) (t : CStr) : (cd_to w st t).st = st := by
  unfold cd_to
  split <;> rfl

theorem builtin_cd_state (w : World) (st : Shell) (argv : List CStr) :
    (builtin_cd w st argv).st = st := by
  unfold builtin_cd
  split
  · rfl
  · split
    · rfl
    · exact cd_to_state _ _ _
  · exact cd_to_state _ _ _
  · rfl

theorem builtin_which_state (w : World) (st : Shell) (argv : List CStr) :
    (builtin_which w st argv).st = st := by
  unfold builtin_which
  split
  · split
    · rfl
    · split
      · rfl
      · split
        · split <;> rfl
        · split <;> rfl
  · rfl

theorem builtin_history_state (st : Shell) (argv : List CStr) :
    (builtin_history st argv).st = st := by
  unfold builtin_history
  split
  · rfl
  · simp only []
    split
    · rfl
    · split
      · rfl
      · split <;> rfl
  · rfl

theorem builtin_path_state (w : World) (st : Shell) (argv : List CStr) :
    (builtin_path w st argv).st.alias_hm = st.alias_hm ∧
    (builtin_path w st argv).st.history_da = st.history_da ∧
    (builtin_path w st argv).st.rc = st.rc := by
  unfold builtin_path
  split
  · exact ⟨rfl, rfl, rfl⟩
  · split <;> exact ⟨rfl, rfl, rfl⟩
  · exact ⟨rfl, rfl, rfl⟩

theorem alias_bind_state (st : Shell) (a1 a2 v : CStr) :
    (alias_bind st a1 a2 v).st = st ∨
      (alias_bind st a1 a2 v).st = { st with alias_hm := hm_put st.alias_hm a1 v } := by
  unfold alias_bind
  split
  · exact Or.inl rfl
  · split
    · exact Or.inl rfl
    · exact Or.inr rfl

theorem builtin_alias_state (st : Shell) (argv : List CStr) :
    (builtin_alias st argv).st = st ∨
      ∃ a1 v, (v = [] ∨ v ∈ argv) ∧
        (builtin_alias st argv).st = { st with alias_hm := hm_put st.alias_hm a1 v } := by
  unfold builtin_alias
  split
  · exact Or.inl rfl
  · rename_i a0 a1 a2
    rcases alias_bind_state st a1 a2 [] with h | h
    · exact Or.inl h
    · exact Or.inr ⟨a1, [], Or.inl rfl, h⟩
  · rename_i a0 a1 a2 a3
    rcases alias_bind_state st a1 a2 a3 with h | h
    · exact Or.inl h
    · exact Or.inr ⟨a1, a3, Or.inr (by simp), h⟩
  · exact Or.inl rfl

theorem builtin_unalias_state (st : Shell) (argv : List CStr) :
    (builtin_unalias st argv).st = st ∨
      ∃ a1, (builtin_unalias st argv).st = { st with alias_hm := hm_delete st.alias_hm a1 } := by
  unfold builtin_unalias
  split
  · split
    · exact Or.inl rfl
    · exact Or.inr ⟨_, rfl⟩
  · exact Or.inl rfl

theorem builtin_dispatch_state (w : World) (st : Shell) (name : CStr) (use_argv : List CStr) :
    (builtin_dispatch w st name use_argv).st.history_da = st.history_da ∧
    (builtin_dispatch w st name use_argv).st.rc = st.rc ∧
    ((builtin_dispatch w st name use_argv).st.alias_hm = st.alias_hm ∨
      (∃ a1 v, (v = [] ∨ v ∈ use_argv) ∧
        (builtin_dispatch w st name use_argv).st.alias_hm = hm_put st.alias_hm a1 v) ∨
      (∃ a1, (builtin_dispatch w st name use_argv).st.alias_hm = hm_delete st.alias_hm a1)) := by
  unfold builtin_dispatch
  split
  · rw [builtin_exit_state]; exact ⟨rfl, rfl, Or.inl rfl⟩
  · split
    · have h := builtin_path_state w st use_argv
      exact ⟨h.2.1, h.2.2, Or.inl h.1⟩
    · split
      · rw [builtin_cd_state]; exact ⟨rfl, rfl, Or.inl rfl⟩
      · split
        · rw [builtin_which_state]; exact ⟨rfl, rfl, Or.inl rfl⟩
        · split
          · rw [builtin_history_state]; exact ⟨rfl, rfl, Or.inl rfl⟩
          · split
            · rcases builtin_alias_state st use_argv with h | ⟨a1, v, hv, h⟩
              · rw [h]; exact ⟨rfl, rfl, Or.inl rfl⟩
              · rw [h]; exact ⟨rfl, rfl, Or.inr (Or.inl ⟨a1, v, hv, rfl⟩)⟩
            · split
              · rcases builtin_unalias_state st use_argv with h | ⟨a1, h⟩
                · rw [h]; exact ⟨rfl, rfl, Or.inl rfl⟩
                · rw [h]; exact ⟨rfl, rfl, Or.inr (Or.inr ⟨a1, rfl⟩)⟩
              · exact ⟨rfl, rfl, Or.inl rfl⟩

theorem stage_loop_state (MAX_ARGS : Nat) (w : World) :
    ∀ (rest : List CStr) (st : Shell) (cur : List CStr),
    (stage_loop MAX_ARGS w st rest cur).1.alias_hm = st.alias_hm ∧
    (stage_loop MAX_ARGS w st rest cur).1.history_da = st.history_da ∧
    (stage_loop MAX_ARGS w st rest cur).1.PATH = st.PATH
  | [], st, cur => by
    obtain ⟨b, hb⟩ := resolve_segment_state MAX_ARGS w st cur
    rw [stage_loop]
    cases hr : resolve_segment MAX_ARGS w st cur with
    | mk st1 r =>
      obtain ⟨ev, res⟩ := r
      rw [hr] at hb
      simp only at hb
      cases res <;> simp [hb, warn_state_alias_hm, warn_state_history_da, warn_state_PATH]
  | t :: rest, st, cur => by
    rw [stage_loop]
    by_cases ht : t = PIPE
    · simp only [ht, if_true]
      obtain ⟨b, hb⟩ := resolve_segment_state MAX_ARGS w st cur
      cases hr : resolve_segment MAX_ARGS w st cur with
      | mk st1 r =>
        obtain ⟨ev, res⟩ := r
        rw [hr] at hb
        simp only at hb
        cases res with
        | abort c =>
          simp [hb, warn_state_alias_hm, warn_state_history_da, warn_state_PATH]
        | ok s =>
          have ih := stage_loop_state MAX_ARGS w rest st1 []
          simp only []
          cases hl : stage_loop MAX_ARGS w st1 rest [] with
          | mk st2 r2 =>
            obtain ⟨ev2, res2⟩ := r2
            rw [hl] at ih
            simp only [hb, warn_state_alias_hm, warn_state_history_da, warn_state_PATH] at ih
            cases res2 <;> exact ih
    · simp only [ht, if_false]
      exact stage_loop_state MAX_ARGS w rest st (cur ++ [t])

theorem run_pipeline_state (MAX_ARGS : Nat) (w : World) (st : Shell) (argv : List CStr) :
    (run_pipeline MAX_ARGS w st argv).st.alias_hm = st.alias_hm ∧
    (run_pipeline MAX_ARGS w st argv).st.history_da = st.history_da := by
  have hs := stage_loop_state MAX_ARGS w argv st []
  unfold run_pipeline
  split
  · rename_i st1 ev c heq
    rw [heq] at hs
    exact ⟨hs.1, hs.2.1⟩
  · rename_i st1 ev l heq
    rw [heq] at hs
    simp only []
    split
    · exact ⟨hs.1, hs.2.1⟩
    · split <;> exact ⟨hs.1, hs.2.1⟩

theorem expand_mem (MAX_ARGS : Nat) (hm : HashMap) (argv x : List CStr)
    (h : (maybe_expand_leading_alias MAX_ARGS hm argv).out_argv = some x) :
    ∀ t ∈ x, t ∈ argv ∨ ∃ k v, hm_get hm k = some v ∧ t ∈ (parseline_no_subst v).argv := by
  cases argv with
  | nil => simp [maybe_expand_leading_alias] at h
  | cons a0 rest =>
    cases hg : hm_get hm a0 with
    | none => rw [expand_unbound MAX_ARGS hm a0 rest hg] at h; simp at h
    | some v =>
      rw [expand_bound MAX_ARGS hm a0 v rest hg] at h
      simp only [Option.some.injEq] at h
      intro t ht
      rw [← h] at ht
      rcases List.mem_append.mp (List.mem_of_mem_take ht) with h1 | h1
      · exact Or.inr ⟨a0, v, hg, h1⟩
      · exact Or.inl (List.mem_cons_of_mem _ h1)

theorem run_resolved_state (w : World) (st1 : Shell) (use_argv : List CStr) :
    (if is_builtin_name use_argv.head? = true then
        builtin_dispatch w st1 (use_argv.head?.getD []) use_argv
      else execute_one w st1 use_argv).st.history_da = st1.history_da ∧
    (alias_texts_clean st1.alias_hm →
      (∀ t ∈ use_argv, (parseline_no_subst t).warned = false) →
      alias_texts_clean (if is_builtin_name use_argv.head? = true then
          builtin_dispatch w st1 (use_argv.head?.getD []) use_argv
        else execute_one w st1 use_argv).st.alias_hm) := by
  split
  · have hd := builtin_dispatch_state w st1 (use_argv.head?.getD []) use_argv
    refine ⟨hd.1, ?_⟩
    intro hc ha
    rcases hd.2.2 with h | ⟨a1, v, hv, h⟩ | ⟨a1, h⟩
    · rw [h]; exact hc
    · rw [h]
      apply alias_texts_clean_put _ _ _ hc
      rcases hv with e | e
      · rw [e]; decide
      · exact ha v e
    · rw [h]
      exact alias_texts_clean_delete _ _ hc
  · rw [execute_one_state]
    exact ⟨rfl, fun h _ => h⟩

theorem run_command_state (MAX_ARGS : Nat) (w : World) (st : Shell) (argv : List CStr) :
    (run_command MAX_ARGS w st argv).st.history_da = st.history_da ∧
    (alias_texts_clean st.alias_hm →
      (∀ t ∈ argv, (parseline_no_subst t).warned = false) →
      alias_texts_clean (run_command MAX_ARGS w st argv).st.alias_hm) := by
  by_cases hl : argv.length = 0
  · simp only [run_command, hl, if_true]
    exact ⟨trivial, fun h _ => h⟩
  by_cases hp : PIPE ∈ argv
  · rw [run_command_pipe MAX_ARGS w st argv hp]
    have hps := run_pipeline_state MAX_ARGS w st argv
    exact ⟨hps.2, fun h _ => by rw [hps.1]; exact h⟩
  · cases ho : (maybe_expand_leading_alias MAX_ARGS st.alias_hm argv).out_argv with
    | none =>
      simp only [run_command, hl, if_false, any_pipe_false argv hp, Bool.false_eq_true, ho]
      have hr := run_resolved_state w
        (warn_state (maybe_expand_leading_alias MAX_ARGS st.alias_hm argv).warned st) argv
      rw [warn_state_history_da, warn_state_alias_hm] at hr
      exact hr
    | some x =>
      simp only [run_command, hl, if_false, any_pipe_false argv hp, Bool.false_eq_true, ho]
      have hr := run_resolved_state w
        (warn_state (maybe_expand_leading_alias MAX_ARGS st.alias_hm argv).warned st) x
      rw [warn_state_history_da, warn_state_alias_hm] at hr
      refine ⟨hr.1, fun hc ha => hr.2 hc ?_⟩
      intro t ht
      rcases expand_mem MAX_ARGS st.alias_hm argv x ho t ht with h1 | ⟨k, v, _, h1⟩
      · exact ha t h1
      · exact token_clean v t h1

/-! ## C16: the history is append-only -/

theorem history_add_data (st : Shell) (line : CStr) :
    (history_add_raw_line st line).history_da.data = st.history_da.data ++ [strip_newline line] ∧
    (history_add_raw_line st line).alias_hm = st.alias_hm := by
  simp [history_add_raw_line, da_put, strip_newline]

theorem interactive_step_clean (MAX_ARGS : Nat) (w : World) (st : Shell) (line : CStr)
    (h : alias_texts_clean st.alias_hm) :
    alias_texts_clean (interactive_step MAX_ARGS w st line).st.alias_hm := by
  by_cases hne : (parseline_no_subst line).argv = []
  · have h0 : (parseline_no_subst line).argv.length = 0 := by rw [hne]; rfl
    simp only [interactive_step, h0, if_true, warn_state_alias_hm]
    exact h
  · have hw := parseline_argv_ne_nil line hne
    have hl : (parseline_no_subst line).argv.length ≠ 0 :=
      fun e => hne (List.length_eq_zero.mp e)
    have hs := (run_command_state MAX_ARGS w st (parseline_no_subst line).argv).2 h
      (token_clean line)
    simp only [interactive_step, hw, warn_state, hl, if_false, Bool.false_eq_true]
    cases hc : (run_command MAX_ARGS w st (parseline_no_subst line).argv).code with
    | fault => exact hs
    | ret c =>
      by_cases hx : c = RC_EXIT_REQUEST
      · simp only [hx, if_true]; exact hs
      · simp only [hx, if_false, (history_add_data _ line).2]; exact hs

theorem is_builtin_name_iff (n : CStr) : is_builtin_name (some n) = true ↔ n ∈ builtin_names := by
  simp [is_builtin_name, builtin_names, or_assoc]

theorem is_abs_or_rel_eq (n : CStr) : is_abs_or_rel (some n) = direct_path n := by
  cases n with
  | nil => rfl
  | cons c r => simp [is_abs_or_rel, direct_path]

theorem is_builtin_name_false (n : CStr) (h : n ∉ builtin_names) :
    is_builtin_name (some n) = false := by
  cases hb : is_builtin_name (some n) with
  | false => rfl
  | true =>
    exfalso
    apply h
    simpa [is_builtin_name, builtin_names, or_assoc] using hb

theorem search_dirs_lookup (w : World) (n : CStr) : ∀ (dirs : List CStr),
    search_dirs w (some n) dirs =
      Outcome.ret (((dirs.filter (fun d => d ≠ [])).map (fun d => d ++ '/' :: n)).find?
        w.access_x)
  | [] => rfl
  | d :: dirs => by
    have ih := search_dirs_lookup w n dirs
    by_cases hd : d = []
    · simp only [search_dirs, hd, ne_eq, not_true_eq_false, if_false, ih]
      simp
    · by_cases hx : w.access_x (d ++ '/' :: n) = true
      · simp [search_dirs, hd, hx]
      · simp [search_dirs, hd, hx, ih]

theorem find_in_path_lookup (w : World) (PATH : Option CStr) (n : CStr) :
    find_in_path w PATH (some n) =
      ((if PATH = none ∨ PATH = some [] then [Event.stderr Msg.EMPTY_PATH] else []),
        Outcome.ret (path_lookup w PATH n)) := by
  match PATH with
  | none => simp [find_in_path, path_lookup]
  | some [] => simp [find_in_path, path_lookup, split_on]
  | some (c :: cs) =>
    simp only [find_in_path, path_lookup, search_dirs_lookup, strtok_r, List.filter_filter]
    simp

theorem path_empty_iff (PATH : Option CStr) :
    path_empty PATH = true ↔ (PATH = none ∨ PATH = some []) := by
  match PATH with
  | none => simp [path_empty]
  | some [] => simp [path_empty]
  | some (c :: cs) => simp [path_empty]

theorem path_lookup_empty (w : World) (PATH : Option CStr) (n : CStr)
    (h : PATH = none ∨ PATH = some []) : path_lookup w PATH n = none := by
  rcases h with h | h <;> subst h <;> simp [path_lookup, split_on]

/-! ## C17: one diagnostic per resolution failure -/

theorem find_in_path_events_eq (w : World) (PATH cmd : Option CStr) :
    (find_in_path w PATH cmd).1 =
      if path_empty PATH then [Event.stderr Msg.EMPTY_PATH] else [] := by
  unfold find_in_path
  split <;> simp [path_empty]

theorem find_in_path_empty (w : World) (PATH cmd : Option CStr) (h : path_empty PATH = true) :
    (find_in_path w PATH cmd).2 = Outcome.ret none := by
  unfold find_in_path
  split
  · rfl
  · rfl
  · simp [path_empty] at h

theorem warn_events_quote (b : Bool) :
    ∀ e ∈ warn_events b, e = Event.stderr Msg.MISSING_CLOSING_QUOTE := by
  cases b <;> simp [warn_events]

theorem resolve_segment_ok_events (MAX_ARGS : Nat) (w : World) (st : Shell) (seg : List CStr)
    (s : Stage) (h : (resolve_segment MAX_ARGS w st seg).2.2 = Resolved.ok s) :
    (resolve_segment MAX_ARGS w st seg).2.1 =
      warn_events (maybe_expand_leading_alias MAX_ARGS st.alias_hm
        (seg.take (MAX_ARGS - 1))).warned := by
  revert h
  simp only [resolve_segment, warn_state_PATH]
  split
  · simp
  · split
    · simp
    · split
      · split <;> simp
      · split
        · simp
        · simp
        · rename_i ev p heq
          intro _
          have he := congrArg Prod.fst heq
          have h2 := congrArg Prod.snd heq
          simp only at he h2
          rw [find_in_path_events_eq] at he
          by_cases hpe : path_empty st.PATH = true
          · rw [find_in_path_empty _ _ _ hpe] at h2
            simp at h2
          · simp only [hpe, Bool.false_eq_true, if_false] at he
            simp [← he]

theorem resolves_env (MAX_ARGS : Nat) (w : World) (st st2 : Shell) (seg : List CStr)
    (h1 : st2.alias_hm = st.alias_hm) (h2 : st2.PATH = st.PATH)
    (h : resolves MAX_ARGS w st seg) : resolves MAX_ARGS w st2 seg := by
  unfold resolves at h ⊢
  rw [resolve_segment_env MAX_ARGS w st st2 seg h1 h2]
  exact h

theorem stage_loop_first_abort (MAX_ARGS : Nat) (w : World) :
    ∀ (rest : List CStr) (st : Shell) (cur : List CStr) (pre : List (List CStr))
      (s : List CStr) (post : List (List CStr)) (c : Outcome Nat),
    segments_from cur rest = pre ++ s :: post →
    (∀ x ∈ pre, resolves MAX_ARGS w st x) →
    (resolve_segment MAX_ARGS w st s).2.2 = Resolved.abort c →
    ∃ ev_pre, (∀ e ∈ ev_pre, e = Event.stderr Msg.MISSING_CLOSING_QUOTE) ∧
      (stage_loop MAX_ARGS w st rest cur).2 =
        (ev_pre ++ (resolve_segment MAX_ARGS w st s).2.1, Resolution.abort c)
  | [], st, cur, pre, s, post, c, hseg, hpre, hab => by
    simp only [segments_from] at hseg
    have hcur : pre = [] ∧ s = cur := by
      cases pre with
      | nil => simp at hseg; exact ⟨rfl, hseg.1.symm⟩
      | cons x xs =>
        simp only [List.cons_append, List.cons.injEq] at hseg
        have := hseg.2
        simp at this
    obtain ⟨_, rfl⟩ := hcur
    refine ⟨[], by simp, ?_⟩
    rw [stage_loop]
    cases hr : resolve_segment MAX_ARGS w st s with
    | mk st1 r =>
      obtain ⟨ev, res⟩ := r
      rw [hr] at hab
      simp only at hab
      subst hab
      rfl
  | t :: rest, st, cur, pre, s, post, c, hseg, hpre, hab => by
    rw [stage_loop]
    by_cases ht : t = PIPE
    · simp only [ht, if_true]
      simp only [segments_from, ht, if_true] at hseg
      cases pre with
      | nil =>
        simp only [List.nil_append, List.cons.injEq] at hseg
        obtain ⟨rfl, _⟩ := hseg
        refine ⟨[], by simp, ?_⟩
        cases hr : resolve_segment MAX_ARGS w st cur with
        | mk st1 r =>
          obtain ⟨ev, res⟩ := r
          rw [hr] at hab
          simp only at hab
          subst hab
          rfl
      | cons x xs =>
        simp only [List.cons_append, List.cons.injEq] at hseg
        obtain ⟨rfl, hseg2⟩ := hseg
        obtain ⟨stage, hok⟩ := hpre cur (by simp)
        have hev := resolve_segment_ok_events MAX_ARGS w st cur stage hok
        obtain ⟨b, hb⟩ := resolve_segment_state MAX_ARGS w st cur
        cases hr : resolve_segment MAX_ARGS w st cur with
        | mk st1 r =>
          obtain ⟨ev, res⟩ := r
          rw [hr] at hok hev hb
          simp only at hok hev hb
          subst hok
          have h1 : st1.alias_hm = st.alias_hm := by rw [hb, warn_state_alias_hm]
          have h2 : st1.PATH = st.PATH := by rw [hb, warn_state_PATH]
          have henv := resolve_segment_env MAX_ARGS w st st1 s h1 h2
          obtain ⟨ev_pre, hq, hl⟩ := stage_loop_first_abort MAX_ARGS w rest st1 [] xs s post c
            hseg2 (fun y hy => resolves_env MAX_ARGS w st st1 y h1 h2 (hpre y (by simp [hy])))
            (by rw [henv]; exact hab)
          refine ⟨ev ++ ev_pre, ?_, ?_⟩
          · intro e he
            rcases List.mem_append.mp he with h | h
            · rw [hev] at h
              exact warn_events_quote _ e h
            · exact hq e h
          · simp only []
            cases hsl : stage_loop MAX_ARGS w st1 rest [] with
            | mk st2 r2 =>
              obtain ⟨ev2, res2⟩ := r2
              rw [hsl, henv] at hl
              simp only [Prod.mk.injEq] at hl
              obtain ⟨hl1, hl2⟩ := hl
              subst hl1 hl2
              simp [List.append_assoc]
    · simp only [ht, if_false]
      simp only [segments_from, ht, if_false] at hseg
      exact stage_loop_first_abort MAX_ARGS w rest st (cur ++ [t]) pre s post c hseg hpre hab

theorem find_in_path_not_found (w : World) (PATH : Option CStr) (name : CStr)
    (hf : (find_in_path w PATH (some name)).2 = Outcome.ret none) :
    find_in_path w PATH (some name) =
      ((if path_empty PATH then [Event.stderr Msg.EMPTY_PATH] else []), Outcome.ret none) := by
  have he := find_in_path_events_eq w PATH (some name)
  cases hfp : find_in_path w PATH (some name) with
  | mk ev r =>
    rw [hfp] at he hf
    simp only at he hf
    rw [he, hf]

theorem due_diagnostic_eq (PATH : Option CStr) (name : CStr) :
    ((if path_empty PATH = true then [Event.stderr Msg.EMPTY_PATH] else []) ++
      if path_empty PATH = true then [] else [Event.stderr (Msg.CMD_NOT_FOUND (some name))]) =
      [due_diagnostic PATH name] := by
  simp only [due_diagnostic, path_empty_iff]
  split <;> simp

theorem execute_one_not_found (w : World) (st : Shell) (name : CStr) (args : List CStr)
    (ha : is_abs_or_rel (some name) = false)
    (hf : (find_in_path w st.PATH (some name)).2 = Outcome.ret none) :
    execute_one w st (name :: args) =
      { st := st, out := [due_diagnostic st.PATH name], code := Outcome.ret EXIT_FAILURE } := by
  simp only [execute_one, ha, Bool.false_eq_true, if_false,
    find_in_path_not_found w st.PATH name hf, due_diagnostic_eq]

theorem resolve_segment_not_found (MAX_ARGS : Nat) (w : World) (st : Shell) (seg : List CStr)
    (name : CStr) (hh : (stage_use_argv MAX_ARGS st.alias_hm seg).head? = some name)
    (hb : is_builtin_name (some name) = false) (ha : is_abs_or_rel (some name) = false)
    (hf : (find_in_path w st.PATH (some name)).2 = Outcome.ret none) :
    (resolve_segment MAX_ARGS w st seg).2 =
      (warn_events (maybe_expand_leading_alias MAX_ARGS st.alias_hm
          (seg.take (MAX_ARGS - 1))).warned ++ [due_diagnostic st.PATH name],
        Resolved.abort (Outcome.ret EXIT_FAILURE)) := by
  have hne : seg.length ≠ 0 := by
    intro e
    have : seg = [] := List.length_eq_zero.mp e
    subst this
    simp [stage_use_argv, maybe_expand_leading_alias] at hh
  unfold stage_use_argv at hh
  simp only [resolve_segment, hne, if_false, hh, hb, ha, Bool.false_eq_true, warn_state_PATH,
    find_in_path_not_found w st.PATH name hf, List.append_assoc, due_diagnostic_eq]

theorem filter_diag_warns (evs : List Event)
    (h : ∀ e ∈ evs, e = Event.stderr Msg.MISSING_CLOSING_QUOTE) :
    evs.filter Event.resolution_diagnostic = [] := by
  rw [List.filter_eq_nil_iff]
  intro e he
  rw [h e he]
  simp [Event.resolution_diagnostic]

theorem due_diagnostic_is_diag (PATH : Option CStr) (name : CStr) :
    (due_diagnostic PATH name).resolution_diagnostic = true := by
  unfold due_diagnostic
  split <;> rfl

/-- C17: for a bare name (none of the seven builtin names, its first
character neither `/` nor `.`) that the lookup on the search path does not
find, exactly one resolution diagnostic is reported: the
no-search-path message when `PATH` is unset or empty, the command-not-found
message otherwise, never both.  `execute_one` prints it and nothing else and
returns failure; `run_pipeline`, for the first stage that does not resolve
(one of the first 128, which the stage tables of the source can hold, with
alias texts that fit in `tmp_argv`), prints it as its only resolution
diagnostic and returns failure. -/
theorem one_resolution_diagnostic (MAX_ARGS : Nat) (w : World) (st : Shell) (name : CStr)
    (hb : name ∉ builtin_names) (ha : direct_path name = false)
    (hf : path_lookup w st.PATH name = none) :
    (∀ args, execute_one w st (name :: args) =
      { st := st, out := [due_diagnostic st.PATH name], code := Outcome.ret EXIT_FAILURE }) ∧
    (∀ argv pre seg post, pipeline_segments argv = pre ++ seg :: post →
      pre.length < 128 → alias_texts_fit MAX_ARGS st.alias_hm →
      (∀ x ∈ pre, resolves MAX_ARGS w st x) →
      (stage_use_argv MAX_ARGS st.alias_hm seg).head? = some name →
      (run_pipeline MAX_ARGS w st argv).out.filter Event.resolution_diagnostic =
        [due_diagnostic st.PATH name] ∧
      (run_pipeline MAX_ARGS w st argv).code = Outcome.ret EXIT_FAILURE) ∧
    (st.PATH = none ∨ st.PATH = some [] →
      due_diagnostic st.PATH name = Event.stderr Msg.EMPTY_PATH) ∧
    (∀ c cs, st.PATH = some (c :: cs) →
      due_diagnostic st.PATH name = Event.stderr (Msg.CMD_NOT_FOUND (some name))) := by
  have hb2 := is_builtin_name_false name hb
  have ha2 : is_abs_or_rel (some name) = false := by rw [is_abs_or_rel_eq]; exact ha
  have hf2 : (find_in_path w st.PATH (some name)).2 = Outcome.ret none := by
    rw [find_in_path_lookup, hf]
  refine ⟨fun args => execute_one_not_found w st name args ha2 hf2, ?_, ?_, ?_⟩
  · intro argv pre seg post hseg _ _ hpre hh
    have hr := resolve_segment_not_found MAX_ARGS w st seg name hh hb2 ha2 hf2
    have hab : (resolve_segment MAX_ARGS w st seg).2.2 =
        Resolved.abort (Outcome.ret EXIT_FAILURE) := by rw [hr]
    obtain ⟨ev_pre, hq, hl⟩ := stage_loop_first_abort MAX_ARGS w argv st [] pre seg post _
      hseg hpre hab
    unfold run_pipeline
    cases hsl : stage_loop MAX_ARGS w st argv [] with
    | mk st1 r =>
      rw [hsl] at hl
      simp only at hl
      subst hl
      simp only [hr, List.filter_append, filter_diag_warns ev_pre hq,
        filter_diag_warns _ (warn_events_quote _), List.nil_append]
      simp [List.filter, due_diagnostic_is_diag]
  · intro hp
    simp [due_diagnostic, hp]
  · intro c cs hp
    simp [due_diagnostic, hp]

/-- C17, witness: the unknown command `nosuch` as second stage of a pipeline
and as a single command, with `PATH` set to `/bin` and with `PATH` empty. -/
theorem one_resolution_diagnostic_witness :
    (run_pipeline 128 (sample_world (fun _ => 0)) initial_shell
      ["ls".toList, PIPE, "nosuch".toList]).out.filter Event.resolution_diagnostic =
      [Event.stderr (Msg.CMD_NOT_FOUND (some "nosuch".toList))] ∧
    execute_one (sample_world (fun _ => 0)) { initial_shell with PATH := some [] }
      ["nosuch".toList] =
      { st := { initial_shell with PATH := some [] }, out := [Event.stderr Msg.EMPTY_PATH],
        code := Outcome.ret EXIT_FAILURE } :=
  have h1 := one_resolution_diagnostic 128 (sample_world (fun _ => 0)) initial_shell
    "nosuch".toList (by decide) (by decide) (by decide)
  have h2 := one_resolution_diagnostic 128 (sample_world (fun _ => 0))
    { initial_shell with PATH := some [] } "nosuch".toList (by decide) (by decide) (by decide)
  ⟨(h1.2.1 ["ls".toList, PIPE, "nosuch".toList] [["ls".toList]] ["nosuch".toList] []
      (by decide) (by decide) (alias_texts_fit_nil 128)
      (fun x hx => by
        simp only [List.mem_singleton] at hx
        subst hx
        exact ⟨{ seg_argv := ["ls".toList], exp_argv := none,
                 exec_path := some "/bin/ls".toList }, by decide⟩)
      (by decide)).1,
    h2.1 []⟩

/-! ## C18: the priority order of `which` -/

/-- C18: `builtin_which` with exactly one argument `n` reports, in this order
of priority: the alias and its text when `n` is bound in the alias table,
also when `n` is a builtin name or an executable; else a builtin when `n` is
one of the seven builtin names; else the location `n` resolves to, as a
direct path or through the search of the path; else not found, with a
failure status (after the no-search-path message when the search had no path
to go through).  With any other number of arguments it prints the usage
message and fails.  The state is never changed. -/
theorem which_priority (w : World) (st : Shell) :
    (∀ a0 n v, hm_get st.alias_hm n = some v →
      builtin_which w st [a0, n] =
        { st := st, out := [Event.stdout (Msg.WHICH_ALIAS n v)],
          code := Outcome.ret EXIT_SUCCESS }) ∧
    (∀ a0 n, hm_get st.alias_hm n = none → n ∈ builtin_names →
      builtin_which w st [a0, n] =
        { st := st, out := [Event.stdout (Msg.WHICH_BUILTIN n)],
          code := Outcome.ret EXIT_SUCCESS }) ∧
    (∀ a0 n p, hm_get st.alias_hm n = none → n ∉ builtin_names →
      resolved_location w st.PATH n = some p →
      builtin_which w st [a0, n] =
        { st := st, out := [Event.stdout (Msg.WHICH_EXTERNAL n p)],
          code := Outcome.ret EXIT_SUCCESS }) ∧
    (∀ a0 n, hm_get st.alias_hm n = none → n ∉ builtin_names →
      resolved_location w st.PATH n = none →
      (builtin_which w st [a0, n]).code = Outcome.ret EXIT_FAILURE ∧
      (builtin_which w st [a0, n]).st = st ∧
      (builtin_which w st [a0, n]).out =
        (if direct_path n = false ∧ (st.PATH = none ∨ st.PATH = some []) then
          [Event.stderr Msg.EMPTY_PATH] else []) ++
        [Event.stdout (Msg.WHICH_NOT_FOUND n)]) ∧
    (∀ argv, argv.length ≠ 2 →
      builtin_which w st argv =
        { st := st, out := [Event.stderr Msg.INVALID_WHICH_USE],
          code := Outcome.ret EXIT_FAILURE }) := by
  refine ⟨?_, ?_, ?_, ?_, ?_⟩
  · intro a0 n v hv
    simp only [builtin_which, hv]
  · intro a0 n hn hb
    have hb2 := (is_builtin_name_iff n).mpr hb
    simp only [builtin_which, hn, hb2, if_true]
  · intro a0 n p hn hb hloc
    have hb2 := is_builtin_name_false n hb
    unfold resolved_location at hloc
    by_cases ha : direct_path n = true
    · rw [if_pos ha] at hloc
      by_cases hx : w.access_x n = true
      · simp only [hx, if_true, Option.some.injEq] at hloc
        subst hloc
        simp only [builtin_which, hn, hb2, is_abs_or_rel_eq, ha, hx, if_true,
          Bool.false_eq_true, if_false]
      · simp [hx] at hloc
    · rw [if_neg ha] at hloc
      have hne : ¬ (st.PATH = none ∨ st.PATH = some []) := by
        intro h
        rw [path_lookup_empty w st.PATH n h] at hloc
        simp at hloc
      have hfr := find_in_path_lookup w st.PATH n
      rw [hloc, if_neg hne] at hfr
      have ha2 : direct_path n = false := by simpa using ha
      simp only [builtin_which, hn, hb2, is_abs_or_rel_eq, ha2, Bool.false_eq_true, if_false,
        hfr]
      rfl
  · intro a0 n hn hb hloc
    have hb2 := is_builtin_name_false n hb
    unfold resolved_location at hloc
    by_cases ha : direct_path n = true
    · rw [if_pos ha] at hloc
      by_cases hx : w.access_x n = true
      · simp [hx] at hloc
      · simp only [builtin_which, hn, hb2, is_abs_or_rel_eq, ha, hx, if_true,
          Bool.false_eq_true, if_false]
        simp
    · rw [if_neg ha] at hloc
      have hfr := find_in_path_lookup w st.PATH n
      rw [hloc] at hfr
      have ha2 : direct_path n = false := by simpa using ha
      simp only [builtin_which, hn, hb2, is_abs_or_rel_eq, ha2, Bool.false_eq_true, if_false,
        hfr, true_and]
  · intro argv hlen
    match argv with
    | [] => rfl
    | [_] => rfl
    | [_, _] => exact absurd rfl hlen
    | _ :: _ :: _ :: _ => rfl

/-- C18, witness: with `ls` bound to `cat` in the alias table, `which ls`
reports the alias although `/bin/ls` is executable; `which cd` reports a
builtin; `which cat` reports `/bin/cat`; the direct path `/bin/ls` is
reported as itself and the direct path `./ls` as not found, neither being
searched for on the path; `which nosuch` fails; and without `PATH` the bare
name `cat` is not found, after the no-search-path message. -/
theorem which_priority_witness :
    builtin_which (sample_world (fun _ => 0))
      { initial_shell with alias_hm := [("ls".toList, "cat".toList)] }
      ["which".toList, "ls".toList] =
      { st := { initial_shell with alias_hm := [("ls".toList, "cat".toList)] },
        out := [Event.stdout (Msg.WHICH_ALIAS "ls".toList "cat".toList)],
        code := Outcome.ret EXIT_SUCCESS } ∧
    builtin_which (sample_world (fun _ => 0))
      { initial_shell with alias_hm := [("ls".toList, "cat".toList)] }
      ["which".toList, "cd".toList] =
      { st := { initial_shell with alias_hm := [("ls".toList, "cat".toList)] },
        out := [Event.stdout (Msg.WHICH_BUILTIN "cd".toList)],
        code := Outcome.ret EXIT_SUCCESS } ∧
    builtin_which (sample_world (fun _ => 0))
      { initial_shell with alias_hm := [("ls".toList, "cat".toList)] }
      ["which".toList, "cat".toList] =
      { st := { initial_shell with alias_hm := [("ls".toList, "cat".toList)] },
        out := [Event.stdout (Msg.WHICH_EXTERNAL "cat".toList "/bin/cat".toList)],
        code := Outcome.ret EXIT_SUCCESS } ∧
    builtin_which (sample_world (fun _ => 0))
      { initial_shell with alias_hm := [("ls".toList, "cat".toList)] }
      ["which".toList, "/bin/ls".toList] =
      { st := { initial_shell with alias_hm := [("ls".toList, "cat".toList)] },
        out := [Event.stdout (Msg.WHICH_EXTERNAL "/bin/ls".toList "/bin/ls".toList)],
        code := Outcome.ret EXIT_SUCCESS } ∧
    (builtin_which (sample_world (fun _ => 0))
      { initial_shell with alias_hm := [("ls".toList, "cat".toList)] }
      ["which".toList, "./ls".toList]).out =
      [Event.stdout (Msg.WHICH_NOT_FOUND "./ls".toList)] ∧
    (builtin_which (sample_world (fun _ => 0))
      { initial_shell with alias_hm := [("ls".toList, "cat".toList)] }
      ["which".toList, "nosuch".toList]).code = Outcome.ret EXIT_FAILURE ∧
    (builtin_which (sample_world (fun _ => 0))
      { initial_shell with alias_hm := [("ls".toList, "cat".toList)], PATH := none }
      ["which".toList, "cat".toList]).out =
      [Event.stderr Msg.EMPTY_PATH, Event.stdout (Msg.WHICH_NOT_FOUND "cat".toList)] :=
  have h := which_priority (sample_world (fun _ => 0))
    { initial_shell with alias_hm := [("ls".toList, "cat".toList)] }
  have h2 := which_priority (sample_world (fun _ => 0))
    { initial_shell with alias_hm := [("ls".toList, "cat".toList)], PATH := none }
  ⟨h.1 "which".toList "ls".toList "cat".toList (by decide),
    h.2.1 "which".toList "cd".toList (by decide) (by decide),
    h.2.2.1 "which".toList "cat".toList "/bin/cat".toList (by decide) (by decide) (by decide),
    h.2.2.1 "which".toList "/bin/ls".toList "/bin/ls".toList (by decide) (by decide)
      (by decide),
    (h.2.2.2.1 "which".toList "./ls".toList (by decide) (by decide) (by decide)).2.2,
    (h.2.2.2.1 "which".toList "nosuch".toList (by decide) (by decide) (by decide)).1,
    (h2.2.2.2.1 "which".toList "cat".toList (by decide) (by decide) (by decide)).2.2⟩

/-! ## C19: the first match on the search path -/

theorem search_dirs_first (w : World) (name : CStr) : ∀ (pre : List CStr) (d : CStr)
    (post : List CStr), d ≠ [] →
    (∀ x ∈ pre, w.access_x (x ++ '/' :: name) = false) →
    w.access_x (d ++ '/' :: name) = true →
    search_dirs w (some name) (pre ++ d :: post) = Outcome.ret (some (d ++ '/' :: name))
  | [], d, post, hd, _, hx => by
    simp [search_dirs, hd, hx]
  | x :: pre, d, post, hd, hpre, hx => by
    have ih := search_dirs_first w name pre d post hd
      (fun y hy => hpre y (by simp [hy])) hx
    have hxa := hpre x (by simp)
    simp only [List.cons_append, search_dirs, hxa, Bool.false_eq_true, if_false]
    split <;> exact ih

theorem search_dirs_none (w : World) (name : CStr) : ∀ (dirs : List CStr),
    (∀ x ∈ dirs, w.access_x (x ++ '/' :: name) = false) →
    search_dirs w (some name) dirs = Outcome.ret none
  | [], _ => rfl
  | x :: dirs, h => by
    have ih := search_dirs_none w name dirs (fun y hy => h y (by simp [hy]))
    have hxa := h x (by simp)
    simp only [search_dirs, hxa, Bool.false_eq_true, if_false, ih]
    split <;> rfl

theorem strtok_r_components (s : CStr) : ∀ d ∈ strtok_r s, d ≠ [] ∧ ':' ∉ d := by
  intro d hd
  simp only [strtok_r, List.mem_filter, decide_eq_true_eq] at hd
  exact ⟨hd.2, split_on_no_delim ':' s d hd.1⟩

/-- C19: for a non-empty `PATH` and a name, `find_in_path` prints nothing and
goes through the non-empty pieces of `PATH` between colons in the order they
are listed: it returns `d/name` for the first piece `d` for which `d/name`
passes the executability check, whatever the later pieces hold, and NULL
when no piece qualifies. -/
theorem find_in_path_first_match (w : World) (P name : CStr) (hP : P ≠ []) :
    (find_in_path w (some P) (some name)).1 = [] ∧
    (∀ pre d post, strtok_r P = pre ++ d :: post →
      (∀ x ∈ pre, w.access_x (x ++ '/' :: name) = false) →
      w.access_x (d ++ '/' :: name) = true →
      (find_in_path w (some P) (some name)).2 = Outcome.ret (some (d ++ '/' :: name))) ∧
    ((∀ x ∈ strtok_r P, w.access_x (x ++ '/' :: name) = false) →
      (find_in_path w (some P) (some name)).2 = Outcome.ret none) ∧
    strtok_r P = (split_on ':' P).filter (fun d => d ≠ []) ∧
    [':'].intercalate (split_on ':' P) = P ∧
    (∀ d ∈ split_on ':' P, ':' ∉ d) := by
  cases P with
  | nil => exact absurd rfl hP
  | cons c cs =>
    refine ⟨rfl, ?_, ?_, rfl, split_on_join ':' _, split_on_no_delim ':' _⟩
    · intro pre d post hs hpre hx
      have hd : d ≠ [] := (strtok_r_components (c :: cs) d (by rw [hs]; simp)).1
      simp only [find_in_path, hs]
      exact search_dirs_first w name pre d post hd hpre hx
    · intro hall
      simp only [find_in_path]
      exact search_dirs_none w name _ hall

/-- C19, witness: with `PATH` set to `/usr/bin::/bin:/opt` and `cat`
executable in `/bin` only, the search returns `/bin/cat`; `nosuch` is not
found. -/
theorem find_in_path_first_match_witness :
    (find_in_path (sample_world (fun _ => 0)) (some "/usr/bin::/bin:/opt".toList)
      (some "cat".toList)).2 = Outcome.ret (some "/bin/cat".toList) ∧
    (find_in_path (sample_world (fun _ => 0)) (some "/usr/bin::/bin:/opt".toList)
      (some "nosuch".toList)).2 = Outcome.ret none :=
  have h1 := find_in_path_first_match (sample_world (fun _ => 0)) "/usr/bin::/bin:/opt".toList
    "cat".toList (by decide)
  have h2 := find_in_path_first_match (sample_world (fun _ => 0)) "/usr/bin::/bin:/opt".toList
    "nosuch".toList (by decide)
  ⟨h1.2.1 ["/usr/bin".toList] "/bin".toList ["/opt".toList] (by decide) (by decide) (by decide),
    h2.2.2.1 (by decide)⟩

/-! ## C20: the empty-segment check and resolution -/

theorem stage_loop_first_abort_clean (MAX_ARGS : Nat) (w : World) :
    ∀ (rest : List CStr) (st : Shell) (cur : List CStr) (pre : List (List CStr))
      (s : List CStr) (post : List (List CStr)) (c : Outcome Nat),
    alias_texts_clean st.alias_hm →
    segments_from cur rest = pre ++ s :: post →
    (∀ x ∈ pre, resolves MAX_ARGS w st x) →
    (resolve_segment MAX_ARGS w st s).2.2 = Resolved.abort c →
    (stage_loop MAX_ARGS w st rest cur).2 =
      ((resolve_segment MAX_ARGS w st s).2.1, Resolution.abort c)
  | [], st, cur, pre, s, post, c, _, hseg, hpre, hab => by
    simp only [segments_from] at hseg
    have hcur : pre = [] ∧ s = cur := by
      cases pre with
      | nil => simp at hseg; exact ⟨rfl, hseg.1.symm⟩
      | cons x xs =>
        simp only [List.cons_append, List.cons.injEq] at hseg
        have := hseg.2
        simp at this
    obtain ⟨_, rfl⟩ := hcur
    rw [stage_loop]
    cases hr : resolve_segment MAX_ARGS w st s with
    | mk st1 r =>
      obtain ⟨ev, res⟩ := r
      rw [hr] at hab
      simp only at hab
      subst hab
      rfl
  | t :: rest, st, cur, pre, s, post, c, hc, hseg, hpre, hab => by
    rw [stage_loop]
    by_cases ht : t = PIPE
    · simp only [ht, if_true]
      simp only [segments_from, ht, if_true] at hseg
      cases pre with
      | nil =>
        simp only [List.nil_append, List.cons.injEq] at hseg
        obtain ⟨rfl, _⟩ := hseg
        cases hr : resolve_segment MAX_ARGS w st cur with
        | mk st1 r =>
          obtain ⟨ev, res⟩ := r
          rw [hr] at hab
          simp only at hab
          subst hab
          rfl
      | cons x xs =>
        simp only [List.cons_append, List.cons.injEq] at hseg
        obtain ⟨rfl, hseg2⟩ := hseg
        obtain ⟨stage, hok⟩ := hpre cur (by simp)
        have hev := resolve_segment_ok_events MAX_ARGS w st cur stage hok
        rw [expand_warned_clean MAX_ARGS st.alias_hm _ hc] at hev
        obtain ⟨b, hb⟩ := resolve_segment_state MAX_ARGS w st cur
        cases hr : resolve_segment MAX_ARGS w st cur with
        | mk st1 r =>
          obtain ⟨ev, res⟩ := r
          rw [hr] at hok hev hb
          simp only at hok hev hb
          subst hok
          have h1 : st1.alias_hm = st.alias_hm := by rw [hb, warn_state_alias_hm]
          have h2 : st1.PATH = st.PATH := by rw [hb, warn_state_PATH]
          have henv := resolve_segment_env MAX_ARGS w st st1 s h1 h2
          have hl := stage_loop_first_abort_clean MAX_ARGS w rest st1 [] xs s post c
            (by rw [h1]; exact hc) hseg2
            (fun y hy => resolves_env MAX_ARGS w st st1 y h1 h2 (hpre y (by simp [hy])))
            (by rw [henv]; exact hab)
          simp only []
          cases hsl : stage_loop MAX_ARGS w st1 rest [] with
          | mk st2 r2 =>
            obtain ⟨ev2, res2⟩ := r2
            rw [hsl, henv] at hl
            simp only [Prod.mk.injEq] at hl
            obtain ⟨hl1, hl2⟩ := hl
            subst hl1 hl2
            simp [hev, warn_events]
    · simp only [ht, if_false]
      simp only [segments_from, ht, if_false] at hseg
      exact stage_loop_first_abort_clean MAX_ARGS w rest st (cur ++ [t]) pre s post c hc hseg
        hpre hab

theorem run_pipeline_first_abort (MAX_ARGS : Nat) (w : World) (st : Shell) (argv : List CStr)
    (pre : List (List CStr)) (s : List CStr) (post : List (List CStr)) (c : Outcome Nat)
    (hc : alias_texts_clean st.alias_hm)
    (hseg : pipeline_segments argv = pre ++ s :: post)
    (hpre : ∀ x ∈ pre, resolves MAX_ARGS w st x)
    (hab : (resolve_segment MAX_ARGS w st s).2.2 = Resolved.abort c) :
    (run_pipeline MAX_ARGS w st argv).out = (resolve_segment MAX_ARGS w st s).2.1 ∧
    (run_pipeline MAX_ARGS w st argv).code = c := by
  have hl := stage_loop_first_abort_clean MAX_ARGS w argv st [] pre s post c hc hseg hpre hab
  unfold run_pipeline
  cases hsl : stage_loop MAX_ARGS w st argv [] with
  | mk st1 r =>
    rw [hsl] at hl
    simp only at hl
    subst hl
    exact ⟨rfl, rfl⟩

/-- C20, as the code has it: the empty-segment check is made segment by
segment, each segment being checked and then resolved before the next one is
looked at.  In a state whose alias texts tokenize cleanly and fit in
`tmp_argv`, for a token list of at most 128 segments (as many as the stage
tables of the source hold) whose segments are `pre`, then an empty segment,
then `post`: if every
segment of `pre` resolves, `run_pipeline` prints the empty-pipeline-segment
error and nothing else and returns failure; if instead `pre` is `pre1`, then
a segment whose first token is a bare name the search does not find, then
anything, with every segment of `pre1` resolving, it prints the resolution
diagnostic of that name and nothing else, not the empty-pipeline-segment
error, and returns failure.  In both cases no pipe or process is created. -/
theorem empty_segment_check_interleaved (MAX_ARGS : Nat) (w : World) (st : Shell)
    (argv : List CStr) (pre post : List (List CStr))
    (hc : alias_texts_clean st.alias_hm)
    (_hfit : alias_texts_fit MAX_ARGS st.alias_hm)
    (_h128 : (pipeline_segments argv).length ≤ 128)
    (hseg : pipeline_segments argv = pre ++ [] :: post) :
    ((∀ x ∈ pre, resolves MAX_ARGS w st x) →
      (run_pipeline MAX_ARGS w st argv).out = [Event.stderr Msg.EMPTY_PIPE_SEGMENT] ∧
      (run_pipeline MAX_ARGS w st argv).code = Outcome.ret EXIT_FAILURE) ∧
    (∀ pre1 u pre2 name, pre = pre1 ++ u :: pre2 →
      (∀ x ∈ pre1, resolves MAX_ARGS w st x) →
      (stage_use_argv MAX_ARGS st.alias_hm u).head? = some name →
      name ∉ builtin_names → direct_path name = false →
      path_lookup w st.PATH name = none →
      (run_pipeline MAX_ARGS w st argv).out = [due_diagnostic st.PATH name] ∧
      Event.stderr Msg.EMPTY_PIPE_SEGMENT ∉ (run_pipeline MAX_ARGS w st argv).out ∧
      (run_pipeline MAX_ARGS w st argv).code = Outcome.ret EXIT_FAILURE) ∧
    (∀ e ∈ (run_pipeline MAX_ARGS w st argv).out, e.spawns = false) := by
  refine ⟨?_, ?_, ?_⟩
  · intro hpre
    have hab : (resolve_segment MAX_ARGS w st []).2.2 =
        Resolved.abort (Outcome.ret EXIT_FAILURE) := by rw [resolve_segment_nil]
    have h := run_pipeline_first_abort MAX_ARGS w st argv pre [] post _ hc hseg hpre hab
    rw [resolve_segment_nil] at h
    exact h
  · intro pre1 u pre2 name hp hpre1 hh hb ha hf
    have hb2 := is_builtin_name_false name hb
    have ha2 : is_abs_or_rel (some name) = false := by rw [is_abs_or_rel_eq]; exact ha
    have hf2 : (find_in_path w st.PATH (some name)).2 = Outcome.ret none := by
      rw [find_in_path_lookup, hf]
    have hr := resolve_segment_not_found MAX_ARGS w st u name hh hb2 ha2 hf2
    rw [expand_warned_clean MAX_ARGS st.alias_hm _ hc] at hr
    have hab : (resolve_segment MAX_ARGS w st u).2.2 =
        Resolved.abort (Outcome.ret EXIT_FAILURE) := by rw [hr]
    have hseg2 : pipeline_segments argv = pre1 ++ u :: (pre2 ++ [] :: post) := by
      rw [hseg, hp]; simp
    have h := run_pipeline_first_abort MAX_ARGS w st argv pre1 u _ _ hc hseg2 hpre1 hab
    rw [hr] at h
    have ho : (run_pipeline MAX_ARGS w st argv).out = [due_diagnostic st.PATH name] := by
      rw [h.1]; simp [warn_events]
    refine ⟨ho, ?_, h.2⟩
    rw [ho]
    by_cases hp2 : st.PATH = none ∨ st.PATH = some [] <;> simp [due_diagnostic, hp2]
  · have hs := stage_loop_spec MAX_ARGS w argv st []
    have hmem : [] ∈ pipeline_segments argv := by rw [hseg]; simp
    obtain ⟨c, hcc⟩ := hs.2.2 hmem
    unfold run_pipeline
    cases hl : stage_loop MAX_ARGS w st argv [] with
    | mk st1 r =>
      obtain ⟨ev, res⟩ := r
      rw [hl] at hs hcc
      simp only at hcc
      subst hcc
      exact hs.1

/-- C20, witness: with `PATH` set to `/bin`, the tokens `ls | | nosuch` give
the empty-pipeline-segment error alone, and the tokens `ls | nosuch | | cat`
give the command-not-found message for `nosuch` alone. -/
theorem empty_segment_check_interleaved_witness :
    ((run_pipeline 128 (sample_world (fun _ => 0)) initial_shell
        ["ls".toList, PIPE, PIPE, "nosuch".toList]).out =
        [Event.stderr Msg.EMPTY_PIPE_SEGMENT] ∧
      (run_pipeline 128 (sample_world (fun _ => 0)) initial_shell
        ["ls".toList, PIPE, PIPE, "nosuch".toList]).code = Outcome.ret EXIT_FAILURE) ∧
    (run_pipeline 128 (sample_world (fun _ => 0)) initial_shell
        ["ls".toList, PIPE, "nosuch".toList, PIPE, PIPE, "cat".toList]).out =
        [due_diagnostic initial_shell.PATH "nosuch".toList] :=
  have hls : resolves 128 (sample_world (fun _ => 0)) initial_shell ["ls".toList] :=
    ⟨{ seg_argv := ["ls".toList], exp_argv := none, exec_path := some "/bin/ls".toList },
      by decide⟩
  have h1 := empty_segment_check_interleaved 128 (sample_world (fun _ => 0)) initial_shell
    ["ls".toList, PIPE, PIPE, "nosuch".toList] [["ls".toList]] [["nosuch".toList]]
    alias_texts_clean_initial (alias_texts_fit_nil 128) (by decide) (by decide)
  have h2 := empty_segment_check_interleaved 128 (sample_world (fun _ => 0)) initial_shell
    ["ls".toList, PIPE, "nosuch".toList, PIPE, PIPE, "cat".toList]
    [["ls".toList], ["nosuch".toList]] [["cat".toList]]
    alias_texts_clean_initial (alias_texts_fit_nil 128) (by decide) (by decide)
  ⟨h1.1 (fun x hx => by
      simp only [List.mem_singleton] at hx
      subst hx
      exact hls),
    (h2.2.1 [["ls".toList]] ["nosuch".toList] [] "nosuch".toList (by decide)
      (fun x hx => by
        simp only [List.mem_singleton] at hx
        subst hx
        exact hls)
      (by decide) (by decide) (by decide) (by decide)).1⟩

/-- C20, counterexample: with `PATH` set to `/bin` and no alias, the token
list `nosuch | | cat` has an empty segment, yet `run_pipeline` searches the
path for `nosuch` (stage 0 is resolved before the empty segment is reached)
and its only diagnostic is the command-not-found message; the
empty-pipeline-segment error is not printed. -/
theorem unresolved_stage_before_empty_segment :
    [] ∈ pipeline_segments ["nosuch".toList, PIPE, PIPE, "cat".toList] ∧
    (run_pipeline 128 (sample_world (fun _ => 0)) initial_shell
      ["nosuch".toList, PIPE, PIPE, "cat".toList]).out =
      [Event.stderr (Msg.CMD_NOT_FOUND (some "nosuch".toList))] ∧
    Event.stderr Msg.EMPTY_PIPE_SEGMENT ∉
      (run_pipeline 128 (sample_world (fun _ => 0)) initial_shell
        ["nosuch".toList, PIPE, PIPE, "cat".toList]).out ∧
    (run_pipeline 128 (sample_world (fun _ => 0)) initial_shell
      ["nosuch".toList, PIPE, PIPE, "cat".toList]).code = Outcome.ret EXIT_FAILURE := by
  refine ⟨by decide, by decide, by decide, by decide⟩

/-! ## C22: a quoted pipe character -/

theorem line_buffer_append (a v : List Char) (ha : a.getLast? ≠ some NEWLINE) :
    line_buffer (a ++ v) = a ++ line_buffer v := by
  cases v with
  | nil =>
    simp only [List.append_nil, line_buffer, ha, if_false]
    simp
  | cons c r =>
    have h1 : (a ++ c :: r).getLast? = (c :: r).getLast? := by
      rw [List.getLast?_append]
      cases h : (c :: r).getLast? with
      | none => simp at h
      | some x => rfl
    have h2 : (a ++ c :: r).dropLast = a ++ (c :: r).dropLast :=
      List.dropLast_append_of_ne_nil a (by simp)
    unfold line_buffer
    rw [h1, h2]
    split <;> simp

theorem quote_free_prefix_layout (u : List Char) (hu : QUOTE ∉ u) :
    ∃ items k, (∀ it ∈ items, (it : Nat × Item).2.wellformed) ∧
      u ++ [SPACE] = layout items ++ List.replicate k SPACE ∧
      items.map (fun it => it.2.text) = nonspace_runs u := by
  have hq : QUOTE ∉ u ++ [SPACE] := by
    simp only [List.mem_append, List.mem_singleton, not_or]
    exact ⟨hu, quote_ne_space⟩
  rcases buffer_cases _ (u ++ [SPACE]) (le_refl _) (Or.inr (List.getLast?_concat _)) with
    ⟨items, k, hwf, h⟩ | ⟨items, k, q, _, _, h⟩
  · refine ⟨items, k, hwf, h, ?_⟩
    have hlq : QUOTE ∉ layout items := by
      intro hm; apply hq; rw [h]; simp [hm]
    have := nonspace_runs_layout items (List.replicate k SPACE) hwf hlq
    rw [← h, nonspace_runs_end, nonspace_runs_blank, List.append_nil] at this
    exact this.symm
  · exfalso
    apply hq
    rw [h]
    simp

theorem tokens_after_prefix (u X : List Char) (hu : QUOTE ∉ u) :
    tokens_from (skip_spaces (u ++ SPACE :: X)) =
      (tokens_from (skip_spaces X)).map (fun toks => nonspace_runs u ++ toks) := by
  obtain ⟨items, k, hwf, hl, ht⟩ := quote_free_prefix_layout u hu
  have e : u ++ SPACE :: X = layout items ++ (List.replicate k SPACE ++ X) := by
    rw [← List.append_assoc, ← hl]; simp
  rw [e, tokens_from_layout items hwf, skip_spaces_replicate, ht]

theorem tokens_quoted_pipe (r : List Char) :
    tokens_from (skip_spaces (QUOTE :: '|' :: QUOTE :: SPACE :: r)) =
      (tokens_from (skip_spaces r)).map (fun toks => PIPE :: toks) := by
  rw [skip_spaces_cons_ne QUOTE _ quote_ne_space]
  have h := tokens_from_quoted ['|'] (SPACE :: r) (by decide)
  simp only [List.cons_append, List.nil_append] at h
  rw [h]
  simp [skip_spaces, PIPE]

theorem tokens_bare_pipe (r : List Char) :
    tokens_from (skip_spaces ('|' :: SPACE :: r)) =
      (tokens_from (skip_spaces r)).map (fun toks => PIPE :: toks) := by
  rw [skip_spaces_cons_ne '|' _ (by decide)]
  have h := tokens_from_word '|' [] r (by decide) (by decide)
  simp only [List.cons_append, List.nil_append] at h
  rw [h]
  rfl

theorem parseline_pipe_line (u v mid : List Char) (hu : QUOTE ∉ u) (hv : QUOTE ∉ v)
    (hmid : ∀ r, tokens_from (skip_spaces (mid ++ SPACE :: r)) =
      (tokens_from (skip_spaces r)).map (fun toks => PIPE :: toks)) :
    parseline_no_subst (u ++ (SPACE :: mid ++ [SPACE]) ++ v) =
      { argv := nonspace_runs u ++ PIPE :: nonspace_runs (newline_as_space v),
        warned := false } := by
  have hb : line_buffer (u ++ (SPACE :: mid ++ [SPACE]) ++ v) =
      u ++ SPACE :: (mid ++ SPACE :: line_buffer v) := by
    rw [line_buffer_append _ v]
    · simp
    · rw [← List.append_assoc]
      rw [List.getLast?_concat]
      simp only [ne_eq, Option.some.injEq]
      exact fun e => newline_ne_space e.symm
  have hpv : parseline_no_subst v =
      { argv := nonspace_runs (newline_as_space v), warned := false } := by
    have hbq : QUOTE ∉ line_buffer v :=
      fun hm => hv (mem_line_of_mem_buffer QUOTE v quote_ne_space hm)
    rcases parseline_cases v with ⟨items, k, hwf, hbuf, hparse⟩ | ⟨items, k, q, _, _, hbuf, _⟩
    · have hlq : QUOTE ∉ layout items := by
        intro hm; apply hbq; rw [hbuf]; simp [hm]
      rw [hparse, ← nonspace_runs_buffer, hbuf, nonspace_runs_layout items _ hwf hlq,
        nonspace_runs_blank, List.append_nil]
    · exfalso
      apply hbq
      rw [hbuf]
      simp
  have htv : tokens_from (skip_spaces (line_buffer v)) =
      some (nonspace_runs (newline_as_space v)) := by
    have h := parseline_eq_tokens_from v
    rw [hpv] at h
    cases ht : tokens_from (skip_spaces (line_buffer v)) with
    | none => rw [ht] at h; simp at h
    | some toks => rw [ht] at h; simp at h; rw [h]
  rw [parseline_eq_tokens_from, hb, tokens_after_prefix u _ hu, hmid, htv]
  rfl


theorem segments_from_pipe : ∀ (a : List CStr) (cur b : List CStr),
    segments_from cur (a ++ PIPE :: b) = segments_from cur a ++ segments_from [] b
  | [], cur, b => by simp [segments_from]
  | t :: a, cur, b => by
    by_cases ht : t = PIPE
    · simp [segments_from, ht, segments_from_pipe a [] b]
    · simp [segments_from, ht, segments_from_pipe a (cur ++ [t]) b]

theorem echo_pipe_fails (MAX_ARGS : Nat) (w : World) (st : Shell)
    (ha : hm_get st.alias_hm "echo".toList = none) (hm : 2 ≤ MAX_ARGS) :
    (run_pipeline MAX_ARGS w st ["echo".toList, PIPE]).code = Outcome.ret EXIT_FAILURE := by
  have hs := stage_loop_spec MAX_ARGS w ["echo".toList, PIPE] st []
  obtain ⟨c, hc⟩ := hs.2.2 (by decide)
  have hf := stage_loop_fault MAX_ARGS w ["echo".toList, PIPE] st []
  unfold run_pipeline
  cases hl : stage_loop MAX_ARGS w st ["echo".toList, PIPE] [] with
  | mk st1 r =>
    obtain ⟨ev, res⟩ := r
    rw [hl] at hs hc hf
    simp only at hc
    subst hc
    rcases hs.2.1 c rfl with h1 | h1
    · simp only [h1]
    · exfalso
      subst h1
      have h2 : (resolve_segment MAX_ARGS w st ["echo".toList]).2.2 =
          Resolved.abort Outcome.fault := by
        rw [stage_loop, if_neg (by decide), stage_loop, if_pos rfl] at hl
        simp only [List.nil_append] at hl
        cases hr : resolve_segment MAX_ARGS w st ["echo".toList] with
        | mk st2 r2 =>
          obtain ⟨ev2, res2⟩ := r2
          rw [hr] at hl
          cases res2 with
          | abort c2 =>
            simp only [Prod.mk.injEq, Resolution.abort.injEq] at hl
            rw [hl.2.2]
          | ok s =>
            simp only [stage_loop, resolve_segment_nil] at hl
            simp at hl
      have h5 := resolve_segment_fault MAX_ARGS w st _ h2
      obtain ⟨k, rfl⟩ : ∃ k, MAX_ARGS = k + 2 := ⟨MAX_ARGS - 2, by omega⟩
      have ha2 : hm_get st.alias_hm ['e', 'c', 'h', 'o'] = none := ha
      simp [stage_use_argv, maybe_expand_leading_alias, ha2] at h5

/-- C22: quoting does not protect the pipe character.  For texts `u` and `v`
without single quote the tokenizer returns the same for the line `u '|' v`
as for the line `u | v`: the runs of non-space characters of `u`, the token
`|`, and the tokens of `v`, with no warning.  `run_command` is a function of
the token list only, finds the token `|` and hands the list to
`run_pipeline`, where that token separates the segments of `u` from those of
`v`.  So for the line `echo '|'` the tokens are `echo` and `|`, the second
segment is empty, no process is spawned, and (with `echo` not an alias name)
the command returns failure. -/
theorem quoted_pipe_separates (MAX_ARGS : Nat) (w : World) (st : Shell) (u v : List Char)
    (hu : QUOTE ∉ u) (hv : QUOTE ∉ v) :
    parseline_no_subst (u ++ " '|' ".toList ++ v) =
      parseline_no_subst (u ++ " | ".toList ++ v) ∧
    parseline_no_subst (u ++ " '|' ".toList ++ v) =
      { argv := nonspace_runs u ++ PIPE :: nonspace_runs (newline_as_space v),
        warned := false } ∧
    run_command MAX_ARGS w st (parseline_no_subst (u ++ " '|' ".toList ++ v)).argv =
      run_pipeline MAX_ARGS w st (parseline_no_subst (u ++ " | ".toList ++ v)).argv ∧
    pipeline_segments (parseline_no_subst (u ++ " '|' ".toList ++ v)).argv =
      pipeline_segments (nonspace_runs u) ++
        pipeline_segments (nonspace_runs (newline_as_space v)) ∧
    (parseline_no_subst "echo '|'".toList = { argv := ["echo".toList, PIPE], warned := false } ∧
      pipeline_segments ["echo".toList, PIPE] = [["echo".toList], []] ∧
      run_command MAX_ARGS w st ["echo".toList, PIPE] =
        run_pipeline MAX_ARGS w st ["echo".toList, PIPE] ∧
      (∀ e ∈ (run_command MAX_ARGS w st ["echo".toList, PIPE]).out, e.spawns = false) ∧
      (hm_get st.alias_hm "echo".toList = none → 2 ≤ MAX_ARGS →
        (run_command MAX_ARGS w st ["echo".toList, PIPE]).code = Outcome.ret EXIT_FAILURE)) := by
  have hq : parseline_no_subst (u ++ " '|' ".toList ++ v) =
      { argv := nonspace_runs u ++ PIPE :: nonspace_runs (newline_as_space v),
        warned := false } := by
    have h := parseline_pipe_line u v [QUOTE, '|', QUOTE] hu hv
      (fun r => tokens_quoted_pipe r)
    have e : " '|' ".toList = SPACE :: [QUOTE, '|', QUOTE] ++ [SPACE] := by decide
    rw [e]
    exact h
  have hb : parseline_no_subst (u ++ " | ".toList ++ v) =
      { argv := nonspace_runs u ++ PIPE :: nonspace_runs (newline_as_space v),
        warned := false } := by
    have h := parseline_pipe_line u v ['|'] hu hv (fun r => tokens_bare_pipe r)
    have e : " | ".toList = SPACE :: ['|'] ++ [SPACE] := by decide
    rw [e]
    exact h
  have hrun : run_command MAX_ARGS w st ["echo".toList, PIPE] =
      run_pipeline MAX_ARGS w st ["echo".toList, PIPE] :=
    run_command_pipe MAX_ARGS w st _ (by decide)
  refine ⟨by rw [hq, hb], hq, ?_, ?_, by decide, by decide, hrun, ?_, ?_⟩
  · rw [hq, hb]
    exact run_command_pipe MAX_ARGS w st _ (by simp)
  · rw [hq]
    exact segments_from_pipe _ [] _
  · rw [hrun]
    have hs := stage_loop_spec MAX_ARGS w ["echo".toList, PIPE] st []
    obtain ⟨c, hc⟩ := hs.2.2 (by decide)
    unfold run_pipeline
    cases hl : stage_loop MAX_ARGS w st ["echo".toList, PIPE] [] with
    | mk st1 r =>
      obtain ⟨ev, res⟩ := r
      rw [hl] at hs hc
      simp only at hc
      subst hc
      exact hs.1
  · intro ha hm
    rw [hrun]
    exact echo_pipe_fails MAX_ARGS w st ha hm

/-- C22, witness: the lines `ls '|' cat` and `ls | cat` give the same three
tokens and both run as a pipeline of two stages; with `/bin/echo` executable
the line `echo '|'` prints the empty-pipeline-segment error and spawns
nothing, where the single command `echo` with the argument `|` would have
been spawned. -/
theorem quoted_pipe_separates_witness :
    QUOTE ∉ "ls".toList ∧ QUOTE ∉ "cat\n".toList ∧
    parseline_no_subst "ls '|' cat\n".toList =
      { argv := ["ls".toList, PIPE, "cat".toList], warned := false } ∧
    parseline_no_subst "ls | cat\n".toList =
      { argv := ["ls".toList, PIPE, "cat".toList], warned := false } ∧
    (run_command 128 (sample_world (fun _ => 0)) initial_shell
      (parseline_no_subst "ls '|' cat\n".toList).argv).out =
      [Event.pipe 0,
        Event.fork 0 (Child.execv (some "/bin/ls".toList) ["ls".toList]),
        Event.fork 1 (Child.execv (some "/bin/cat".toList) ["cat".toList]),
        Event.waitpid 0, Event.waitpid 1] ∧
    (run_command 128 (sample_world (fun _ => 0)) initial_shell ["echo".toList, PIPE]).code =
      Outcome.ret EXIT_FAILURE ∧
    run_command 128
      { sample_world (fun _ => 0) with access_x := fun p => decide (p = "/bin/echo".toList) }
      initial_shell (parseline_no_subst "echo '|'".toList).argv =
      { st := initial_shell, out := [Event.stderr Msg.EMPTY_PIPE_SEGMENT],
        code := Outcome.ret EXIT_FAILURE } ∧
    execute_one
      { sample_world (fun _ => 0) with access_x := fun p => decide (p = "/bin/echo".toList) }
      initial_shell ["echo".toList, PIPE] =
      { st := initial_shell,
        out := [Event.fork 0 (Child.execv (some "/bin/echo".toList) ["echo".toList, PIPE]),
          Event.waitpid 0],
        code := Outcome.ret EXIT_SUCCESS } :=
  have h := quoted_pipe_separates 128 (sample_world (fun _ => 0)) initial_shell
    "ls".toList "cat\n".toList (by decide) (by decide)
  ⟨by decide, by decide, h.2.1, h.1 ▸ h.2.1,
    (congrArg Run.out h.2.2.1).trans (by decide),
    h.2.2.2.2.2.2.2.2 (by decide) (by decide), by decide, by decide⟩

/-! ## C21: the stages of a pipeline -/

theorem segments_from_ne_nil : ∀ (rest cur : List CStr), segments_from cur rest ≠ []
  | [], cur => by simp [segments_from]
  | t :: rest, cur => by
    unfold segments_from
    split
    · simp
    · exact segments_from_ne_nil rest _

theorem segments_from_length : ∀ (rest cur : List CStr),
    (segments_from cur rest).length = (rest.filter (fun t => decide (t = PIPE))).length + 1
  | [], cur => by simp [segments_from]
  | t :: rest, cur => by
    by_cases ht : t = PIPE
    · simp [segments_from, ht, segments_from_length rest []]
    · simp [segments_from, ht, segments_from_length rest (cur ++ [t])]

theorem segments_from_pipe_free : ∀ (rest cur : List CStr), PIPE ∉ cur →
    ∀ seg ∈ segments_from cur rest, PIPE ∉ seg
  | [], cur, hc, seg, h => by
    simp only [segments_from, List.mem_singleton] at h
    rw [h]; exact hc
  | t :: rest, cur, hc, seg, h => by
    by_cases ht : t = PIPE
    · simp only [segments_from, ht, if_true, List.mem_cons] at h
      rcases h with e | e
      · rw [e]; exact hc
      · exact segments_from_pipe_free rest [] (by simp) seg e
    · simp only [segments_from, ht, if_false] at h
      refine segments_from_pipe_free rest (cur ++ [t]) ?_ seg h
      simp only [List.mem_append, List.mem_singleton, not_or]
      exact ⟨hc, fun e => ht e.symm⟩

theorem segments_from_join : ∀ (rest cur : List CStr),
    [PIPE].intercalate (segments_from cur rest) = cur ++ rest
  | [], cur => by simp [segments_from, List.intercalate]
  | t :: rest, cur => by
    by_cases ht : t = PIPE
    · have ih := segments_from_join rest []
      simp only [segments_from, ht, if_true]
      cases hs : segments_from [] rest with
      | nil => exact absurd hs (segments_from_ne_nil rest [])
      | cons a b =>
        rw [hs] at ih
        simp [List.intercalate, List.intersperse] at ih ⊢
        exact ih
    · have ih := segments_from_join rest (cur ++ [t])
      simp only [segments_from, ht, if_false]
      rw [ih]; simp

theorem spawned_argvs_append (a b : List Event) :
    spawned_argvs (a ++ b) = spawned_argvs a ++ spawned_argvs b := by
  simp [spawned_argvs, List.filterMap_append]

theorem spawned_argvs_of_not_spawns (ev : List Event) (h : ∀ e ∈ ev, e.spawns = false) :
    spawned_argvs ev = [] := by
  unfold spawned_argvs
  rw [List.filterMap_eq_nil_iff]
  intro e he
  have hs := h e he
  cases e <;> first | rfl | simp [Event.spawns] at hs

theorem stage_child_argv (s : Stage) : (stage_child s).argv = s.use_argv := by
  unfold stage_child
  split
  · rfl
  · split <;> rfl

theorem fork_loop_spawned (w : World) (hf : ∀ j, w.fork_ok j = true) :
    ∀ (l : List Stage) (i : Nat),
    spawned_argvs (fork_loop w i l).1 = l.map Stage.use_argv
  | [], _ => rfl
  | s :: l, i => by
    have ih := fork_loop_spawned w hf l (i + 1)
    rw [fork_loop]
    simp only [hf i, if_true]
    cases hl : fork_loop w (i + 1) l with
    | mk ev ok =>
      rw [hl] at ih
      simp only at ih
      simp [spawned_argvs, Event.spawned_argv, stage_child_argv] at ih ⊢
      exact ih

theorem pipe_loop_spawned (w : World) : ∀ (k i : Nat),
    spawned_argvs (pipe_loop w i k).1 = []
  | 0, _ => rfl
  | k + 1, i => by
    have ih := pipe_loop_spawned w k (i + 1)
    rw [pipe_loop]
    split
    · cases hl : pipe_loop w (i + 1) k with
      | mk ev ok =>
        rw [hl] at ih
        simp [spawned_argvs, Event.spawned_argv] at ih ⊢
        exact ih
    · rfl

theorem waitpid_spawned (n : Nat) :
    spawned_argvs ((List.range n).map Event.waitpid) = [] := by
  apply spawned_argvs_of_not_spawns
  intro e he
  simp only [List.mem_map] at he
  obtain ⟨i, _, rfl⟩ := he
  rfl

theorem stage_use_argv_eq (MAX_ARGS : Nat) (hm : HashMap) (seg : List CStr) :
    stage_use_argv MAX_ARGS hm seg =
      (expand_once hm (seg.take (MAX_ARGS - 1))).take (MAX_ARGS - 1) := by
  unfold stage_use_argv
  cases ht : seg.take (MAX_ARGS - 1) with
  | nil => simp [maybe_expand_leading_alias, expand_once]
  | cons a0 rest =>
    have hl : (a0 :: rest).length ≤ MAX_ARGS - 1 := by
      rw [← ht, List.length_take]; omega
    cases ha : hm_get hm a0 with
    | none =>
      rw [expand_unbound MAX_ARGS hm a0 rest ha]
      simp only [expand_once, ha]
      exact (List.take_of_length_le hl).symm
    | some V =>
      rw [expand_bound MAX_ARGS hm a0 V rest ha]
      simp only [expand_once, ha]

theorem stage_use_argv_length (MAX_ARGS : Nat) (hm : HashMap) (seg : List CStr) :
    (stage_use_argv MAX_ARGS hm seg).length ≤ MAX_ARGS - 1 := by
  rw [stage_use_argv_eq, List.length_take]
  omega

theorem resolve_segment_ok_use (MAX_ARGS : Nat) (w : World) (st : Shell) (seg : List CStr)
    (s : Stage) (h : (resolve_segment MAX_ARGS w st seg).2.2 = Resolved.ok s) :
    s.use_argv = stage_use_argv MAX_ARGS st.alias_hm seg := by
  have key : ∀ p : Option CStr,
      Stage.use_argv ⟨seg.take (MAX_ARGS - 1),
        (maybe_expand_leading_alias MAX_ARGS st.alias_hm (seg.take (MAX_ARGS - 1))).out_argv,
        p⟩ = stage_use_argv MAX_ARGS st.alias_hm seg := by
    intro p
    unfold Stage.use_argv stage_use_argv
    cases (maybe_expand_leading_alias MAX_ARGS st.alias_hm (seg.take (MAX_ARGS - 1))).out_argv
      <;> rfl
  revert h
  simp only [resolve_segment]
  split
  · simp
  · split
    · intro h
      simp only [Resolved.ok.injEq] at h
      rw [← h]; exact key _
    · split
      · split
        · intro h
          simp only [Resolved.ok.injEq] at h
          rw [← h]; exact key _
        · simp
      · split
        · simp
        · simp
        · intro h
          simp only [Resolved.ok.injEq] at h
          rw [← h]; exact key _

theorem stage_loop_stages_use (MAX_ARGS : Nat) (w : World) :
    ∀ (rest : List CStr) (st : Shell) (cur : List CStr) (st1 : Shell) (ev : List Event)
      (l : List Stage),
    stage_loop MAX_ARGS w st rest cur = (st1, ev, Resolution.stages l) →
    l.map Stage.use_argv = (segments_from cur rest).map (stage_use_argv MAX_ARGS st.alias_hm)
  | [], st, cur, st1, ev, l, h => by
    rw [stage_loop] at h
    cases hr : resolve_segment MAX_ARGS w st cur with
    | mk st2 r =>
      obtain ⟨ev2, res⟩ := r
      rw [hr] at h
      cases res with
      | abort c => simp at h
      | ok s =>
        simp only [Prod.mk.injEq, Resolution.stages.injEq] at h
        have hu := resolve_segment_ok_use MAX_ARGS w st cur s (by rw [hr])
        rw [← h.2.2]
        simp [segments_from, hu]
  | t :: rest, st, cur, st1, ev, l, h => by
    rw [stage_loop] at h
    by_cases ht : t = PIPE
    · simp only [ht, if_true] at h
      obtain ⟨b, hb⟩ := resolve_segment_state MAX_ARGS w st cur
      cases hr : resolve_segment MAX_ARGS w st cur with
      | mk st2 r =>
        obtain ⟨ev2, res⟩ := r
        rw [hr] at h hb
        simp only at hb
        cases res with
        | abort c => simp at h
        | ok s =>
          simp only at h
          have hu := resolve_segment_ok_use MAX_ARGS w st cur s (by rw [hr])
          cases hl : stage_loop MAX_ARGS w st2 rest [] with
          | mk st3 r3 =>
            obtain ⟨ev3, res3⟩ := r3
            rw [hl] at h
            cases res3 with
            | abort c => simp at h
            | stages l3 =>
              simp only [Prod.mk.injEq, Resolution.stages.injEq] at h
              have ih := stage_loop_stages_use MAX_ARGS w rest st2 [] st3 ev3 l3 hl
              rw [hb, warn_state_alias_hm] at ih
              rw [← h.2.2]
              simp [segments_from, ht, ih, hu]
    · simp only [ht, if_false] at h
      have ih := stage_loop_stages_use MAX_ARGS w rest st (cur ++ [t]) st1 ev l h
      simp [segments_from, ht, ih]

theorem stage_loop_resolves (MAX_ARGS : Nat) (w : World) :
    ∀ (rest : List CStr) (st : Shell) (cur : List CStr),
    (∀ seg ∈ segments_from cur rest, resolves MAX_ARGS w st seg) →
    ∃ st1 ev l, stage_loop MAX_ARGS w st rest cur = (st1, ev, Resolution.stages l)
  | [], st, cur, h => by
    obtain ⟨s, hs⟩ := h cur (by simp [segments_from])
    rw [stage_loop]
    cases hr : resolve_segment MAX_ARGS w st cur with
    | mk st2 r =>
      obtain ⟨ev2, res⟩ := r
      rw [hr] at hs
      simp only at hs
      subst hs
      exact ⟨_, _, _, rfl⟩
  | t :: rest, st, cur, h => by
    rw [stage_loop]
    by_cases ht : t = PIPE
    · simp only [ht, if_true]
      simp only [segments_from, ht, if_true] at h
      obtain ⟨s, hs⟩ := h cur (by simp)
      obtain ⟨b, hb⟩ := resolve_segment_state MAX_ARGS w st cur
      cases hr : resolve_segment MAX_ARGS w st cur with
      | mk st2 r =>
        obtain ⟨ev2, res⟩ := r
        rw [hr] at hs hb
        simp only at hs hb
        subst hs
        have h1 : st2.alias_hm = st.alias_hm := by rw [hb, warn_state_alias_hm]
        have h2 : st2.PATH = st.PATH := by rw [hb, warn_state_PATH]
        obtain ⟨st3, ev3, l3, hl⟩ := stage_loop_resolves MAX_ARGS w rest st2 []
          (fun seg hseg => resolves_env MAX_ARGS w st st2 seg h1 h2 (h seg (by simp [hseg])))
        simp only [hl]
        exact ⟨_, _, _, rfl⟩
    · simp only [ht, if_false]
      simp only [segments_from, ht, if_false] at h
      exact stage_loop_resolves MAX_ARGS w rest st (cur ++ [t]) h

theorem run_pipeline_spawned (MAX_ARGS : Nat) (w : World) (st : Shell) (argv : List CStr)
    (hres : ∀ seg ∈ pipeline_segments argv, resolves MAX_ARGS w st seg)
    (hpipe : ∀ i, w.pipe_ok i = true) (hfork : ∀ i, w.fork_ok i = true) :
    spawned_argvs (run_pipeline MAX_ARGS w st argv).out =
      (pipeline_segments argv).map (stage_use_argv MAX_ARGS st.alias_hm) := by
  obtain ⟨st1, ev, l, hl⟩ := stage_loop_resolves MAX_ARGS w argv st [] hres
  have hu := stage_loop_stages_use MAX_ARGS w argv st [] st1 ev l hl
  have hs := (stage_loop_spec MAX_ARGS w argv st []).1
  rw [hl] at hs
  simp only at hs
  rw [run_pipeline_of_stages MAX_ARGS w st argv st1 ev l hl hpipe hfork]
  simp only [spawned_argvs_append, spawned_argvs_of_not_spawns ev hs, pipe_loop_spawned,
    fork_loop_spawned w hfork, waitpid_spawned, List.nil_append, List.append_nil]
  exact hu

theorem builtin_dispatch_spawns (w : World) (st : Shell) (name : CStr) (use_argv : List CStr) :
    ∀ e ∈ (builtin_dispatch w st name use_argv).out, e.spawns = false := by
  have hcd : ∀ t, ∀ e ∈ (cd_to w st t).out, e.spawns = false := by
    intro t
    unfold cd_to
    split <;> simp [Event.spawns]
  have hab : ∀ a1 a2 v, ∀ e ∈ (alias_bind st a1 a2 v).out, e.spawns = false := by
    intro a1 a2 v
    unfold alias_bind alias_usage
    split
    · simp [Event.spawns]
    · split <;> simp [Event.spawns]
  unfold builtin_dispatch
  split
  · unfold builtin_exit
    split <;> simp [Event.spawns]
  · split
    · unfold builtin_path
      split
      · simp [Event.spawns]
      · split <;> simp [Event.spawns]
      · simp [Event.spawns]
    · split
      · unfold builtin_cd
        split
        · simp
        · split
          · simp [Event.spawns]
          · exact hcd _
        · exact hcd _
        · simp [Event.spawns]
      · split
        · unfold builtin_which
          split
          · split
            · simp [Event.spawns]
            · split
              · simp [Event.spawns]
              · split
                · split <;> simp [Event.spawns]
                · split
                  · rename_i ev heq
                    intro e he
                    exact find_in_path_events w _ _ e (by rw [heq]; exact he)
                  · rename_i ev heq
                    intro e he
                    rcases List.mem_append.mp he with h | h
                    · exact find_in_path_events w _ _ e (by rw [heq]; exact h)
                    · simp at h; subst h; rfl
                  · rename_i ev r heq
                    intro e he
                    rcases List.mem_append.mp he with h | h
                    · exact find_in_path_events w _ _ e (by rw [heq]; exact h)
                    · simp at h; subst h; rfl
          · simp [Event.spawns]
        · split
          · unfold builtin_history
            split
            · intro e he
              simp only [List.mem_filterMap] at he
              obtain ⟨i, _, hi⟩ := he
              cases hg : history_get_line st i with
              | none => simp [hg] at hi
              | some line => simp [hg] at hi; subst hi; rfl
            · simp only []
              split
              · simp [Event.spawns]
              · split
                · simp [Event.spawns]
                · split <;> simp [Event.spawns]
            · simp [Event.spawns]
          · split
            · unfold builtin_alias
              split
              · simp [Event.spawns]
              · exact hab _ _ _
              · exact hab _ _ _
              · unfold alias_usage; simp [Event.spawns]
            · split
              · unfold builtin_unalias
                split
                · split <;> simp [Event.spawns]
                · simp [Event.spawns]
              · simp

theorem execute_one_spawned (w : World) (st : Shell) (argv : List CStr) :
    (spawned_argvs (execute_one w st argv).out = [] ∨
      spawned_argvs (execute_one w st argv).out = [argv]) ∧
    ∀ i, Event.pipe i ∉ (execute_one w st argv).out := by
  cases argv with
  | nil => simp [execute_one, spawned_argvs]
  | cons a0 rest =>
    have hev : ∀ ev, (∀ e ∈ ev, e.spawns = false) →
        spawned_argvs ev = [] ∧ ∀ i, Event.pipe i ∉ ev := by
      intro ev h
      refine ⟨spawned_argvs_of_not_spawns ev h, ?_⟩
      intro i hi
      have := h _ hi
      simp [Event.spawns] at this
    have hres : ∀ e ∈ (if is_abs_or_rel (some a0) = true then
        (([] : List Event), Outcome.ret (some a0))
        else find_in_path w st.PATH (some a0)).1, e.spawns = false := by
      split
      · simp
      · exact find_in_path_events w _ _
    simp only [execute_one]
    split
    · rename_i ev heq
      rw [heq] at hres
      have := hev ev hres
      exact ⟨Or.inl this.1, this.2⟩
    · rename_i ev heq
      rw [heq] at hres
      have := hev ev hres
      refine ⟨Or.inl ?_, ?_⟩
      · rw [spawned_argvs_append, this.1]
        split <;> simp [spawned_argvs, Event.spawned_argv]
      · intro i hi
        rcases List.mem_append.mp hi with h | h
        · exact this.2 i h
        · split at h <;> simp at h
    · rename_i ev p heq
      rw [heq] at hres
      have := hev ev hres
      split
      · split
        · refine ⟨Or.inr ?_, ?_⟩
          · rw [spawned_argvs_append, this.1]
            simp [spawned_argvs, Event.spawned_argv, Child.argv]
          · intro i hi
            rcases List.mem_append.mp hi with h | h
            · exact this.2 i h
            · simp at h
        · refine ⟨Or.inr ?_, ?_⟩
          · rw [spawned_argvs_append, this.1]
            simp [spawned_argvs, Event.spawned_argv, Child.argv]
          · intro i hi
            rcases List.mem_append.mp hi with h | h
            · exact this.2 i h
            · simp at h
      · refine ⟨Or.inl ?_, ?_⟩
        · rw [spawned_argvs_append, this.1]
          simp [spawned_argvs, Event.spawned_argv]
        · intro i hi
          rcases List.mem_append.mp hi with h | h
          · exact this.2 i h
          · simp at h

theorem run_command_single (MAX_ARGS : Nat) (w : World) (st : Shell) (argv : List CStr)
    (hp : PIPE ∉ argv) :
    (∀ i, Event.pipe i ∉ (run_command MAX_ARGS w st argv).out) ∧
    (spawned_argvs (run_command MAX_ARGS w st argv).out = [] ∨
      spawned_argvs (run_command MAX_ARGS w st argv).out = [expand_once st.alias_hm argv] ∨
      spawned_argvs (run_command MAX_ARGS w st argv).out =
        [(expand_once st.alias_hm argv).take (MAX_ARGS - 1)]) := by
  have hw : ∀ b, (∀ i, Event.pipe i ∉ warn_events b) ∧ spawned_argvs (warn_events b) = [] := by
    intro b
    cases b <;> simp [warn_events, spawned_argvs, Event.spawned_argv]
  have hrun : ∀ (st1 : Shell) (use_argv : List CStr) (b : Bool),
      (∀ i, Event.pipe i ∉ warn_events b ++
        (if is_builtin_name use_argv.head? = true then
          builtin_dispatch w st1 (use_argv.head?.getD []) use_argv
        else execute_one w st1 use_argv).out) ∧
      (spawned_argvs (warn_events b ++
        (if is_builtin_name use_argv.head? = true then
          builtin_dispatch w st1 (use_argv.head?.getD []) use_argv
        else execute_one w st1 use_argv).out) = [] ∨
       spawned_argvs (warn_events b ++
        (if is_builtin_name use_argv.head? = true then
          builtin_dispatch w st1 (use_argv.head?.getD []) use_argv
        else execute_one w st1 use_argv).out) = [use_argv]) := by
    intro st1 use_argv b
    rw [spawned_argvs_append, (hw b).2, List.nil_append]
    split
    · have hb := builtin_dispatch_spawns w st1 (use_argv.head?.getD []) use_argv
      refine ⟨?_, Or.inl (spawned_argvs_of_not_spawns _ hb)⟩
      intro i hi
      rcases List.mem_append.mp hi with h | h
      · exact (hw b).1 i h
      · have := hb _ h
        simp [Event.spawns] at this
    · have he := execute_one_spawned w st1 use_argv
      refine ⟨?_, he.1⟩
      intro i hi
      rcases List.mem_append.mp hi with h | h
      · exact (hw b).1 i h
      · exact he.2 i h
  cases argv with
  | nil => simp [run_command, spawned_argvs]
  | cons a0 rest =>
    cases ha : hm_get st.alias_hm a0 with
    | none =>
      have he := expand_unbound MAX_ARGS st.alias_hm a0 rest ha
      have h := hrun (warn_state false st) (a0 :: rest) false
      simp only [run_command, any_pipe_false _ hp, he, expand_once, ha]
      simp only [List.length_cons, Nat.succ_ne_zero, if_false, Bool.false_eq_true]
      rcases h.2 with h2 | h2
      · exact ⟨h.1, Or.inl h2⟩
      · exact ⟨h.1, Or.inr (Or.inl h2)⟩
    | some V =>
      have he := expand_bound MAX_ARGS st.alias_hm a0 V rest ha
      have h := hrun (warn_state (parseline_no_subst V).warned st)
        (((parseline_no_subst V).argv ++ rest).take (MAX_ARGS - 1)) (parseline_no_subst V).warned
      simp only [run_command, any_pipe_false _ hp, he, expand_once, ha]
      simp only [List.length_cons, Nat.succ_ne_zero, if_false, Bool.false_eq_true]
      rcases h.2 with h2 | h2
      · exact ⟨h.1, Or.inl h2⟩
      · exact ⟨h.1, Or.inr (Or.inr h2)⟩

theorem resolve_segment_found (MAX_ARGS : Nat) (w : World) (st : Shell) (seg : List CStr)
    (name p : CStr) (hne : seg ≠ [])
    (hh : (stage_use_argv MAX_ARGS st.alias_hm seg).head? = some name)
    (hb : is_builtin_name (some name) = false) (ha : is_abs_or_rel (some name) = false)
    (hf : (find_in_path w st.PATH (some name)).2 = Outcome.ret (some p)) :
    resolves MAX_ARGS w st seg := by
  have hl : seg.length ≠ 0 := fun e => hne (List.length_eq_zero.mp e)
  unfold stage_use_argv at hh
  unfold resolves
  simp only [resolve_segment, hl, if_false, hh, hb, ha, Bool.false_eq_true, warn_state_PATH]
  cases hfp : find_in_path w st.PATH (some name) with
  | mk ev r =>
    rw [hfp] at hf
    simp only at hf
    subst hf
    exact ⟨_, rfl⟩

theorem segments_from_plain : ∀ (a cur : List CStr), PIPE ∉ a →
    segments_from cur a = [cur ++ a]
  | [], cur, _ => by simp [segments_from]
  | t :: a, cur, h => by
    simp only [List.mem_cons, not_or] at h
    have ht : ¬ t = PIPE := fun e => h.1 e.symm
    simp [segments_from, ht, segments_from_plain a (cur ++ [t]) h.2]

theorem long_stage_line_segments (n : Nat) :
    pipeline_segments (long_stage_line n) =
      ["t".toList :: List.replicate n "y".toList, ["true".toList]] := by
  have h1 : PIPE ∉ "t".toList :: List.replicate n "y".toList := by
    simp only [List.mem_cons, List.mem_replicate, not_or, not_and]
    exact ⟨by decide, fun _ => by decide⟩
  have h2 : PIPE ∉ ["true".toList] := by decide
  unfold pipeline_segments long_stage_line
  rw [show "t".toList :: List.replicate n "y".toList ++ [PIPE, "true".toList] =
    ("t".toList :: List.replicate n "y".toList) ++ PIPE :: ["true".toList] from rfl,
    segments_from_pipe, segments_from_plain _ _ h1, segments_from_plain _ _ h2]
  rfl

theorem long_stage_line_resolves (k : Nat) :
    ∀ seg ∈ pipeline_segments (long_stage_line k),
      resolves (k + 4) (sample_world (fun _ => 0)) long_alias_shell seg := by
  have hg : hm_get long_alias_shell.alias_hm "t".toList = some "true x x x".toList := by decide
  have hn : hm_get long_alias_shell.alias_hm "true".toList = none := by decide
  have hP : (parseline_no_subst "true x x x".toList).argv =
      ["true".toList, "x".toList, "x".toList, "x".toList] := by decide
  have hf : (find_in_path (sample_world (fun _ => 0)) long_alias_shell.PATH
      (some "true".toList)).2 = Outcome.ret (some "/bin/true".toList) := by decide
  intro seg hseg
  rw [long_stage_line_segments] at hseg
  simp only [List.mem_cons, List.mem_singleton, List.not_mem_nil, or_false] at hseg
  rcases hseg with rfl | rfl
  · refine resolve_segment_found _ _ _ _ "true".toList "/bin/true".toList (by simp) ?_
      (by decide) (by decide) hf
    rw [stage_use_argv_eq]
    have ht : ("t".toList :: List.replicate k "y".toList).take (k + 4 - 1) =
        "t".toList :: List.replicate k "y".toList :=
      List.take_of_length_le (by simp)
    rw [ht]
    simp only [expand_once, hg, hP]
    rfl
  · refine resolve_segment_found _ _ _ _ "true".toList "/bin/true".toList (by simp) ?_
      (by decide) (by decide) hf
    rw [stage_use_argv_eq]
    have ht : (["true".toList] : List CStr).take (k + 4 - 1) = ["true".toList] :=
      List.take_of_length_le (by simp)
    rw [ht]
    simp only [expand_once, hn]
    rfl

/-- C21 (as amended): in a state whose alias texts fit in `tmp_argv` (each
has fewer than `MAX_ARGS` tokens), for a token list of at most 128 segments
whose segments all resolve, with every `pipe` and `fork` call succeeding,
`run_pipeline`
spawns one process per segment of the original token list, in order: their
number is the number of `|` tokens plus one, the segments are the runs of
tokens between successive `|` tokens (joined by `|` they give the list back,
and none holds a `|`), and the process of a segment runs with the first
`MAX_ARGS - 1` tokens of the segment, the first token of these alias-expanded
once and the result again cut to `MAX_ARGS - 1` tokens; so with exactly the
segment alias-expanded once whenever neither exceeds `MAX_ARGS - 1` tokens.
A `|` that comes from an alias text is an argument of its stage and adds no
stage.  `run_command` hands a token list with a `|` to `run_pipeline`, and
for one without `|` creates no pipe and spawns at most one process, which
runs with the list alias-expanded once (cut to `MAX_ARGS - 1` tokens when an
alias was expanded), whatever the alias text holds. -/
theorem pipeline_stages_from_segments (MAX_ARGS : Nat) (w : World) (st : Shell)
    (argv : List CStr)
    (_h128 : (pipeline_segments argv).length ≤ 128)
    (_hfit : alias_texts_fit MAX_ARGS st.alias_hm)
    (hres : ∀ seg ∈ pipeline_segments argv, resolves MAX_ARGS w st seg)
    (hpipe : ∀ i, w.pipe_ok i = true) (hfork : ∀ i, w.fork_ok i = true) :
    spawned_argvs (run_pipeline MAX_ARGS w st argv).out =
      (pipeline_segments argv).map (fun seg =>
        (expand_once st.alias_hm (seg.take (MAX_ARGS - 1))).take (MAX_ARGS - 1)) ∧
    (spawned_argvs (run_pipeline MAX_ARGS w st argv).out).length =
      (argv.filter (fun t => decide (t = PIPE))).length + 1 ∧
    [PIPE].intercalate (pipeline_segments argv) = argv ∧
    (∀ seg ∈ pipeline_segments argv, PIPE ∉ seg) ∧
    ((∀ seg ∈ pipeline_segments argv,
        seg.length ≤ MAX_ARGS - 1 ∧ (expand_once st.alias_hm seg).length ≤ MAX_ARGS - 1) →
      spawned_argvs (run_pipeline MAX_ARGS w st argv).out =
        (pipeline_segments argv).map (expand_once st.alias_hm)) ∧
    (PIPE ∈ argv → run_command MAX_ARGS w st argv = run_pipeline MAX_ARGS w st argv) ∧
    (∀ argv2, PIPE ∉ argv2 →
      (∀ i, Event.pipe i ∉ (run_command MAX_ARGS w st argv2).out) ∧
      (spawned_argvs (run_command MAX_ARGS w st argv2).out = [] ∨
        spawned_argvs (run_command MAX_ARGS w st argv2).out = [expand_once st.alias_hm argv2] ∨
        spawned_argvs (run_command MAX_ARGS w st argv2).out =
          [(expand_once st.alias_hm argv2).take (MAX_ARGS - 1)])) := by
  have hfun : stage_use_argv MAX_ARGS st.alias_hm = fun seg =>
      (expand_once st.alias_hm (seg.take (MAX_ARGS - 1))).take (MAX_ARGS - 1) :=
    funext (fun seg => stage_use_argv_eq MAX_ARGS st.alias_hm seg)
  have h1 := run_pipeline_spawned MAX_ARGS w st argv hres hpipe hfork
  rw [hfun] at h1
  refine ⟨h1, ?_, ?_, ?_, ?_, ?_, ?_⟩
  · rw [h1, List.length_map]
    exact segments_from_length argv []
  · exact segments_from_join argv []
  · exact segments_from_pipe_free argv [] (by simp)
  · intro hfit
    rw [h1]
    apply List.map_congr_left
    intro seg hseg
    obtain ⟨ha, hb⟩ := hfit seg hseg
    rw [List.take_of_length_le ha, List.take_of_length_le hb]
  · exact run_command_pipe MAX_ARGS w st argv
  · intro argv2 hp
    exact run_command_single MAX_ARGS w st argv2 hp

/-- C21, witness: with `ll` an alias for `ls -l | true`, the tokens
`ll | cat` run as two stages, the first with the arguments `ls -l | true`;
the single command `ll` runs as one process with the same arguments. -/
theorem pipeline_stages_from_segments_witness :
    spawned_argvs (run_pipeline 128 (sample_world (fun _ => 0))
      { initial_shell with alias_hm := [("ll".toList, "ls -l | true".toList)] }
      ["ll".toList, PIPE, "cat".toList]).out =
      [["ls".toList, "-l".toList, PIPE, "true".toList], ["cat".toList]] ∧
    spawned_argvs (run_command 128 (sample_world (fun _ => 0))
      { initial_shell with alias_hm := [("ll".toList, "ls -l | true".toList)] }
      ["ll".toList]).out = [["ls".toList, "-l".toList, PIPE, "true".toList]] ∧
    (∀ i, Event.pipe i ∉ (run_command 128 (sample_world (fun _ => 0))
      { initial_shell with alias_hm := [("ll".toList, "ls -l | true".toList)] }
      ["ll".toList]).out) :=
  have h := pipeline_stages_from_segments 128 (sample_world (fun _ => 0))
    { initial_shell with alias_hm := [("ll".toList, "ls -l | true".toList)] }
    ["ll".toList, PIPE, "cat".toList] (by decide)
    (by decide)
    (fun seg hseg => by
      have e : pipeline_segments ["ll".toList, PIPE, "cat".toList] =
          [["ll".toList], ["cat".toList]] := by decide
      rw [e] at hseg
      simp only [List.mem_cons, List.mem_singleton, List.not_mem_nil, or_false] at hseg
      rcases hseg with rfl | rfl
      · exact ⟨{ seg_argv := ["ll".toList],
                 exp_argv := some ["ls".toList, "-l".toList, PIPE, "true".toList],
                 exec_path := some "/bin/ls".toList }, by decide⟩
      · exact ⟨{ seg_argv := ["cat".toList], exp_argv := none,
                 exec_path := some "/bin/cat".toList }, by decide⟩)
    (fun _ => rfl) (fun _ => rfl)
  ⟨h.1.trans (by decide), by decide, (h.2.2.2.2.2.2 ["ll".toList] (by decide)).1⟩

/-- C21, counterexample: whatever the value of `MAX_ARGS` (from 4 on, below
which no pipeline without empty segment fits in `argv`), the claim fails for
token lists that fit in `argv`.  With `t` an alias for `true x x x`, and the
tokens `t y ... y | true` (`MAX_ARGS - 1` of them), both stages resolve, but
the first is not its segment alias-expanded once: that has `MAX_ARGS` tokens
and the stage runs with `MAX_ARGS - 1`, the last `y` being dropped. -/
theorem long_stage_is_cut :
    ¬ ∃ MAX_ARGS : Nat, 4 ≤ MAX_ARGS ∧
      ∀ (st : Shell) (argv : List CStr), argv.length < MAX_ARGS → PIPE ∈ argv →
        [] ∉ pipeline_segments argv → (pipeline_segments argv).length ≤ 128 →
        (∀ seg ∈ pipeline_segments argv,
          resolves MAX_ARGS (sample_world (fun _ => 0)) st seg) →
        spawned_argvs (run_pipeline MAX_ARGS (sample_world (fun _ => 0)) st argv).out =
          (pipeline_segments argv).map (expand_once st.alias_hm) := by
  rintro ⟨M, hM, h⟩
  obtain ⟨k, rfl⟩ : ∃ k, M = k + 4 := ⟨M - 4, by omega⟩
  have hseg := long_stage_line_segments k
  have hres := long_stage_line_resolves k
  have hg : hm_get long_alias_shell.alias_hm "t".toList = some "true x x x".toList := by decide
  have hP : (parseline_no_subst "true x x x".toList).argv =
      ["true".toList, "x".toList, "x".toList, "x".toList] := by decide
  have h1 := h long_alias_shell (long_stage_line k) (by simp [long_stage_line])
    (by simp [long_stage_line]) (by rw [hseg]; simp) (by rw [hseg]; simp) hres
  rw [run_pipeline_spawned _ _ _ _ hres (fun _ => rfl) (fun _ => rfl), hseg] at h1
  simp only [List.map_cons, List.cons.injEq] at h1
  have h2 := congrArg List.length h1.1
  have h3 := stage_use_argv_length (k + 4) long_alias_shell.alias_hm
    ("t".toList :: List.replicate k "y".toList)
  have h4 : (expand_once long_alias_shell.alias_hm
      ("t".toList :: List.replicate k "y".toList)).length = k + 4 := by
    simp only [expand_once, hg, hP, List.length_append, List.length_cons, List.length_nil,
      List.length_replicate]
    omega
  omega

end Wsh
